import Mathlib

/-! Redirection engine of the NetBSD shell (`bin/sh/redir.c`).

A shallow embedding of `src/bin/sh/redir.c`.  The operating system's descriptor
table is an explicit component of the state; every system call used by the
file (`open`, `close`, `dup2`, `dup3`, `fcntl`, `pipe`) is a function on that
table.  `error()` (a `longjmp` to the shell's error boundary) is the `err`
outcome of a computation and carries the state reached when it was raised.
The built-in `fdflags` works on the status flags of the open files, which
`F_GETFL` and `F_SETFL` read and write.
-/

namespace Redir

/-! ## The operating system: descriptor table -/

/-- An open file description: what a descriptor refers to. -/
inductive Obj where
  | file (id : Nat)
  | pipeRd (p : Nat)
  | pipeWr (p : Nat)
deriving DecidableEq, Repr

/-- One slot of the descriptor table: the object and the close-on-exec flag. -/
structure FdEnt where
  obj : Obj
  cloexec : Bool
deriving DecidableEq, Repr

/-- The descriptor table.  Its length is the descriptor limit of the process
(`RLIMIT_NOFILE`); slot `i` is `none` when descriptor `i` is not open. -/
abbrev Tab := List (Option FdEnt)

inductive Errno where
  | EBADF
  | EMFILE
  | EINVAL
  | EEXIST
  | EOTHER (n : Nat)
deriving DecidableEq, Repr

/-- Flags given to `open(2)` by this file. -/
inductive OFlag where
  | O_RDONLY
  | O_WRONLY
  | O_RDWR
  | O_CREAT
  | O_EXCL
  | O_TRUNC
  | O_APPEND
  | O_NONBLOCK
deriving DecidableEq, Repr

/-! ## Syntax tree nodes of redirections (`nodes.h`) -/

inductive NType where
  | NTO
  | NCLOBBER
  | NFROM
  | NFROMTO
  | NAPPEND
  | NTOFD
  | NFROMFD
  | NHERE
  | NXHERE
deriving DecidableEq, Repr

/-- A redirection node.  The C type is a union (`nfile`, `ndup`, `nhere`) whose
members share `type` and `fd`; here every member's fields are present:
`expfname` (`nfile.expfname`), `dupfd` (`ndup.dupfd`, negative for `>&-`) and
`doc` (the bytes of `nhere.doc->narg.text`). -/
structure Node where
  type : NType
  fd : Nat
  expfname : String
  dupfd : Int
  doc : List Nat
deriving DecidableEq, Repr

/-- The `flags` argument of `redirect`: one boolean for each mask of `redir.h`
that the code tests with `flags & REDIR_...`. -/
structure RFlags where
  REDIR_PUSH : Bool
  REDIR_BACKQ : Bool
  REDIR_VFORK : Bool
  REDIR_KEEP : Bool
deriving DecidableEq, Repr

/-! ## Shell state -/

/-- `struct renamelist` without its link: `orig` was saved as `into`
(`CLOSED` when `orig` was not open). -/
structure Rename where
  orig : Nat
  into : Int
deriving DecidableEq, Repr

/-- `struct shell_fds` without its link; the callback is identified by a
number, its calls are recorded in `State.cbLog`. -/
structure ShellFd where
  cb : Nat
  fd : Nat
deriving DecidableEq, Repr

/-- A here-document writer process created by `forkshell`: the pipe it writes
to and the bytes it writes before it exits. -/
structure Helper where
  pipe : Nat
  text : List Nat
deriving DecidableEq, Repr

def CLOSED : Int := -1

structure State where
  /-- the descriptor table of the process -/
  fds : Tab
  /-- `redirlist`: the stack of `struct redirtab`, top first; each frame is its
  `renamed` list, most recent entry first -/
  redirlist : List (List Rename)
  fd0_redirected : Int
  big_sh_fd : Nat
  /-- the static variable of `find_big_fd` -/
  last_start : Nat
  max_user_fd : Nat
  sh_fd_list : List ShellFd
  /-- calls of the callbacks of `sh_fd_list`: `(cb, old, new)`, oldest first -/
  cbLog : List (Nat × Nat × Nat)
  /-- bytes written so far into each pipe, indexed by pipe number -/
  pipes : List (List Nat)
  /-- writer processes forked so far, most recent first -/
  helpers : List Helper
  /-- number of `open`/`fstat` calls made so far (argument of the oracle) -/
  clock : Nat
  /-- `out1 == &memout` -/
  out1mem : Bool
  /-- `out2 == &memout` -/
  out2mem : Bool
  /-- the file status flags of the open files, as `F_GETFL` reports them: the
  most recent pair for an object counts, an object without a pair has none set -/
  fl : List (Obj × Nat) := []
  /-- the calls `fcntl(fd, F_SETFL, n)` made so far: `(fd, n)`, oldest first -/
  setflLog : List (Nat × Nat) := []
  /-- the text written to `out1` by `printone`, oldest first -/
  out1text : List Char := []
deriving DecidableEq, Repr

/-- What lies outside the process: the file system, answered by an oracle that
may answer differently at every call, the shell options `posix` and `Cflag`,
the constant `PIPESIZE` (`PIPE_BUF` of the system headers) and the word
expansion of a here-document (`expandhere`, in `expand.c`). -/
structure Env where
  openFile : Nat → String → List OFlag → Except Errno Nat
  fstatReg : Nat → Obj → Except Errno Bool
  posix : Bool
  Cflag : Bool
  PIPESIZE : Nat
  expandhere : List Nat → List Nat

/-- Outcome of a shell computation: a value, or `error()` having been called;
both with the state reached. -/
inductive Res (α : Type) where
  | ok (a : α) (s : State)
  | err (msg : String) (s : State)

/-- State reached by a computation, whatever its outcome. -/
def Res.st {α : Type} : Res α → State
  | .ok _ s => s
  | .err _ s => s

def Res.isOk {α : Type} : Res α → Bool
  | .ok _ _ => true
  | .err _ _ => false

/-- The value that the computation returned, if it returned. -/
def Res.val {α : Type} : Res α → Option α
  | .ok a _ => some a
  | .err _ _ => none

/-- Shell computations. -/
def M (α : Type) : Type := State → Res α

def M.pure {α : Type} (a : α) : M α := fun s => .ok a s

def M.bind {α β : Type} (m : M α) (f : α → M β) : M β := fun s =>
  match m s with
  | .ok a s1 => f a s1
  | .err e s1 => .err e s1

instance : Monad M where
  pure := M.pure
  bind := M.bind

/-- The call `error(msg)`. -/
def error {α : Type} (msg : String) : M α := fun s => .err msg s

def getState : M State := fun s => .ok s s

def modifyState (f : State → State) : M Unit := fun s => .ok () (f s)

/-! ### System calls -/

/-- Descriptor `fd` of the table (`none`: not open). -/
def getFd (t : Tab) (fd : Nat) : Option FdEnt := t.getD fd none

/-- First free descriptor of `t`, the head of `t` being descriptor `i`. -/
def lowestFreeFrom : Tab → Nat → Option Nat
  | [], _ => none
  | e :: t, i => if e.isNone then some i else lowestFreeFrom t (i + 1)

/-- Lowest free descriptor that is at least `min` and below the limit. -/
def lowestFree (t : Tab) (min : Nat) : Option Nat := lowestFreeFrom (t.drop min) min

/-- The call `close(fd)`; its result is ignored everywhere in this file. -/
def close (fd : Nat) : M Unit :=
  modifyState fun s => { s with fds := s.fds.set fd none }

/-- The calls `fcntl(fd, F_DUPFD, min)` (`cloexec = false`) and
`fcntl(fd, F_DUPFD_CLOEXEC, min)` (`cloexec = true`). -/
def fcntl_DUPFD (cloexec : Bool) (fd min : Nat) : M (Except Errno Nat) := fun s =>
  match getFd s.fds fd with
  | none => .ok (.error .EBADF) s
  | some e =>
    if s.fds.length ≤ min then .ok (.error .EINVAL) s
    else match lowestFree s.fds min with
      | none => .ok (.error .EMFILE) s
      | some r => .ok (.ok r) { s with fds := s.fds.set r (some { obj := e.obj, cloexec := cloexec }) }

/-- The call `fcntl(fd, F_SETFD, v)`: `true` stands for `FD_CLOEXEC`, `false`
for `0`.  Returns `false` when the call fails (`-1`). -/
def fcntl_SETFD (fd : Nat) (v : Bool) : M Bool := fun s =>
  match getFd s.fds fd with
  | none => .ok false s
  | some e => .ok true { s with fds := s.fds.set fd (some { e with cloexec := v }) }

/-- The calls `dup2(from, to)` (`cloexec = false`) and
`dup3(from, to, O_CLOEXEC)` (`cloexec = true`).  With `from == to` the table is
left as it is and `to` is returned. -/
def dup3 (src dst : Nat) (cloexec : Bool) : M (Except Errno Nat) := fun s =>
  match getFd s.fds src with
  | none => .ok (.error .EBADF) s
  | some e =>
    if s.fds.length ≤ dst then .ok (.error .EBADF) s
    else if src = dst then .ok (.ok dst) s
    else .ok (.ok dst) { s with fds := s.fds.set dst (some { obj := e.obj, cloexec := cloexec }) }

/-- The call `open(path, flags, 0666)`: the oracle decides whether the file
can be opened and which object it is; the descriptor is the lowest free one. -/
def sys_open (env : Env) (path : String) (fl : List OFlag) : M (Except Errno Nat) := fun s =>
  let s1 := { s with clock := s.clock + 1 }
  match env.openFile s.clock path fl with
  | .error e => .ok (.error e) s1
  | .ok id =>
    match lowestFree s.fds 0 with
    | none => .ok (.error .EMFILE) s1
    | some f => .ok (.ok f) { s1 with fds := s.fds.set f (some { obj := .file id, cloexec := false }) }

/-- The call `fstat(fd, &sb)` followed by `S_ISREG(sb.st_mode)`. -/
def sys_fstat_isreg (env : Env) (fd : Nat) : M (Except Errno Bool) := fun s =>
  let s1 := { s with clock := s.clock + 1 }
  match getFd s.fds fd with
  | none => .ok (.error .EBADF) s1
  | some e => .ok (env.fstatReg s.clock e.obj) s1

/-- The call `pipe(pip)`: a new pipe, its read end on the lowest free
descriptor and its write end on the next one. -/
def sys_pipe : M (Except Errno (Nat × Nat)) := fun s =>
  match lowestFree s.fds 0 with
  | none => .ok (.error .EMFILE) s
  | some p0 =>
    let t1 := s.fds.set p0 (some { obj := .pipeRd s.pipes.length, cloexec := false })
    match lowestFree t1 0 with
    | none => .ok (.error .EMFILE) s
    | some p1 =>
      .ok (.ok (p0, p1))
        { s with fds := t1.set p1 (some { obj := .pipeWr s.pipes.length, cloexec := false }),
                 pipes := s.pipes ++ [[]] }

/-- The call `xwrite(fd, buf, len)` of `output.c` on a descriptor that is the
write end of a pipe: the first `len` bytes of `buf` are appended to the pipe. -/
def xwrite (fd : Nat) (buf : List Nat) (len : Nat) : M Unit :=
  modifyState fun s =>
    match getFd s.fds fd with
    | some { obj := .pipeWr k, .. } =>
      { s with pipes := s.pipes.set k (s.pipes.getD k [] ++ buf.take len) }
    | _ => s

/-- Modelled from the spec: `forkshell` of `jobs.c`, which is not among the
sources.  The spec has the shell spawn a detached helper process here, so the
call `forkshell(NULL, NULL, FORK_NOJOB)` always returns with a new child; a
`fork` that fails is not modelled.  Together with the branch of `openhere`
that the child runs: the child closes its copy of the read end, writes `text`
into the write end `wfd` and exits.  The parent only sees one more writer
process. -/
def forkshell_heredoc (wfd : Nat) (text : List Nat) : M Unit :=
  modifyState fun s =>
    match getFd s.fds wfd with
    | some { obj := .pipeWr k, .. } => { s with helpers := { pipe := k, text := text } :: s.helpers }
    | _ => s

/-! ## The functions of `redir.c` -/

/-- Result `-1` of a system call. -/
def failed {α : Type} : Except Errno α → Bool
  | .ok _ => false
  | .error _ => true

def is_renamed (rl : List Rename) (fd : Nat) : Option Rename :=
  rl.find? fun r => r.orig = fd

def copyfd (src dst : Nat) (cloexec : Bool) : M (Except Errno Nat) :=
  if cloexec ∧ dst > 2 then dup3 src dst true else dup3 src dst false

def movefd (src dst : Nat) : M Nat :=
  if src = dst then pure dst
  else do
    close dst
    let r ← copyfd src dst false
    match r with
    | .ok _ => do
      close src
      pure dst
    | .error _ => do
      close src
      error "Unable to make fd"

/-- The loop of `free_rl` over the `renamed` list of a frame; the caller sets
the list of the frame to `NULL` afterwards. -/
def free_rl : List Rename → Bool → M Unit
  | [], _ => pure ()
  | rl :: rn, reset => do
    (if rl.orig = 0 then
      modifyState fun s => { s with fd0_redirected := s.fd0_redirected - 1 }
    else pure ())
    (if reset then
      if rl.into < 0 then close rl.orig
      else discard (movefd rl.into.toNat rl.orig)
    else pure ())
    free_rl rn reset

/-- Here `rt` is always the top frame `sv` of `redirect`. -/
def fd_rename (src : Nat) (dst : Int) : M Unit :=
  modifyState fun s =>
    match s.redirlist with
    | [] => s
    | sv :: next => { s with redirlist := ({ orig := src, into := dst } :: sv) :: next }

/-- The loop of `find_big_fd`: `fuel` bounds the number of halvings of `i`. -/
def find_big_fd_loop : Nat → Nat → M Nat
  | 0, i => pure i
  | fuel + 1, i =>
    if 10 ≤ i then do
      let r ← fcntl_DUPFD false 0 (i - 1)
      match r with
      | .ok fd => do
        close fd
        pure i
      | .error _ => find_big_fd_loop fuel (i >>> 1)
    else pure i

def find_big_fd : M Unit := do
  modifyState fun s => if s.last_start < 10 then { s with last_start := s.last_start + 1 } else s
  let s ← getState
  let i ← find_big_fd_loop (1 <<< s.last_start) (1 <<< s.last_start)
  let fd := (i / 5) * 4
  let fd := if fd < 10 then 10 else fd
  modifyState fun s => { s with big_sh_fd := fd }

def register_sh_fd (fd : Nat) (cb : Nat) : M Unit :=
  modifyState fun s => { s with sh_fd_list := { cb := cb, fd := fd } :: s.sh_fd_list }

def sh_close (fd : Nat) : M Unit := do
  modifyState fun s => { s with sh_fd_list := s.sh_fd_list.eraseP fun fp => fp.fd = fd }
  close fd

def sh_fd (fd : Nat) : M (Option ShellFd) := do
  let s ← getState
  pure (s.sh_fd_list.find? fun fp => fp.fd = fd)

/-- The assignment `fp->fd = to`, `fp` being the first entry of the list whose
`fd` is `old` (the entry `sh_fd(old)` returns). -/
def set_sh_fd (old new : Nat) : List ShellFd → List ShellFd
  | [] => []
  | fp :: l => if fp.fd = old then { fp with fd := new } :: l else fp :: set_sh_fd old new l

/-- In `renumber_sh_fd` the argument `fp` is the result of `sh_fd`. -/
def renumber_sh_fd (fp : Option ShellFd) : M Unit :=
  match fp with
  | none => pure ()
  | some fp => do
    let s ← getState
    (if s.big_sh_fd ≤ fp.fd then find_big_fd else pure ())
    let s ← getState
    let t1 ← fcntl_DUPFD true fp.fd s.big_sh_fd
    let t2 ← (if failed t1 ∧ 22 ≤ s.big_sh_fd then fcntl_DUPFD true fp.fd (s.big_sh_fd / 2)
      else pure t1)
    let t3 ← (if failed t2 then fcntl_DUPFD true fp.fd (fp.fd + 1) else pure t2)
    let t4 ← (if failed t3 then fcntl_DUPFD true fp.fd 10 else pure t3)
    let t5 ← (if failed t4 then fcntl_DUPFD true fp.fd 3 else pure t4)
    match t5 with
    | .error _ => error "insufficient file descriptors available"
    | .ok dst =>
      if fp.fd = dst then pure ()
      else do
        modifyState fun s => { s with cbLog := s.cbLog ++ [(fp.cb, fp.fd, dst)] }
        close fp.fd
        modifyState fun s => { s with sh_fd_list := set_sh_fd fp.fd dst s.sh_fd_list }

/-- The value an `int` takes when a `size_t` is assigned to it (32 bits, two's
complement): the `len = strlen(...)` of `openhere`. -/
def toInt32 (n : Nat) : Int := (((n + 2147483648) % 4294967296 : Nat) : Int) - 2147483648

/-- The function `openhere`.  The variable `len` is only used for `NHERE`,
where it is the length of the document; a negative `len` writes nothing. -/
def openhere (env : Env) (redir : Node) : M Nat := do
  let r ← sys_pipe
  match r with
  | .error _ => error "Pipe call failed"
  | .ok (p0, p1) =>
    let len : Int := toInt32 redir.doc.length
    if redir.type = .NHERE ∧ len ≤ (env.PIPESIZE : Int) then do
      xwrite p1 redir.doc len.toNat
      close p1
      pure p0
    else do
      forkshell_heredoc p1
        (if redir.type = .NHERE then redir.doc.take len.toNat else env.expandhere redir.doc)
      close p1
      pure p0

/-- The end of `openredirect`, after the `switch`: move the descriptor `f`
that was opened onto `fd`. -/
def openredirect_finish (env : Env) (flags : RFlags) (fd f : Nat) : M Unit :=
  let cloexec := decide (fd > 2) && !flags.REDIR_KEEP && !env.posix
  if f ≠ fd then do
    let r ← copyfd f fd cloexec
    match r with
    | .error _ => do
      close f
      error "redirect reassignment failed"
    | .ok _ => close f
  else if cloexec then discard (fcntl_SETFD f true)
  else pure ()

/-- The cases of `openredirect` that open `fname` with `open(fname, fl, 0666)`
and jump to `ecreate` or `eopen` when that fails. -/
def openredirect_file (env : Env) (flags : RFlags) (fd : Nat) (fname : String)
    (fl : List OFlag) (msg : String) : M Unit := do
  let r ← sys_open env fname fl
  match r with
  | .error _ => error msg
  | .ok f => openredirect_finish env flags fd f

/-- The function `openredirect`; the array `memory` of the caller is passed
in and the updated array is returned. -/
def openredirect (env : Env) (redir : Node) (memory : List Bool) (flags : RFlags) :
    M (List Bool) :=
  let fd := redir.fd
  let memory := if fd < 10 then memory.set fd false else memory
  let fname := redir.expfname
  match redir.type with
  | .NFROM => do
    -- with REDIR_VFORK the file is opened O_NONBLOCK and the flag is cleared at once
    openredirect_file env flags fd fname
      (if flags.REDIR_VFORK then [.O_RDONLY, .O_NONBLOCK] else [.O_RDONLY]) "cannot open"
    pure memory
  | .NFROMTO => do
    openredirect_file env flags fd fname [.O_RDWR, .O_CREAT] "cannot create"
    pure memory
  | .NTO =>
    if env.Cflag then do
      let r ← sys_open env fname [.O_WRONLY]
      match r with
      | .error _ => do
        openredirect_file env flags fd fname [.O_WRONLY, .O_CREAT, .O_EXCL] "cannot create"
        pure memory
      | .ok f => do
        let sb ← sys_fstat_isreg env f
        match sb with
        | .error _ => do
          close f
          error "cannot create"
        | .ok true => do
          close f
          error "cannot create"
        | .ok false => do
          openredirect_finish env flags fd f
          pure memory
    else do
      openredirect_file env flags fd fname [.O_WRONLY, .O_CREAT, .O_TRUNC] "cannot create"
      pure memory
  | .NCLOBBER => do
    openredirect_file env flags fd fname [.O_WRONLY, .O_CREAT, .O_TRUNC] "cannot create"
    pure memory
  | .NAPPEND => do
    openredirect_file env flags fd fname [.O_WRONLY, .O_CREAT, .O_APPEND] "cannot create"
    pure memory
  | .NHERE | .NXHERE => do
    let f ← openhere env redir
    openredirect_finish env flags fd f
    pure memory
  | .NTOFD | .NFROMFD =>
    if 0 ≤ redir.dupfd then do
      let fp ← sh_fd redir.dupfd.toNat
      if fp.isSome then error "Redirect failed: EBADF"
      else if fd < 10 ∧ redir.dupfd < 10 ∧ memory.getD redir.dupfd.toNat false then
        pure (memory.set fd true)
      else do
        let r ← copyfd redir.dupfd.toNat fd (!flags.REDIR_KEEP)
        match r with
        | .error _ => error "Redirect failed"
        | .ok _ => pure memory
    else do
      close fd
      pure memory

/-- The block of `redirect` that saves `fd` in the frame `sv`. -/
def redirect_save (fd : Nat) : M Unit := do
  let s ← getState
  (if s.big_sh_fd < 10 then find_big_fd else pure ())
  let s ← getState
  let bigfd := if s.big_sh_fd < s.max_user_fd then s.max_user_fd else s.big_sh_fd
  let r ← fcntl_DUPFD false fd (bigfd + 1)
  let i : Int ← (match r with
    | .ok i => pure (i : Int)
    | .error .EBADF => pure CLOSED
    | .error e =>
      if e = .EMFILE ∨ e = .EINVAL then do
        find_big_fd
        let s ← getState
        let r2 ← fcntl_DUPFD false fd s.big_sh_fd
        match r2 with
        | .ok i => pure (i : Int)
        | .error _ => error "cannot save fd"
      else error "cannot save fd")
  (if 0 ≤ i then discard (fcntl_SETFD i.toNat true) else pure ())
  fd_rename fd i

/-- The frame `sv` of `redirect`: the top of `redirlist`. -/
def topFrame (s : State) : List Rename := s.redirlist.headD []

/-- The body of the loop of `redirect` for the node `n`, after the call of
`renumber_sh_fd`: the directive itself. -/
def redirect_node_apply (env : Env) (flags : RFlags) (n : Node) (memory : List Bool) :
    M (List Bool) :=
  let fd := n.fd
  if (n.type = .NTOFD ∨ n.type = .NFROMFD) ∧ n.dupfd = fd then do
    let r ← fcntl_SETFD fd false
    if r then pure memory else error "fd: F_SETFD failed"
  else do
    let s ← getState
    (if flags.REDIR_PUSH ∧ (is_renamed (topFrame s) fd).isNone then redirect_save fd else pure ())
    (if fd = 0 then
      modifyState fun s => { s with fd0_redirected := s.fd0_redirected + 1 }
    else pure ())
    openredirect env n memory flags

/-- The body of the loop of `redirect` for the node `n`. -/
def redirect_node (env : Env) (flags : RFlags) (n : Node) (memory : List Bool) :
    M (List Bool) := do
  let fd := n.fd
  modifyState fun s => if s.max_user_fd < fd then { s with max_user_fd := fd } else s
  let fp ← sh_fd fd
  renumber_sh_fd fp
  redirect_node_apply env flags n memory

def redirect_loop (env : Env) (flags : RFlags) : List Node → List Bool → M (List Bool)
  | [], memory => pure memory
  | n :: rest, memory => do
    let memory ← redirect_node env flags n memory
    redirect_loop env flags rest memory

def redirect (env : Env) (redir : List Node) (flags : RFlags) : M Unit := do
  let memory := (List.replicate 10 false).set 1 flags.REDIR_BACKQ
  (if flags.REDIR_PUSH then
    modifyState fun s => { s with redirlist := [] :: s.redirlist }
  else pure ())
  let memory ← redirect_loop env flags redir memory
  (if memory.getD 1 false then
    modifyState fun s => { s with out1mem := true }
  else pure ())
  (if memory.getD 2 false then
    modifyState fun s => { s with out2mem := true }
  else pure ())

/-- The function `popredir`.  With an empty `redirlist` the C code dereferences
`NULL`; that is an error here. -/
def popredir : M Unit := do
  let s ← getState
  match s.redirlist with
  | [] => error "popredir: redirlist is NULL"
  | rp :: next => do
    free_rl rp true
    modifyState fun s => { s with redirlist := next }

def fd0_redirected_p (s : State) : Bool := s.fd0_redirected != 0

/-- The inner loop of `clearredir` with `vforked`: close the saved duplicates
of one frame. -/
def clearredir_close : List Rename → M Unit
  | [] => pure ()
  | rl :: rn => do
    (if 0 ≤ rl.into then close rl.into.toNat else pure ())
    clearredir_close rn

/-- The loop of `clearredir` over the frames; returns the frames as they are
left (`free_rl` empties a frame). -/
def clearredir_loop (vforked : Bool) : List (List Rename) → M (List (List Rename))
  | [] => pure []
  | rp :: next =>
    if !vforked then do
      free_rl rp false
      let r ← clearredir_loop vforked next
      pure ([] :: r)
    else do
      clearredir_close rp
      let r ← clearredir_loop vforked next
      pure (rp :: r)

def clearredir (vforked : Bool) : M Unit := do
  let s ← getState
  let frames ← clearredir_loop vforked s.redirlist
  modifyState fun s => { s with redirlist := frames }

/-! ## The built-in `fdflags` -/

/-- The expression `x & ~y` on flag words: the bits of `x` without those that
`x` shares with `y`. -/
def clr (x y : Nat) : Nat := x ^^^ (x &&& y)

/-- What `<fcntl.h>` and the system provide.  A flag that the system does not
define is `none`: the table `nv` then has no line for it. -/
structure Fcntl where
  O_APPEND : Option Nat
  O_ASYNC : Option Nat
  O_SYNC : Option Nat
  O_NONBLOCK : Option Nat
  O_FSYNC : Option Nat
  O_DSYNC : Option Nat
  O_RSYNC : Option Nat
  O_ALT_IO : Option Nat
  O_DIRECT : Option Nat
  O_NOSIGPIPE : Option Nat
  /-- defined on every system the shell supports -/
  O_CLOEXEC : Nat
  /-- the value of the macro `IGNFLAGS` -/
  IGNFLAGS : Nat
  /-- the status flags that `F_SETFL` changes; it ignores every other bit -/
  SETFL : Nat
  /-- whether `fcntl(fd, F_SETFL, n)` succeeds on a descriptor open on this object -/
  setflOK : Obj → Nat → Bool

/-- One line of the table `nv`. -/
structure flgnames where
  name : List Char
  minch : Nat
  value : Nat
deriving DecidableEq, Repr

/-- The line of `nv` for a flag, present when the system defines the flag. -/
def nvLine (name : List Char) (minch : Nat) : Option Nat → List flgnames
  | some v => [{ name := name, minch := minch, value := v }]
  | none => []

/-- The table `nv`, without its terminating line. -/
def nv (k : Fcntl) : List flgnames :=
  nvLine ['a', 'p', 'p', 'e', 'n', 'd'] 2 k.O_APPEND ++
  nvLine ['a', 's', 'y', 'n', 'c'] 2 k.O_ASYNC ++
  nvLine ['s', 'y', 'n', 'c'] 2 k.O_SYNC ++
  nvLine ['n', 'o', 'n', 'b', 'l', 'o', 'c', 'k'] 3 k.O_NONBLOCK ++
  nvLine ['f', 's', 'y', 'n', 'c'] 2 k.O_FSYNC ++
  nvLine ['d', 's', 'y', 'n', 'c'] 2 k.O_DSYNC ++
  nvLine ['r', 's', 'y', 'n', 'c'] 2 k.O_RSYNC ++
  nvLine ['a', 'l', 't', 'i', 'o'] 2 k.O_ALT_IO ++
  nvLine ['d', 'i', 'r', 'e', 'c', 't'] 2 k.O_DIRECT ++
  nvLine ['n', 'o', 's', 'i', 'g', 'p', 'i', 'p', 'e'] 3 k.O_NOSIGPIPE ++
  [{ name := ['c', 'l', 'o', 'e', 'x', 'e', 'c'], minch := 2, value := k.O_CLOEXEC }]

/-- The status flags of an object. -/
def getfl (fl : List (Obj × Nat)) (o : Obj) : Nat :=
  match fl.find? fun e => e.1 = o with
  | some e => e.2
  | none => 0

/-- The call `fcntl(fd, F_GETFD)`: `none` stands for `-1`, `some c` tells
whether `FD_CLOEXEC` is set. -/
def fcntl_GETFD (fd : Nat) : M (Option Bool) := fun s =>
  .ok ((getFd s.fds fd).map FdEnt.cloexec) s

/-- The call `fcntl(fd, F_GETFL)`: `none` stands for `-1`. -/
def fcntl_GETFL (fd : Nat) : M (Option Nat) := fun s =>
  .ok ((getFd s.fds fd).map fun e => getfl s.fl e.obj) s

/-- The call `fcntl(fd, F_SETFL, n)`: returns `false` when the call fails
(`-1`).  The bits of `k.SETFL` are taken from `n`, every other bit stays. -/
def fcntl_SETFL (k : Fcntl) (fd n : Nat) : M Bool := fun s =>
  let s1 := { s with setflLog := s.setflLog ++ [(fd, n)] }
  match getFd s.fds fd with
  | none => .ok false s1
  | some e =>
    if k.setflOK e.obj n then
      .ok true { s1 with fl := (e.obj, clr (getfl s.fl e.obj) k.SETFL ||| (n &&& k.SETFL)) :: s.fl }
    else .ok false s1

/-- The function `getflags`: `none` stands for the result `-1`. -/
def getflags (k : Fcntl) (fd : Nat) (p : Bool) : M (Option Nat) := do
  let fp ← sh_fd fd
  if fp.isSome then
    if !p then pure none else error "Can't get status for fd (EBADF)"
  else do
    let c ← fcntl_GETFD fd
    match c with
    | none => if !p then pure none else error "Can't get status for fd"
    | some c => do
      let f ← fcntl_GETFL fd
      match f with
      | none => if !p then pure none else error "Can't get flags for fd"
      | some f =>
        let f := clr f k.IGNFLAGS
        pure (some (if c then f ||| k.O_CLOEXEC else f))

/-- The function `outfmt(out1, ...)` with the text already formatted. -/
def outfmt (text : List Char) : M Unit :=
  modifyState fun s => { s with out1text := s.out1text ++ text }

/-- The loop of `printone` over the table; returns what is left of `f`. -/
def printone_loop (verbose : Bool) : List flgnames → Nat → M Nat
  | [], f => pure f
  | fn :: rest, f =>
    if f &&& fn.value ≠ 0 then do
      outfmt ((if verbose then ['+'] else []) ++ fn.name)
      let f := clr f fn.value
      (if f ≠ 0 ∨ (verbose ∧ rest ≠ []) then outfmt [','] else pure ())
      printone_loop verbose rest f
    else if verbose then do
      outfmt ('-' :: fn.name)
      (if f ≠ 0 ∨ (verbose ∧ rest ≠ []) then outfmt [','] else pure ())
      printone_loop verbose rest f
    else printone_loop verbose rest f

/-- The function `printone`. -/
def printone (k : Fcntl) (fd : Nat) (p verbose pfd : Bool) : M Unit := do
  let f ← getflags k fd p
  match f with
  | none => pure ()
  | some f => do
    (if pfd then outfmt ((Nat.repr fd).toList ++ [':', ' ']) else pure ())
    let f ← printone_loop verbose (nv k) f
    (if verbose ∧ f ≠ 0 then outfmt ([' ', '+', '0', 'x'] ++ Nat.toDigits 16 f) else pure ())
    outfmt ['\n']

/-- The tokens that the calls of `strtok` with the delimiter `,` return one
after the other: the pieces of the string between commas that are not empty.
`cur` is the piece being read, last character first. -/
def strtok : List Char → List Char → List (List Char)
  | [], cur => if cur = [] then [] else [cur.reverse]
  | c :: cs, cur =>
    if c = ',' then
      if cur = [] then strtok cs [] else cur.reverse :: strtok cs []
    else strtok cs (c :: cur)

/-- The inner loop of `parseflags`: the first line of the table with
`len >= fn->minch && strncmp(s, fn->name, len) == 0`, where `len` is the length
of `s`; `none` when the loop reaches the terminating line. -/
def parseflags_find (s : List Char) : List flgnames → Option flgnames
  | [] => none
  | fn :: rest =>
    if fn.minch ≤ s.length ∧ s.isPrefixOf fn.name then some fn
    else parseflags_find s rest

/-- The outer loop of `parseflags` over the tokens, with `*p` and `*n`. -/
def parseflags_loop (k : Fcntl) : List (List Char) → Nat → Nat → M (Nat × Nat)
  | [], p, n => pure (p, n)
  | tok :: rest, p, n =>
    match tok with
    | '+' :: s =>
      match parseflags_find s (nv k) with
      | some fn => parseflags_loop k rest (p ||| fn.value) (clr n fn.value)
      | none => error "Bad flag"
    | '-' :: s =>
      match parseflags_find s (nv k) with
      | some fn => parseflags_loop k rest (clr p fn.value) (n ||| fn.value)
      | none => error "Bad flag"
    | _ => error "Missing +/- indicator before flag"

/-- The function `parseflags`: returns `(*p, *n)`. -/
def parseflags (k : Fcntl) (s : List Char) : M (Nat × Nat) :=
  parseflags_loop k (strtok s []) 0 0

/-- The choice of `cloexec` in `setone`: `none` for `-1`, `some true` for
`FD_CLOEXEC` and `some false` for `0`. -/
def setone_cloexec (k : Fcntl) (pos neg f : Nat) : Option Bool :=
  let cloexec : Option Bool := none
  let cloexec :=
    if pos &&& k.O_CLOEXEC ≠ 0 ∧ ¬ f &&& k.O_CLOEXEC ≠ 0 then some true else cloexec
  if neg &&& k.O_CLOEXEC ≠ 0 ∧ f &&& k.O_CLOEXEC ≠ 0 then some false else cloexec

/-- The function `setone`. -/
def setone (k : Fcntl) (fd pos neg : Nat) (verbose : Bool) : M Unit := do
  let f ← getflags k fd true
  match f with
  | none => pure ()
  | some f => do
    let r ← (match setone_cloexec k pos neg f with
      | some c => fcntl_SETFD fd c
      | none => pure true)
    (if r then pure () else error "Can't set status for fd")
    let pos := clr pos k.O_CLOEXEC
    let neg := clr neg k.O_CLOEXEC
    let f := clr f k.O_CLOEXEC
    let n := clr (f ||| pos) neg
    let r ← (if n ≠ f then fcntl_SETFL k fd n else pure true)
    (if r then pure () else error "Can't set flags for fd")
    (if verbose then printone k fd true verbose true else pure ())


/-! ## Undoing a frame on the descriptor table -/

/-- Object a descriptor is open on (`none`: not open). -/
def getObj (t : Tab) (x : Nat) : Option Obj := (getFd t x).map FdEnt.obj

/-- The effect of one iteration of `free_rl` with `reset` on the table;
`none` when `movefd` calls `error`. -/
def undo1 (r : Rename) (t : Tab) : Option Tab :=
  if r.into < 0 then some (t.set r.orig none)
  else if r.into.toNat = r.orig then some t
  else
    match getFd (t.set r.orig none) r.into.toNat with
    | none => none
    | some e =>
      if t.length ≤ r.orig then none
      else some (((t.set r.orig none).set r.orig (some { obj := e.obj, cloexec := false })).set
        r.into.toNat none)

/-- The effect of `free_rl` with `reset` on the table. -/
def undoTab : List Rename → Tab → Option Tab
  | [], t => some t
  | r :: L, t =>
    match undo1 r t with
    | none => none
    | some t1 => undoTab L t1

def origs (L : List Rename) : List Nat := L.map Rename.orig

/-- No saved duplicate of the frame sits on a descriptor that has an entry of
its own at the same place or further down the list (that is, one that was
saved at the same time or earlier). -/
def SaveOrder : List Rename → Prop
  | [] => True
  | r :: L => (0 ≤ r.into → r.into.toNat ∉ origs (r :: L)) ∧ SaveOrder L

instance : DecidablePred SaveOrder := fun L => by
  induction L with
  | nil => exact isTrue trivial
  | cons r L ih =>
    unfold SaveOrder
    exact @instDecidableAnd _ _ _ ih

/-- The tables have the same limit and agree, on the objects, on every
descriptor outside `X`. -/
def AgreeOff (X : Nat → Prop) (t u : Tab) : Prop :=
  t.length = u.length ∧ ∀ y, ¬ X y → getObj t y = getObj u y

def Eqv (t u : Tab) : Prop := AgreeOff (fun _ => False) t u

def Agree1 (x : Nat) (t u : Tab) : Prop := AgreeOff (fun y => y = x) t u

def ORel (R : Tab → Tab → Prop) : Option Tab → Option Tab → Prop
  | some a, some b => R a b
  | none, none => True
  | _, _ => False

def slots (L : List Rename) : List Nat :=
  (L.filter fun r => 0 ≤ r.into).map fun r => r.into.toNat

/-! ## The invariant of the loop of `redirect` with `REDIR_PUSH` -/

/-- Descriptors registered as internal descriptors of the shell. -/
def regs (s : State) : List Nat := s.sh_fd_list.map ShellFd.fd

/-- The registry is well formed: no descriptor is registered twice and every
registered descriptor is open. -/
def RegOK (s : State) : Prop :=
  (regs s).Nodup ∧ ∀ K ∈ regs s, getFd s.fds K ≠ none

instance (s : State) : Decidable (RegOK s) := by
  unfold RegOK
  exact inferInstance

/-- What holds while `redirect` with `REDIR_PUSH` runs, and when it has
returned or called `error`: `T0` is the table and `R0` the registered
descriptors when `redirect` was called, `rest` the stack of frames then, and
`A` holds of descriptors known to have an entry in the frame. -/
structure Inv (T0 : Tab) (R0 : List Nat) (rest : List (List Rename)) (A : Nat → Prop)
    (s : State) : Prop where
  frames : s.redirlist = topFrame s :: rest
  len : s.fds.length = T0.length
  r0open : ∀ K ∈ R0, getFd T0 K ≠ none
  regNodup : (regs s).Nodup
  regOpen : ∀ K ∈ regs s, getFd s.fds K ≠ none
  nodup : (origs (topFrame s)).Nodup
  slotOpen : ∀ x ∈ slots (topFrame s), x ∉ origs (topFrame s) →
    getFd s.fds x ≠ none ∧ x ∉ regs s
  untouched : ∀ x, x ∉ origs (topFrame s) → x ∉ slots (topFrame s) → x ∉ R0 →
    (x ∈ regs s → getObj T0 x = none) ∧ (x ∉ regs s → getObj s.fds x = getObj T0 x)
  closedRec : ∀ r ∈ topFrame s, getObj T0 r.orig = none → r.orig ∉ slots (topFrame s) →
    r.into = CLOSED
  restore : SaveOrder (topFrame s) → ∃ T, undoTab (topFrame s) s.fds = some T ∧
    ∀ x, x ∉ R0 → getObj T x = getObj T0 x ∨
      (getObj T0 x = none ∧ x ∈ regs s ∧ x ∉ origs (topFrame s))
  saved : ∀ x, A x → x ∈ origs (topFrame s)

/-- The outcome is a return in a state with `Q` or an `error` in a state
with `E`. -/
def Res.sat {α : Type} (Q : α → State → Prop) (E : State → Prop) : Res α → Prop
  | .ok a s1 => Q a s1
  | .err _ s1 => E s1

/-- Hoare triple: from a state with `P`, `m` returns in a state with `Q` or
calls `error` in a state with `E`. -/
def Triple {α : Type} (P : State → Prop) (m : M α) (Q : α → State → Prop)
    (E : State → Prop) : Prop :=
  ∀ s, P s → (m s).sat Q E

/-- State of the ladder of `fcntl(fp->fd, F_DUPFD_CLOEXEC, ...)` attempts of
`renumber_sh_fd`: nothing found and the table as it was, or a free descriptor
`r` that now holds a duplicate. -/
def LadderSt (fd : Nat) (s : State) (t : Except Errno Nat) (s1 : State) : Prop :=
  (failed t = true ∧ s1 = s) ∨
  (∃ r e0, t = .ok r ∧ getFd s.fds fd = some e0 ∧ getFd s.fds r = none ∧ r < s.fds.length ∧
    s1 = { s with fds := s.fds.set r (some { obj := e0.obj, cloexec := true }) })

/-- From `s` to `s1` the stack of frames and the registry are unchanged and
only descriptor `fd` may hold another object. -/
def TouchOnly (fd : Nat) (s s1 : State) : Prop :=
  s1.redirlist = s.redirlist ∧ s1.sh_fd_list = s.sh_fd_list ∧ Agree1 fd s.fds s1.fds

/-- The node redirects a descriptor to itself (`n>&n` or `n<&n`): the case
`redirect` treats before it saves anything. -/
def selfDup (n : Node) : Prop :=
  (n.type = .NTOFD ∨ n.type = .NFROMFD) ∧ n.dupfd = (n.fd : Int)

instance (n : Node) : Decidable (selfDup n) := by
  unfold selfDup
  exact inferInstance

/-! ## Concrete states used to run the code -/

/-- An environment in which every file can be opened: the `n`-th call of `open`
or `fstat` opens file number `100 + n`; no file is a regular file. -/
def exEnv : Env :=
  { openFile := fun c _ _ => .ok (100 + c)
    fstatReg := fun _ _ => .ok false
    posix := false
    Cflag := false
    PIPESIZE := 4
    expandhere := fun d => d }

/-- A table with descriptor limit `3 + n`: descriptors 0, 1 and 2 are open on
the files 0, 1 and 2, every other descriptor is closed. -/
def exTab (n : Nat) : Tab :=
  [some { obj := .file 0, cloexec := false }, some { obj := .file 1, cloexec := false },
    some { obj := .file 2, cloexec := false }] ++ List.replicate n none

/-- The state of a shell that has not redirected anything yet, with table `t`. -/
def exState (t : Tab) : State :=
  { fds := t, redirlist := [], fd0_redirected := 0, big_sh_fd := 0, last_start := 3,
    max_user_fd := 2, sh_fd_list := [], cbLog := [], pipes := [], helpers := [], clock := 0,
    out1mem := false, out2mem := false }

/-- As `exState (exTab 17)`, and descriptor 5 is an internal descriptor of the
shell, open on file 7 and registered with callback 0. -/
def exInternal : State :=
  { exState ((exTab 17).set 5 (some { obj := .file 7, cloexec := true })) with
    sh_fd_list := [{ cb := 0, fd := 5 }] }

/-- The node `fd>f`. -/
def exFile (fd : Nat) : Node :=
  { type := .NTO, fd := fd, expfname := "f", dupfd := 0, doc := [] }

/-- The node `fd>&dupfd` (`fd>&-` when `dupfd` is negative). -/
def exDup (fd : Nat) (dupfd : Int) : Node :=
  { type := .NTOFD, fd := fd, expfname := "", dupfd := dupfd, doc := [] }

/-- The flags `REDIR_PUSH`. -/
def exPush : RFlags :=
  { REDIR_PUSH := true, REDIR_BACKQ := false, REDIR_VFORK := false, REDIR_KEEP := false }

/-- The part of the state that system calls do not touch: the frames, the
counter `fd0_redirected`, the registry and the calls of its callbacks. -/
def ctl (s : State) : List (List Rename) × Int × List ShellFd × List (Nat × Nat × Nat) :=
  (s.redirlist, s.fd0_redirected, s.sh_fd_list, s.cbLog)

/-- The computation leaves `ctl` as it is, whatever its outcome. -/
def Keeps {α : Type} (m : M α) : Prop := ∀ s, ctl (m s).st = ctl s

/-- Number of save entries for descriptor 0 in the frames. -/
def count0 : List (List Rename) → Nat
  | [] => 0
  | fr :: rest => (fr.filter fun r => r.orig = 0).length + count0 rest

/-- Number of frames that hold a save entry for descriptor 0. -/
def frames0 : List (List Rename) → Nat
  | [] => 0
  | fr :: rest => (if fr.any (fun r => r.orig = 0) then 1 else 0) + frames0 rest

/-! ## Discarding the frames -/

/-- The table after `close` on each descriptor of the list, in order. -/
def closeAll : List Nat → Tab → Tab
  | [], t => t
  | x :: xs, t => closeAll xs (t.set x none)

/-- The descriptors that hold a saved duplicate, over all frames. -/
def allSlots : List (List Rename) → List Nat
  | [] => []
  | fr :: rest => slots fr ++ allSlots rest

/-- The state after `1>f` was applied with `REDIR_PUSH` in `exState (exTab 17)`. -/
def exSaved : State :=
  (redirect exEnv [exFile 1] exPush (exState (exTab 17))).st

/-! ## The flags of `fdflags` -/

/-- Example values, those of the header of NetBSD: `F_SETFL` changes the flags
of the table other than close-on-exec, and always succeeds. -/
def exFcntl : Fcntl :=
  { O_APPEND := some 0x8, O_ASYNC := some 0x40, O_SYNC := some 0x80, O_NONBLOCK := some 0x4,
    O_FSYNC := some 0x80, O_DSYNC := some 0x10000, O_RSYNC := some 0x20000,
    O_ALT_IO := some 0x40000, O_DIRECT := some 0x80000, O_NOSIGPIPE := some 0x1000000,
    O_CLOEXEC := 0x400000, IGNFLAGS := 0x2208f33, SETFL := 0x10f00cc,
    setflOK := fun _ _ => true }

/-- The name selects the line of the table: it is a prefix of the name of the
line and at least as long as the minimum length of the line. -/
def selects (name : List Char) (fn : flgnames) : Prop :=
  fn.minch ≤ name.length ∧ name <+: fn.name

instance (name : List Char) (fn : flgnames) : Decidable (selects name fn) := by
  unfold selects; infer_instance

/-- The token is `+name` or `-name` with a name that selects a line of the table. -/
def goodToken (k : Fcntl) (tok : List Char) : Prop :=
  (tok.head? = some '+' ∨ tok.head? = some '-') ∧ ∃ fn ∈ nv k, selects tok.tail fn

instance (k : Fcntl) (tok : List Char) : Decidable (goodToken k tok) := by
  unfold goodToken; infer_instance

/-- The token names a flag whose value has bit `i`. -/
def mentions (k : Fcntl) (i : Nat) (tok : List Char) : Prop :=
  ∃ fn ∈ nv k, selects tok.tail fn ∧ fn.value.testBit i = true

instance (k : Fcntl) (i : Nat) (tok : List Char) : Decidable (mentions k i tok) := by
  unfold mentions; infer_instance

/-- The sign of the last token of the list that mentions bit `i`: `some true`
for `+`, `some false` for `-`, `none` when no token mentions the bit. -/
def lastMention (k : Fcntl) (i : Nat) : List (List Char) → Option Bool
  | [] => none
  | tok :: rest =>
    match lastMention k i rest with
    | some b => some b
    | none => if mentions k i tok then some (decide (tok.head? = some '+')) else none

/-- The names and minimum lengths of the table `nv` when every flag is defined. -/
def nvNames : List (List Char × Nat) :=
  [(['a', 'p', 'p', 'e', 'n', 'd'], 2), (['a', 's', 'y', 'n', 'c'], 2), (['s', 'y', 'n', 'c'], 2),
    (['n', 'o', 'n', 'b', 'l', 'o', 'c', 'k'], 3), (['f', 's', 'y', 'n', 'c'], 2),
    (['d', 's', 'y', 'n', 'c'], 2), (['r', 's', 'y', 'n', 'c'], 2), (['a', 'l', 't', 'i', 'o'], 2),
    (['d', 'i', 'r', 'e', 'c', 't'], 2), (['n', 'o', 's', 'i', 'g', 'p', 'i', 'p', 'e'], 3),
    (['c', 'l', 'o', 'e', 'x', 'e', 'c'], 2)]

/-- The two states differ at most in the text written to `out1`. -/
def SameButText (s s1 : State) : Prop := s1 = { s with out1text := s1.out1text }

/-- Whether the probe `fcntl(0, F_DUPFD, i - 1)` of `find_big_fd` succeeds in
the table. -/
def probeOK (t : Tab) (i : Nat) : Bool :=
  (getFd t 0).isSome && decide (i - 1 < t.length) && (lowestFree t (i - 1)).isSome

/-- The value of `i` at which the loop of `find_big_fd` ends when it starts
from `i`, as a function of the table. -/
def firstOK (t : Tab) : Nat → Nat → Nat
  | 0, i => i
  | fuel + 1, i =>
    if 10 ≤ i then
      if probeOK t i then i else firstOK t fuel (i >>> 1)
    else i

/-- The value of `last_start` after the test at the start of `find_big_fd`. -/
def nextStart (a : Nat) : Nat := if a < 10 then a + 1 else a

/-- The floor that `find_big_fd` computes in the table from the exponent `a`. -/
def floorOf (t : Tab) (a : Nat) : Nat :=
  if firstOK t (1 <<< a) (1 <<< a) / 5 * 4 < 10 then 10
  else firstOK t (1 <<< a) (1 <<< a) / 5 * 4

/-- The here-document `0<<` with the text `doc`, subject to expansion. -/
def exXHere (doc : List Nat) : Node :=
  { type := .NXHERE, fd := 0, expfname := "", dupfd := 0, doc := doc }

/-- The here-document `0<<` with the literal text `doc`. -/
def exHere (doc : List Nat) : Node :=
  { type := .NHERE, fd := 0, expfname := "", dupfd := 0, doc := doc }

/-- Descriptor `fd` is open, and its close-on-exec flag is the value of the
variable `cloexec` of `openredirect`. -/
def CloexecSet (env : Env) (flags : RFlags) (fd : Nat) (s : State) : Prop :=
  ∃ e, getFd s.fds fd = some e ∧
    e.cloexec = (decide (fd > 2) && !flags.REDIR_KEEP && !env.posix)

/-! ## The counter `fd0_redirected` -/

/-- The frames and the counter `fd0_redirected`. -/
def ctl0 (s : State) : List (List Rename) × Int := (s.redirlist, s.fd0_redirected)

/-- The computation leaves the frames and the counter as they are, whatever
its outcome. -/
def Keeps0 {α : Type} (m : M α) : Prop := ∀ s, ctl0 (m s).st = ctl0 s

/-- The counter is at least the number of save entries for descriptor 0. -/
def CountOK (s : State) : Prop := (count0 s.redirlist : Int) ≤ s.fd0_redirected

/-- The states that the shell reaches from a state without frames, in which
the counter is 0, through calls of `redirect` (whether they return or end in
an error), calls of `popredir` that return, and calls of `clearredir`. -/
inductive Reachable (env : Env) : State → Prop
  | start (s : State) (h1 : s.redirlist = []) (h2 : s.fd0_redirected = 0) : Reachable env s
  | redirect (s : State) (redir : List Node) (flags : RFlags) (h : Reachable env s) :
      Reachable env (redirect env redir flags s).st
  | popredir (s s1 : State) (h : Reachable env s) (hrun : popredir s = .ok () s1) :
      Reachable env s1
  | clearredir (s : State) (vforked : Bool) (h : Reachable env s) :
      Reachable env (clearredir vforked s).st

/-- The computation keeps the property `P` of the state, whatever its outcome. -/
def Pres {α : Type} (P : State → Prop) (m : M α) : Prop := ∀ s, P s → P (m s).st

/-- No flag of `redirect` is given. -/
def exPlain : RFlags :=
  { REDIR_PUSH := false, REDIR_BACKQ := false, REDIR_VFORK := false, REDIR_KEEP := false }

/-- Two different descriptors below the limit are free: what `pipe` needs. -/
def TwoFree (t : Tab) : Prop :=
  ∃ a b, a ≠ b ∧ a < t.length ∧ b < t.length ∧ getFd t a = none ∧ getFd t b = none

theorem getFd_set (t : Tab) (i j : Nat) (v : Option FdEnt) :
    getFd (t.set i v) j = if i = j ∧ i < t.length then v else getFd t j := by
  unfold getFd
  simp only [List.getD_eq_getElem?_getD, List.getElem?_set]
  by_cases h : i = j
  · subst h
    by_cases h2 : i < t.length
    · simp [h2]
    · simp [h2]
      simp at h2
      simp [List.getElem?_eq_none h2]
  · simp [h]

theorem getFd_ge {t : Tab} {x : Nat} (h : t.length ≤ x) : getFd t x = none := by
  unfold getFd
  simp [List.getD_eq_getElem?_getD, List.getElem?_eq_none h]

theorem getFd_lt {t : Tab} {x : Nat} {e : FdEnt} (h : getFd t x = some e) : x < t.length := by
  by_contra hx
  simp at hx
  simp [getFd_ge hx] at h

theorem getObj_set (t : Tab) (i j : Nat) (v : Option FdEnt) :
    getObj (t.set i v) j = if i = j ∧ i < t.length then v.map FdEnt.obj else getObj t j := by
  unfold getObj
  rw [getFd_set]
  split <;> rfl

theorem getObj_none_iff {t : Tab} {x : Nat} : getObj t x = none ↔ getFd t x = none := by
  unfold getObj
  cases getFd t x <;> simp

theorem AgreeOff.mono {X Y : Nat → Prop} {t u : Tab} (h : AgreeOff X t u)
    (hXY : ∀ y, X y → Y y) : AgreeOff Y t u :=
  ⟨h.1, fun y hy => h.2 y (fun hx => hy (hXY y hx))⟩

theorem AgreeOff.symm {X : Nat → Prop} {t u : Tab} (h : AgreeOff X t u) : AgreeOff X u t :=
  ⟨h.1.symm, fun y hy => (h.2 y hy).symm⟩

theorem AgreeOff.trans {X : Nat → Prop} {t u v : Tab} (h : AgreeOff X t u)
    (h2 : AgreeOff X u v) : AgreeOff X t v :=
  ⟨h.1.trans h2.1, fun y hy => (h.2 y hy).trans (h2.2 y hy)⟩

theorem Eqv.refl (t : Tab) : Eqv t t := ⟨rfl, fun _ _ => rfl⟩

theorem ORel.lift {R S : Tab → Tab → Prop} (hRS : ∀ a b, R a b → S a b) :
    ∀ {a b : Option Tab}, ORel R a b → ORel S a b
  | some _, some _, h => hRS _ _ h
  | none, none, _ => trivial
  | some _, none, h => h
  | none, some _, h => h

theorem getFd_set_none (t : Tab) (i j : Nat) :
    getFd (t.set i none) j = if i = j then none else getFd t j := by
  rw [getFd_set]
  by_cases h : i = j
  · subst h
    by_cases h2 : i < t.length
    · simp [h2]
    · simp [h2]
      exact getFd_ge (by omega)
  · simp [h]

theorem getObj_set_none (t : Tab) (i j : Nat) :
    getObj (t.set i none) j = if i = j then none else getObj t j := by
  unfold getObj
  rw [getFd_set_none]
  split <;> rfl

theorem getObj_set_lt (t : Tab) (i j : Nat) (v : Option FdEnt) (h : i < t.length) :
    getObj (t.set i v) j = if i = j then v.map FdEnt.obj else getObj t j := by
  rw [getObj_set]
  simp [h]

theorem undo1_agree (X : Nat → Prop) (r : Rename) {t u : Tab} (h : AgreeOff X t u)
    (hinto : 0 ≤ r.into → ¬ X r.into.toNat) :
    ORel (AgreeOff (fun y => X y ∧ y ≠ r.orig)) (undo1 r t) (undo1 r u) := by
  obtain ⟨hl, hx⟩ := h
  have key : ∀ y, ¬ (X y ∧ y ≠ r.orig) → y ≠ r.orig → getObj t y = getObj u y :=
    fun y hy hne => hx y (fun hX => hy ⟨hX, hne⟩)
  unfold undo1
  by_cases h1 : r.into < 0
  · simp only [h1, if_true, ORel]
    refine ⟨by simp [hl], fun x hxx => ?_⟩
    simp only [getObj_set_none]
    split
    · rfl
    · rename_i hne
      exact key x hxx (Ne.symm hne)
  · simp only [h1, if_false]
    have hinto := hinto (by omega)
    by_cases h2 : r.into.toNat = r.orig
    · simp only [h2, if_true, ORel]
      refine ⟨hl, fun y hy => ?_⟩
      by_cases hyo : y = r.orig
      · subst hyo
        rw [h2] at hinto
        exact hx _ hinto
      · exact key y hy hyo
    · simp only [h2, if_false]
      have hg := hx r.into.toNat hinto
      simp only [getObj] at hg
      have e1 : getFd (t.set r.orig none) r.into.toNat = getFd t r.into.toNat := by
        rw [getFd_set_none]; simp [Ne.symm h2]
      have e2 : getFd (u.set r.orig none) r.into.toNat = getFd u r.into.toNat := by
        rw [getFd_set_none]; simp [Ne.symm h2]
      rw [e1, e2]
      cases ht : getFd t r.into.toNat with
      | none =>
        rw [ht] at hg
        cases hu : getFd u r.into.toNat with
        | none => simp [ORel]
        | some b => rw [hu] at hg; simp at hg
      | some a =>
        rw [ht] at hg
        cases hu : getFd u r.into.toNat with
        | none => rw [hu] at hg; simp at hg
        | some b =>
          rw [hu] at hg
          simp at hg
          simp only [hl]
          by_cases h3 : u.length ≤ r.orig
          · simp [h3, ORel]
          · simp only [h3, if_false, ORel]
            have h3' : r.orig < u.length := by omega
            refine ⟨by simp [hl], fun y hy => ?_⟩
            simp only [getObj_set_none, List.length_set, getObj_set_lt _ _ _ _ (show r.orig < ((u.set r.orig none)).length by simpa using h3'), getObj_set_lt _ _ _ _ (show r.orig < ((t.set r.orig none)).length by simpa [hl] using h3')]
            by_cases hy1 : r.into.toNat = y
            · simp [hy1]
            · simp only [hy1, if_false]
              by_cases hy2 : r.orig = y
              · simp [hy2, hg]
              · simp only [hy2, if_false]
                exact key y hy (Ne.symm hy2)

theorem undo1_keep {r : Rename} {t t1 : Tab} {x : Nat} (h : undo1 r t = some t1)
    (hx : x ≠ r.orig) (hi : 0 ≤ r.into → x ≠ r.into.toNat) : getObj t1 x = getObj t x := by
  unfold undo1 at h
  by_cases h1 : r.into < 0
  · simp only [h1, if_true, Option.some.injEq] at h
    subst h
    rw [getObj_set_none]; simp [Ne.symm hx]
  · simp only [h1, if_false] at h
    have hi := hi (by omega)
    by_cases h2 : r.into.toNat = r.orig
    · simp only [h2, if_true, Option.some.injEq] at h
      subst h; rfl
    · simp only [h2, if_false] at h
      split at h
      · simp at h
      · split at h
        · simp at h
        · simp only [Option.some.injEq] at h
          subst h
          rw [getObj_set_none, getObj_set, getObj_set_none]
          simp [Ne.symm hx, Ne.symm hi]

theorem undo1_length {r : Rename} {t t1 : Tab} (h : undo1 r t = some t1) :
    t1.length = t.length := by
  unfold undo1 at h
  by_cases h1 : r.into < 0
  · simp only [h1, if_true, Option.some.injEq] at h
    subst h; simp
  · simp only [h1, if_false] at h
    by_cases h2 : r.into.toNat = r.orig
    · simp only [h2, if_true, Option.some.injEq] at h
      subst h; rfl
    · simp only [h2, if_false] at h
      split at h
      · simp at h
      · split at h
        · simp at h
        · simp only [Option.some.injEq] at h
          subst h; simp

/-- Undoing a frame gives the same result on tables that hold the same
objects. -/
theorem undoTab_eqv (L : List Rename) : ∀ {t u : Tab}, Eqv t u →
    ORel Eqv (undoTab L t) (undoTab L u) := by
  induction L with
  | nil => intro t u h; exact h
  | cons r L ih =>
    intro t u h
    have h1 := undo1_agree (fun _ => False) r h (fun _ => not_false)
    unfold undoTab
    cases ht : undo1 r t with
    | none =>
      cases hu : undo1 r u with
      | none => trivial
      | some b => rw [ht, hu] at h1; exact h1.elim
    | some a =>
      cases hu : undo1 r u with
      | none => rw [ht, hu] at h1; exact h1.elim
      | some b =>
        rw [ht, hu] at h1
        simp only [ORel] at h1
        exact ih (h1.mono (fun y hy => hy.1))

/-- Under `SaveOrder`, what a descriptor with an entry in the frame holds does
not matter for the result of undoing the frame. -/
theorem undoTab_hit (L : List Rename) : ∀ {t u : Tab} {x : Nat}, SaveOrder L → x ∈ origs L →
    Agree1 x t u → ORel Eqv (undoTab L t) (undoTab L u) := by
  induction L with
  | nil => intro t u x _ hx; simp [origs] at hx
  | cons r L ih =>
    intro t u x hso hx h
    obtain ⟨hr, hso'⟩ := hso
    have hin : 0 ≤ r.into → ¬ (r.into.toNat = x) := by
      intro h0 he
      exact hr h0 (he ▸ hx)
    have h1 := undo1_agree (fun y => y = x) r h hin
    unfold undoTab
    cases ht : undo1 r t with
    | none =>
      cases hu : undo1 r u with
      | none => trivial
      | some b => rw [ht, hu] at h1; exact h1.elim
    | some a =>
      cases hu : undo1 r u with
      | none => rw [ht, hu] at h1; exact h1.elim
      | some b =>
        rw [ht, hu] at h1
        simp only [ORel] at h1
        by_cases hxo : x = r.orig
        · exact undoTab_eqv L (h1.mono (fun y hy => hy.2 (hy.1.trans hxo)))
        · have hx' : x ∈ origs L := by
            simp only [origs, List.map_cons, List.mem_cons] at hx
            rcases hx with hx | hx
            · exact absurd hx hxo
            · exact hx
          exact ih hso' hx' (h1.mono (fun y hy => hy.1))

theorem mem_slots {L : List Rename} {x : Nat} :
    x ∈ slots L ↔ ∃ r ∈ L, 0 ≤ r.into ∧ r.into.toNat = x := by
  simp [slots, and_assoc]

/-- A descriptor that is neither saved in the frame nor a saved duplicate of it
is left alone when the frame is undone, and does not matter for the rest. -/
theorem undoTab_miss (L : List Rename) : ∀ {t u : Tab} {x : Nat}, x ∉ origs L → x ∉ slots L →
    Agree1 x t u → ORel (Agree1 x) (undoTab L t) (undoTab L u) := by
  induction L with
  | nil => intro t u x _ _ h; exact h
  | cons r L ih =>
    intro t u x hxo hxs h
    have hxo1 : x ≠ r.orig := fun he => hxo (by simp [origs, he])
    have hxo2 : x ∉ origs L := fun he => hxo (by simp [origs] at he ⊢; exact Or.inr he)
    have hxs1 : 0 ≤ r.into → ¬ (r.into.toNat = x) := fun h0 he =>
      hxs (mem_slots.2 ⟨r, by simp, h0, he⟩)
    have hxs2 : x ∉ slots L := fun he => by
      obtain ⟨r', hr', h0, he'⟩ := mem_slots.1 he
      exact hxs (mem_slots.2 ⟨r', List.mem_cons_of_mem _ hr', h0, he'⟩)
    have h1 := undo1_agree (fun y => y = x) r h hxs1
    unfold undoTab
    cases ht : undo1 r t with
    | none =>
      cases hu : undo1 r u with
      | none => trivial
      | some b => rw [ht, hu] at h1; exact h1.elim
    | some a =>
      cases hu : undo1 r u with
      | none => rw [ht, hu] at h1; exact h1.elim
      | some b =>
        rw [ht, hu] at h1
        simp only [ORel] at h1
        exact ih hxo2 hxs2 (h1.mono (fun y hy => hy.1))

theorem undoTab_keep (L : List Rename) : ∀ {t t1 : Tab} {x : Nat}, x ∉ origs L → x ∉ slots L →
    undoTab L t = some t1 → getObj t1 x = getObj t x := by
  induction L with
  | nil => intro t t1 x _ _ h; simp [undoTab] at h; subst h; rfl
  | cons r L ih =>
    intro t t1 x hxo hxs h
    have hxo1 : x ≠ r.orig := fun he => hxo (by simp [origs, he])
    have hxo2 : x ∉ origs L := fun he => hxo (by simp [origs] at he ⊢; exact Or.inr he)
    have hxs1 : 0 ≤ r.into → x ≠ r.into.toNat := fun h0 he =>
      hxs (mem_slots.2 ⟨r, by simp, h0, he.symm⟩)
    have hxs2 : x ∉ slots L := fun he => by
      obtain ⟨r', hr', h0, he'⟩ := mem_slots.1 he
      exact hxs (mem_slots.2 ⟨r', List.mem_cons_of_mem _ hr', h0, he'⟩)
    unfold undoTab at h
    cases ht : undo1 r t with
    | none => rw [ht] at h; simp at h
    | some a =>
      rw [ht] at h
      simp only at h
      rw [ih hxo2 hxs2 h, undo1_keep ht hxo1 hxs1]

theorem undoTab_length (L : List Rename) : ∀ {t t1 : Tab}, undoTab L t = some t1 →
    t1.length = t.length := by
  induction L with
  | nil => intro t t1 h; simp [undoTab] at h; subst h; rfl
  | cons r L ih =>
    intro t t1 h
    unfold undoTab at h
    cases ht : undo1 r t with
    | none => rw [ht] at h; simp at h
    | some a =>
      rw [ht] at h
      simp only at h
      rw [ih h, undo1_length ht]

theorem lowestFreeFrom_spec (t : Tab) (i r : Nat) (h : lowestFreeFrom t i = some r) :
    i ≤ r ∧ r < i + t.length ∧ t.getD (r - i) none = none := by
  induction t generalizing i with
  | nil => simp [lowestFreeFrom] at h
  | cons e t ih =>
    simp only [lowestFreeFrom] at h
    split at h
    · rename_i he
      simp at h
      subst h
      simp
      simpa using he
    · have := ih (i+1) h
      obtain ⟨h1, h2, h3⟩ := this
      refine ⟨by omega, by simp; omega, ?_⟩
      have : r - i = (r - (i+1)) + 1 := by omega
      rw [this]
      simpa using h3

theorem lowestFree_spec (t : Tab) (m r : Nat) (h : lowestFree t m = some r) :
    m ≤ r ∧ r < t.length ∧ getFd t r = none := by
  unfold lowestFree at h
  have := lowestFreeFrom_spec _ _ _ h
  obtain ⟨h1, h2, h3⟩ := this
  simp at h2
  refine ⟨h1, by omega, ?_⟩
  unfold getFd
  simp [List.getD_eq_getElem?_getD] at h3 ⊢
  have e : m + (r - m) = r := by omega
  rw [e] at h3
  exact h3

/-! ## Running computations -/

@[simp] theorem pure_run {α : Type} (a : α) (s : State) : (pure a : M α) s = .ok a s := rfl

@[simp] theorem bind_run {α β : Type} (m : M α) (f : α → M β) (s : State) :
    (m >>= f) s = match m s with
      | .ok a s1 => f a s1
      | .err e s1 => .err e s1 := rfl

@[simp] theorem error_run {α : Type} (msg : String) (s : State) :
    (error msg : M α) s = .err msg s := rfl

@[simp] theorem getState_run (s : State) : getState s = .ok s s := rfl

@[simp] theorem modifyState_run (f : State → State) (s : State) :
    modifyState f s = .ok () (f s) := rfl

@[simp] theorem close_run (fd : Nat) (s : State) :
    close fd s = .ok () { s with fds := s.fds.set fd none } := rfl

@[simp] theorem discard_run {α : Type} (m : M α) (s : State) :
    (discard m) s = match m s with
      | .ok _ s1 => .ok () s1
      | .err e s1 => .err e s1 := by
  show (Functor.map _ m) s = _
  show (m >>= _) s = _
  rw [bind_run]
  cases m s <;> rfl

theorem set_set_none (t : Tab) (r : Nat) (v : Option FdEnt) (h : getFd t r = none) :
    (t.set r v).set r none = t := by
  rw [List.set_set]
  apply List.ext_getElem?
  intro n
  rw [List.getElem?_set]
  by_cases hn : r = n
  · subst hn
    by_cases hl : r < t.length
    · simp only [hl, if_true, eq_self_iff_true]
      unfold getFd at h
      rw [List.getD_eq_getElem?_getD] at h
      rw [List.getElem?_eq_getElem hl] at h ⊢
      simp at h
      rw [h]
    · simp only [hl, if_false, if_true]
      simp at hl
      rw [List.getElem?_eq_none hl]
  · simp [hn]

theorem fcntl_DUPFD_cases (c : Bool) (fd m : Nat) (s : State) :
    (getFd s.fds fd = none ∧ fcntl_DUPFD c fd m s = .ok (.error .EBADF) s) ∨
    (∃ e, e ≠ Errno.EBADF ∧ getFd s.fds fd ≠ none ∧ fcntl_DUPFD c fd m s = .ok (.error e) s) ∨
    (∃ r e0, getFd s.fds fd = some e0 ∧ m ≤ r ∧ r < s.fds.length ∧ getFd s.fds r = none ∧
      fcntl_DUPFD c fd m s =
        .ok (.ok r) { s with fds := s.fds.set r (some { obj := e0.obj, cloexec := c }) }) := by
  unfold fcntl_DUPFD
  cases h : getFd s.fds fd with
  | none => left; simp
  | some e0 =>
    right
    simp only
    by_cases h2 : s.fds.length ≤ m
    · left; exact ⟨.EINVAL, by decide, by simp, by simp [h2]⟩
    · simp only [h2, if_false]
      cases h3 : lowestFree s.fds m with
      | none => left; exact ⟨.EMFILE, by decide, by simp, rfl⟩
      | some r =>
        right
        obtain ⟨a, b, c'⟩ := lowestFree_spec _ _ _ h3
        exact ⟨r, e0, rfl, a, b, c', rfl⟩

theorem find_big_fd_loop_run (fuel i : Nat) (s : State) :
    ∃ j, find_big_fd_loop fuel i s = .ok j s := by
  induction fuel generalizing i with
  | zero => exact ⟨i, rfl⟩
  | succ n ih =>
    unfold find_big_fd_loop
    by_cases h : 10 ≤ i
    · simp only [h, if_true, bind_run]
      rcases fcntl_DUPFD_cases false 0 (i - 1) s with ⟨_, h1⟩ | ⟨e, _, _, h1⟩ | ⟨r, e0, _, _, _, hr, h1⟩
      · rw [h1]; exact ih _
      · rw [h1]; exact ih _
      · rw [h1]
        refine ⟨i, ?_⟩
        simp only [bind_run, close_run, pure_run]
        rw [set_set_none _ _ _ hr]
    · simp only [h, if_false]
      exact ⟨i, rfl⟩

theorem find_big_fd_run (s : State) :
    ∃ a b, 10 ≤ b ∧ find_big_fd s = .ok () { s with last_start := a, big_sh_fd := b } := by
  unfold find_big_fd
  simp only [bind_run, modifyState_run, getState_run]
  by_cases h : s.last_start < 10
  · simp only [h, if_true]
    obtain ⟨j, hj⟩ := find_big_fd_loop_run (1 <<< (s.last_start + 1)) (1 <<< (s.last_start + 1))
      { s with last_start := s.last_start + 1 }
    rw [hj]
    exact ⟨_, _, by split <;> omega, rfl⟩
  · simp only [h, if_false]
    obtain ⟨j, hj⟩ := find_big_fd_loop_run (1 <<< s.last_start) (1 <<< s.last_start) s
    rw [hj]
    exact ⟨_, _, by split <;> omega, rfl⟩

/-! ## The invariant is kept -/

@[simp] theorem sat_ok {α : Type} (Q : α → State → Prop) (E : State → Prop) (a : α)
    (s : State) : (Res.ok a s).sat Q E = Q a s := rfl

@[simp] theorem sat_err {α : Type} (Q : α → State → Prop) (E : State → Prop) (e : String)
    (s : State) : (Res.err e s : Res α).sat Q E = E s := rfl

theorem Triple.bind {α β : Type} {P : State → Prop} {m : M α} {Q : α → State → Prop}
    {E : State → Prop} {f : α → M β} {R : β → State → Prop}
    (h1 : Triple P m Q E) (h2 : ∀ a, Triple (Q a) (f a) R E) : Triple P (m >>= f) R E := by
  intro s hs
  have := h1 s hs
  rw [bind_run]
  cases hm : m s with
  | ok a s1 => rw [hm] at this; exact h2 a s1 this
  | err e s1 => rw [hm] at this; exact this

theorem Triple.weaken {α : Type} {P P1 : State → Prop} {m : M α} {Q Q1 : α → State → Prop}
    {E E1 : State → Prop} (h : Triple P m Q E) (hP : ∀ s, P1 s → P s)
    (hQ : ∀ a s, Q a s → Q1 a s) (hE : ∀ s, E s → E1 s) : Triple P1 m Q1 E1 := by
  intro s hs
  have := h s (hP s hs)
  cases hm : m s with
  | ok a s1 => rw [hm] at this; exact hQ a s1 this
  | err e s1 => rw [hm] at this; exact hE s1 this

theorem getFd_ne_none_of_eqv {t u : Tab} {X : Nat → Prop} (h : AgreeOff X t u) {x : Nat}
    (hx : ¬ X x) : getFd t x ≠ none ↔ getFd u x ≠ none := by
  have := h.2 x hx
  simp only [ne_eq, ← getObj_none_iff, this]

/-- The invariant only depends on the objects the descriptors hold, the top
frame and the registered descriptors. -/
theorem Inv.eqv {T0 : Tab} {R0 : List Nat} {rest : List (List Rename)} {A : Nat → Prop} {s s1 : State}
    (h : Inv T0 R0 rest A s) (hr : s1.redirlist = s.redirlist)
    (hl : s1.sh_fd_list = s.sh_fd_list) (he : Eqv s.fds s1.fds) : Inv T0 R0 rest A s1 := by
  have htop : topFrame s1 = topFrame s := by simp [topFrame, hr]
  have hregs : regs s1 = regs s := by simp [regs, hl]
  have hopen : ∀ x, getFd s1.fds x ≠ none ↔ getFd s.fds x ≠ none :=
    fun x => (getFd_ne_none_of_eqv he (x := x) not_false).symm
  constructor
  · rw [hr, htop]; exact h.frames
  · rw [← he.1]; exact h.len
  · exact h.r0open
  · rw [hregs]; exact h.regNodup
  · intro K hK
    rw [hregs] at hK
    exact (hopen K).2 (h.regOpen K hK)
  · rw [htop]; exact h.nodup
  · intro x hx hxo
    rw [htop] at hx hxo
    rw [hregs]
    exact ⟨(hopen x).2 (h.slotOpen x hx hxo).1, (h.slotOpen x hx hxo).2⟩
  · intro x hxo hxs hxr
    rw [htop] at hxo hxs
    rw [hregs, ← he.2 x not_false]
    exact h.untouched x hxo hxs hxr
  · intro r hr' h0 hs
    rw [htop] at hr' hs
    exact h.closedRec r hr' h0 hs
  · intro hso
    rw [htop] at hso ⊢
    obtain ⟨T, hT, hG⟩ := h.restore hso
    have := undoTab_eqv (topFrame s) he
    rw [hT] at this
    cases hu : undoTab (topFrame s) s1.fds with
    | none => rw [hu] at this; exact this.elim
    | some T1 =>
      rw [hu] at this
      simp only [ORel] at this
      refine ⟨T1, rfl, fun x hx => ?_⟩
      rw [hregs, ← this.2 x not_false]
      exact hG x hx
  · intro x hx
    rw [htop]
    exact h.saved x hx

/-- The descriptor `f` has an entry in the frame and is not registered: what
it holds may change. -/
theorem Inv.target {T0 : Tab} {R0 : List Nat} {rest : List (List Rename)} {A : Nat → Prop} {s s1 : State}
    {f : Nat} (h : Inv T0 R0 rest A s) (hr : s1.redirlist = s.redirlist)
    (hl : s1.sh_fd_list = s.sh_fd_list) (hf : f ∈ origs (topFrame s)) (hfr : f ∉ regs s)
    (he : Agree1 f s.fds s1.fds) : Inv T0 R0 rest A s1 := by
  have htop : topFrame s1 = topFrame s := by simp [topFrame, hr]
  have hregs : regs s1 = regs s := by simp [regs, hl]
  have hopen : ∀ x, x ≠ f → (getFd s1.fds x ≠ none ↔ getFd s.fds x ≠ none) :=
    fun x hx => (getFd_ne_none_of_eqv he (x := x) hx).symm
  constructor
  · rw [hr, htop]; exact h.frames
  · rw [← he.1]; exact h.len
  · exact h.r0open
  · rw [hregs]; exact h.regNodup
  · intro K hK
    rw [hregs] at hK
    exact (hopen K (fun e => hfr (e ▸ hK))).2 (h.regOpen K hK)
  · rw [htop]; exact h.nodup
  · intro x hx hxo
    rw [htop] at hx hxo
    rw [hregs]
    exact ⟨(hopen x (fun e => hxo (e ▸ hf))).2 (h.slotOpen x hx hxo).1, (h.slotOpen x hx hxo).2⟩
  · intro x hxo hxs hxr
    rw [htop] at hxo hxs
    rw [hregs, ← he.2 x (fun e => hxo (e ▸ hf))]
    exact h.untouched x hxo hxs hxr
  · intro r hr' h0 hs
    rw [htop] at hr' hs
    exact h.closedRec r hr' h0 hs
  · intro hso
    rw [htop] at hso ⊢
    obtain ⟨T, hT, hG⟩ := h.restore hso
    have := undoTab_hit (topFrame s) hso hf he
    rw [hT] at this
    cases hu : undoTab (topFrame s) s1.fds with
    | none => rw [hu] at this; exact this.elim
    | some T1 =>
      rw [hu] at this
      simp only [ORel] at this
      refine ⟨T1, rfl, fun x hx => ?_⟩
      rw [hregs, ← this.2 x not_false]
      exact hG x hx
  · intro x hx
    rw [htop]
    exact h.saved x hx

theorem getObj_ne_none_iff {t : Tab} {x : Nat} : getObj t x ≠ none ↔ getFd t x ≠ none := by
  simp only [ne_eq, getObj_none_iff]

theorem origs_cons (r : Rename) (L : List Rename) : origs (r :: L) = r.orig :: origs L := rfl

theorem slots_cons_nonneg {r : Rename} (L : List Rename) (h : 0 ≤ r.into) :
    slots (r :: L) = r.into.toNat :: slots L := by
  simp [slots, List.filter_cons, h]

theorem slots_cons_neg {r : Rename} (L : List Rename) (h : r.into < 0) :
    slots (r :: L) = slots L := by
  have : ¬ (0 ≤ r.into) := by omega
  simp [slots, List.filter_cons, this]

theorem topFrame_of_redirlist {s : State} {L : List Rename} {rest : List (List Rename)}
    (h : s.redirlist = L :: rest) : topFrame s = L := by
  simp [topFrame, h]

/-- The descriptor `f`, open and not yet in the frame, is saved as `sl`. -/
theorem Inv.pushSlot {T0 : Tab} {R0 : List Nat} {rest : List (List Rename)} {A : Nat → Prop} {s s1 : State}
    {f sl : Nat} {e : FdEnt} {c : Bool} (h : Inv T0 R0 rest A s)
    (hfo : f ∉ origs (topFrame s)) (hfr : f ∉ regs s) (hf : getFd s.fds f = some e)
    (hsl : getFd s.fds sl = none) (hlt : sl < s.fds.length)
    (hr : s1.redirlist = ({ orig := f, into := (sl : Int) } :: topFrame s) :: rest)
    (hl : s1.sh_fd_list = s.sh_fd_list)
    (he : Eqv (s.fds.set sl (some { obj := e.obj, cloexec := c })) s1.fds) :
    Inv T0 R0 rest A s1 := by
  have htop : topFrame s1 = { orig := f, into := (sl : Int) } :: topFrame s :=
    topFrame_of_redirlist hr
  have hregs : regs s1 = regs s := by simp [regs, hl]
  have h0 : (0 : Int) ≤ (sl : Int) := Int.ofNat_nonneg sl
  have hslots : slots (topFrame s1) = sl :: slots (topFrame s) := by
    rw [htop, slots_cons_nonneg _ h0]; simp
  have horigs : origs (topFrame s1) = f :: origs (topFrame s) := by rw [htop]; rfl
  have hfsl : f ≠ sl := fun e' => by rw [e'] at hf; rw [hf] at hsl; simp at hsl
  have hobj : ∀ x, getObj s1.fds x = if sl = x then some e.obj else getObj s.fds x := by
    intro x
    rw [← he.2 x not_false, getObj_set_lt _ _ _ _ hlt]
    rfl
  have hopen : ∀ x, getFd s.fds x ≠ none → getFd s1.fds x ≠ none := by
    intro x hx
    have := hobj x
    rw [← getObj_ne_none_iff] at hx ⊢
    rw [this]
    split
    · simp
    · exact hx
  have hslr : sl ∉ regs s := fun hm => h.regOpen sl hm hsl
  constructor
  · rw [hr, htop]
  · rw [← he.1, List.length_set]; exact h.len
  · exact h.r0open
  · rw [hregs]; exact h.regNodup
  · intro K hK
    rw [hregs] at hK
    exact hopen K (h.regOpen K hK)
  · rw [horigs]
    exact List.nodup_cons.2 ⟨hfo, h.nodup⟩
  · intro x hx hxo
    rw [hslots] at hx
    rw [horigs] at hxo
    rw [hregs]
    simp only [List.mem_cons, not_or] at hx hxo
    rcases hx with hx | hx
    · subst hx
      refine ⟨?_, hslr⟩
      rw [← getObj_ne_none_iff, hobj]; simp
    · have := h.slotOpen x hx hxo.2
      exact ⟨hopen x this.1, this.2⟩
  · intro x hxo hxs hxr
    rw [horigs] at hxo
    rw [hslots] at hxs
    simp only [List.mem_cons, not_or] at hxs hxo
    rw [hregs, hobj x]
    simp only [Ne.symm hxs.1, if_false]
    exact h.untouched x hxo.2 hxs.2 hxr
  · intro r hr' h0' hs
    rw [htop] at hr'
    rw [hslots] at hs
    simp only [List.mem_cons, not_or] at hs hr'
    rcases hr' with hr' | hr'
    · subst hr'
      exfalso
      simp only at h0' hs
      have hfR : f ∉ R0 := fun hm => h.r0open f hm (getObj_none_iff.1 h0')
      have := (h.untouched f hfo hs.2 hfR).2 hfr
      rw [h0', getObj, hf] at this
      simp at this
    · exact h.closedRec r hr' h0' hs.2
  · intro hso
    rw [htop] at hso ⊢
    obtain ⟨hso1, hso2⟩ := hso
    have hso1 := hso1 h0
    simp only [Int.toNat_ofNat, origs_cons, List.mem_cons, not_or] at hso1
    obtain ⟨T, hT, hG⟩ := h.restore hso2
    have hsl1 : getObj s1.fds sl = some e.obj := by rw [hobj]; simp
    obtain ⟨e1, he1⟩ : ∃ e1, getFd s1.fds sl = some e1 := by
      cases hc : getFd s1.fds sl with
      | none => rw [getObj, hc] at hsl1; simp at hsl1
      | some e1 => exact ⟨e1, rfl⟩
    have he1o : e1.obj = e.obj := by
      rw [getObj, he1] at hsl1; simpa using hsl1
    have hlen1 : s1.fds.length = s.fds.length := by rw [← he.1, List.length_set]
    have hflt : f < s1.fds.length := by rw [hlen1]; exact getFd_lt hf
    have hu1 : undo1 { orig := f, into := (sl : Int) } s1.fds =
        some (((s1.fds.set f none).set f (some { obj := e1.obj, cloexec := false })).set sl none) := by
      unfold undo1
      have : ¬ ((sl : Int) < 0) := by omega
      simp only [this, if_false, Int.toNat_ofNat, Ne.symm hfsl]
      rw [getFd_set_none]
      simp only [hfsl, if_false, he1]
      have : ¬ (s1.fds.length ≤ f) := by omega
      simp only [this, if_false]
    unfold undoTab
    rw [hu1]
    simp only
    have heq : Eqv s.fds
        (((s1.fds.set f none).set f (some { obj := e1.obj, cloexec := false })).set sl none) := by
      refine ⟨by simp [hlen1], fun x _ => ?_⟩
      rw [getObj_set_none, getObj_set_lt _ _ _ _ (by simpa using hflt), getObj_set_none, hobj]
      by_cases hx1 : sl = x
      · subst hx1
        simp only [if_true]
        exact getObj_none_iff.2 hsl
      · simp only [hx1, if_false]
        by_cases hx2 : f = x
        · subst hx2
          simp [he1o, getObj, hf]
        · simp [hx2]
    have := undoTab_eqv (topFrame s) heq
    rw [hT] at this
    cases hu : undoTab (topFrame s) _ with
    | none => rw [hu] at this; exact this.elim
    | some T1 =>
      rw [hu] at this
      simp only [ORel] at this
      refine ⟨T1, rfl, fun x hx => ?_⟩
      rw [hregs, ← this.2 x not_false]
      rcases hG x hx with h1 | ⟨h1, h2, h3⟩
      · exact Or.inl h1
      · refine Or.inr ⟨h1, h2, ?_⟩
        simp only [origs_cons, List.mem_cons, not_or]
        exact ⟨fun e' => hfr (e' ▸ h2), h3⟩
  · intro x hx
    rw [horigs]
    exact List.mem_cons_of_mem _ (h.saved x hx)

/-- The descriptor `f`, not open and not yet in the frame, is recorded as
`CLOSED`. -/
theorem Inv.pushClosed {T0 : Tab} {R0 : List Nat} {rest : List (List Rename)} {A : Nat → Prop} {s s1 : State}
    {f : Nat} (h : Inv T0 R0 rest A s)
    (hfo : f ∉ origs (topFrame s)) (hfr : f ∉ regs s) (hf : getFd s.fds f = none)
    (hr : s1.redirlist = ({ orig := f, into := CLOSED } :: topFrame s) :: rest)
    (hl : s1.sh_fd_list = s.sh_fd_list) (he : s1.fds = s.fds) :
    Inv T0 R0 rest A s1 := by
  have htop : topFrame s1 = { orig := f, into := CLOSED } :: topFrame s :=
    topFrame_of_redirlist hr
  have hregs : regs s1 = regs s := by simp [regs, hl]
  have h0 : CLOSED < 0 := by decide
  have hslots : slots (topFrame s1) = slots (topFrame s) := by
    rw [htop, slots_cons_neg _ h0]
  have horigs : origs (topFrame s1) = f :: origs (topFrame s) := by rw [htop]; rfl
  constructor
  · rw [hr, htop]
  · rw [he]; exact h.len
  · exact h.r0open
  · rw [hregs]; exact h.regNodup
  · rw [hregs, he]; exact h.regOpen
  · rw [horigs]
    exact List.nodup_cons.2 ⟨hfo, h.nodup⟩
  · intro x hx hxo
    rw [hslots] at hx
    rw [horigs] at hxo
    rw [hregs, he]
    simp only [List.mem_cons, not_or] at hxo
    exact h.slotOpen x hx hxo.2
  · intro x hxo hxs hxr
    rw [horigs] at hxo
    rw [hslots] at hxs
    simp only [List.mem_cons, not_or] at hxo
    rw [hregs, he]
    exact h.untouched x hxo.2 hxs hxr
  · intro r hr' h0' hs
    rw [htop] at hr'
    rw [hslots] at hs
    simp only [List.mem_cons] at hr'
    rcases hr' with hr' | hr'
    · subst hr'; rfl
    · exact h.closedRec r hr' h0' hs
  · intro hso
    rw [htop] at hso ⊢
    obtain ⟨T, hT, hG⟩ := h.restore hso.2
    have hu1 : undo1 { orig := f, into := CLOSED } s1.fds = some (s.fds.set f none) := by
      unfold undo1
      simp only [h0, if_true, he]
    unfold undoTab
    rw [hu1]
    simp only
    have heq : Eqv s.fds (s.fds.set f none) := by
      refine ⟨by simp, fun x _ => ?_⟩
      rw [getObj_set_none]
      split
      · rename_i hx; subst hx; exact getObj_none_iff.2 hf
      · rfl
    have := undoTab_eqv (topFrame s) heq
    rw [hT] at this
    cases hu : undoTab (topFrame s) _ with
    | none => rw [hu] at this; exact this.elim
    | some T1 =>
      rw [hu] at this
      simp only [ORel] at this
      refine ⟨T1, rfl, fun x hx => ?_⟩
      rw [hregs, ← this.2 x not_false]
      rcases hG x hx with h1 | ⟨h1, h2, h3⟩
      · exact Or.inl h1
      · refine Or.inr ⟨h1, h2, ?_⟩
        simp only [origs_cons, List.mem_cons, not_or]
        exact ⟨fun e' => hfr (e' ▸ h2), h3⟩
  · intro x hx
    rw [horigs]
    exact List.mem_cons_of_mem _ (h.saved x hx)

theorem mem_set_sh_fd (K d : Nat) : ∀ (l : List ShellFd), (l.map ShellFd.fd).Nodup →
    K ∈ l.map ShellFd.fd → ∀ x, (x ∈ (set_sh_fd K d l).map ShellFd.fd ↔
      x = d ∨ (x ∈ l.map ShellFd.fd ∧ x ≠ K)) := by
  intro l
  induction l with
  | nil => intro _ h; simp at h
  | cons fp l ih =>
    intro hnd hK x
    simp only [List.map_cons, List.nodup_cons] at hnd
    unfold set_sh_fd
    by_cases hfp : fp.fd = K
    · simp only [hfp, if_true, List.map_cons, List.mem_cons]
      constructor
      · rintro (h | h)
        · exact Or.inl h
        · refine Or.inr ⟨Or.inr h, fun e => ?_⟩
          subst e
          exact hnd.1 (hfp ▸ h)
      · rintro (h | ⟨h | h, hne⟩)
        · exact Or.inl h
        · exact absurd h hne
        · exact Or.inr h
    · simp only [hfp, if_false, List.map_cons, List.mem_cons]
      have hK' : K ∈ l.map ShellFd.fd := by
        simp only [List.map_cons, List.mem_cons] at hK
        rcases hK with hK | hK
        · exact absurd hK.symm hfp
        · exact hK
      rw [ih hnd.2 hK' x]
      constructor
      · rintro (h | h | h)
        · exact Or.inr ⟨Or.inl h, fun e => hfp (h ▸ e)⟩
        · exact Or.inl h
        · exact Or.inr ⟨Or.inr h.1, h.2⟩
      · rintro (h | ⟨h | h, hne⟩)
        · exact Or.inr (Or.inl h)
        · exact Or.inl h
        · exact Or.inr (Or.inr ⟨h, hne⟩)

theorem nodup_set_sh_fd (K d : Nat) : ∀ (l : List ShellFd), (l.map ShellFd.fd).Nodup →
    d ∉ l.map ShellFd.fd → ((set_sh_fd K d l).map ShellFd.fd).Nodup := by
  intro l
  induction l with
  | nil => intro _ _; simp [set_sh_fd]
  | cons fp l ih =>
    intro hnd hd
    simp only [List.map_cons, List.nodup_cons, List.mem_cons, not_or] at hnd hd
    unfold set_sh_fd
    by_cases hfp : fp.fd = K
    · simp only [hfp, if_true, List.map_cons, List.nodup_cons]
      exact ⟨hd.2, hnd.2⟩
    · simp only [hfp, if_false, List.map_cons, List.nodup_cons]
      refine ⟨?_, ih hnd.2 hd.2⟩
      by_cases hK : K ∈ l.map ShellFd.fd
      · rw [mem_set_sh_fd K d l hnd.2 hK]
        rintro (h | h)
        · exact hd.1 h.symm
        · exact hnd.1 h.1
      · have : set_sh_fd K d l = l := by
          clear ih hnd hd
          induction l with
          | nil => rfl
          | cons a l ih2 =>
            simp only [List.map_cons, List.mem_cons, not_or] at hK
            unfold set_sh_fd
            simp only [Ne.symm hK.1, if_false]
            rw [ih2 hK.2]
        rw [this]
        exact hnd.1

/-- A table that differs from `t` at one descriptor `x` which either has an
entry in the frame or is neither an entry nor a saved duplicate: undoing the
frame gives the same result, except possibly at `x` in the second case. -/
theorem undoTab_change {L : List Rename} {t u T : Tab} {x : Nat} (hso : SaveOrder L)
    (hx : x ∈ origs L ∨ x ∉ slots L) (h : Agree1 x t u) (hT : undoTab L t = some T) :
    ∃ U, undoTab L u = some U ∧ Agree1 x T U ∧ (x ∈ origs L → Eqv T U) ∧
      (x ∉ origs L → getObj U x = getObj u x) := by
  by_cases hxo : x ∈ origs L
  · have := undoTab_hit L hso hxo h
    rw [hT] at this
    cases hu : undoTab L u with
    | none => rw [hu] at this; exact this.elim
    | some U =>
      rw [hu] at this
      simp only [ORel] at this
      exact ⟨U, rfl, this.mono (fun _ hf => hf.elim), fun _ => this, fun hn => absurd hxo hn⟩
  · have hxs : x ∉ slots L := hx.resolve_left hxo
    have := undoTab_miss L hxo hxs h
    rw [hT] at this
    cases hu : undoTab L u with
    | none => rw [hu] at this; exact this.elim
    | some U =>
      rw [hu] at this
      simp only [ORel] at this
      exact ⟨U, rfl, this, fun hn => absurd hn hxo, fun _ => undoTab_keep L hxo hxs hu⟩

/-- The registered descriptor `K` is moved to the free descriptor `d`. -/
theorem Inv.reloc {T0 : Tab} {R0 : List Nat} {rest : List (List Rename)} {A : Nat → Prop} {s s1 : State}
    {K d : Nat} {e : FdEnt} {c : Bool} (h : Inv T0 R0 rest A s)
    (hK : K ∈ regs s) (hKe : getFd s.fds K = some e)
    (hd : getFd s.fds d = none) (hlt : d < s.fds.length)
    (hr : s1.redirlist = s.redirlist)
    (hl : s1.sh_fd_list = set_sh_fd K d s.sh_fd_list)
    (he : s1.fds = (s.fds.set d (some { obj := e.obj, cloexec := c })).set K none) :
    Inv T0 R0 rest A s1 ∧ K ∉ regs s1 := by
  have htop : topFrame s1 = topFrame s := by simp [topFrame, hr]
  have hdK : d ≠ K := fun e' => by rw [e', hKe] at hd; simp at hd
  have hdr : d ∉ regs s := fun hm => h.regOpen d hm hd
  have hmem : ∀ x, x ∈ regs s1 ↔ x = d ∨ (x ∈ regs s ∧ x ≠ K) := by
    intro x
    simp only [regs, hl]
    exact mem_set_sh_fd K d _ h.regNodup hK x
  have hKn : K ∉ regs s1 := by
    rw [hmem]
    rintro (h1 | h1)
    · exact hdK h1.symm
    · exact h1.2 rfl
  have hobj : ∀ x, getObj s1.fds x =
      if K = x then none else if d = x then some e.obj else getObj s.fds x := by
    intro x
    rw [he, getObj_set_none, getObj_set_lt _ _ _ _ hlt]
    rfl
  have hds : d ∉ slots (topFrame s) ∨ d ∈ origs (topFrame s) := by
    by_cases hdo : d ∈ origs (topFrame s)
    · exact Or.inr hdo
    · exact Or.inl (fun hm => (h.slotOpen d hm hdo).1 hd)
  have hKs : K ∉ slots (topFrame s) ∨ K ∈ origs (topFrame s) := by
    by_cases hKo : K ∈ origs (topFrame s)
    · exact Or.inr hKo
    · exact Or.inl (fun hm => (h.slotOpen K hm hKo).2 hK)
  refine ⟨?_, hKn⟩
  constructor
  · rw [hr, htop]; exact h.frames
  · rw [he]; simp only [List.length_set]; exact h.len
  · exact h.r0open
  · simp only [regs, hl]
    exact nodup_set_sh_fd K d _ h.regNodup hdr
  · intro x hx
    rw [← getObj_ne_none_iff, hobj]
    rcases (hmem x).1 hx with h1 | h1
    · subst h1; simp [Ne.symm hdK]
    · have hxd : d ≠ x := fun e' => hdr (e' ▸ h1.1)
      simp only [Ne.symm h1.2, hxd, if_false]
      exact getObj_ne_none_iff.2 (h.regOpen x h1.1)
  · rw [htop]; exact h.nodup
  · intro x hx hxo
    rw [htop] at hx hxo
    have := h.slotOpen x hx hxo
    have hxK : K ≠ x := fun e' => this.2 (e' ▸ hK)
    have hxd : d ≠ x := fun e' => this.1 (e' ▸ hd)
    refine ⟨?_, ?_⟩
    · rw [← getObj_ne_none_iff, hobj]
      simp only [hxK, hxd, if_false]
      exact getObj_ne_none_iff.2 this.1
    · rw [hmem]
      rintro (h1 | h1)
      · exact hxd h1.symm
      · exact this.2 h1.1
  · intro x hxo hxs hxr
    rw [htop] at hxo hxs
    have hu := h.untouched x hxo hxs hxr
    refine ⟨fun hm => ?_, fun hm => ?_⟩
    · rcases (hmem x).1 hm with h1 | h1
      · subst h1
        rw [← hu.2 hdr]
        exact getObj_none_iff.2 hd
      · exact hu.1 h1.1
    · rw [hmem] at hm
      simp only [not_or, not_and, not_not] at hm
      rw [hobj]
      by_cases hxK : K = x
      · subst hxK
        simp only [if_true]
        exact (hu.1 hK).symm
      · simp only [hxK, Ne.symm hm.1, if_false]
        exact hu.2 (fun hm' => hxK (hm.2 hm').symm)
  · intro r hr' h0 hs
    rw [htop] at hr' hs
    exact h.closedRec r hr' h0 hs
  · intro hso
    rw [htop] at hso ⊢
    obtain ⟨T, hT, hG⟩ := h.restore hso
    have ha1 : Agree1 d s.fds (s.fds.set d (some { obj := e.obj, cloexec := c })) := by
      refine ⟨by simp, fun y hy => ?_⟩
      rw [getObj_set_lt _ _ _ _ hlt]
      simp [Ne.symm hy]
    have ha2 : Agree1 K (s.fds.set d (some { obj := e.obj, cloexec := c })) s1.fds := by
      refine ⟨by simp [he], fun y hy => ?_⟩
      rw [he, getObj_set_none]
      simp [Ne.symm hy]
    obtain ⟨T1, hT1, hA1, hE1, hk1⟩ := undoTab_change hso hds.symm ha1 hT
    obtain ⟨T2, hT2, hA2, hE2, hk2⟩ := undoTab_change hso hKs.symm ha2 hT1
    refine ⟨T2, hT2, fun x hx => ?_⟩
    by_cases hxK : x = K
    · subst hxK
      by_cases hKo : x ∈ origs (topFrame s)
      · left
        rw [← (hE2 hKo).2 x not_false, ← hA1.2 x (Ne.symm hdK)]
        rcases hG x hx with h1 | h1
        · exact h1
        · exact absurd hKo h1.2.2
      · left
        have hKs' : x ∉ slots (topFrame s) := hKs.resolve_right hKo
        rw [hk2 hKo, hobj]
        simp only [if_true]
        exact ((h.untouched x hKo hKs' hx).1 hK).symm
    · by_cases hxd : x = d
      · subst hxd
        by_cases hdo : x ∈ origs (topFrame s)
        · left
          rw [← hA2.2 x hxK, ← (hE1 hdo).2 x not_false]
          rcases hG x hx with h1 | h1
          · exact h1
          · exact absurd hdo h1.2.2
        · right
          have hds' : x ∉ slots (topFrame s) := hds.resolve_right hdo
          refine ⟨?_, (hmem x).2 (Or.inl rfl), hdo⟩
          rw [← (h.untouched x hdo hds' hx).2 hdr]
          exact getObj_none_iff.2 hd
      · rw [← hA2.2 x hxK, ← hA1.2 x hxd]
        rcases hG x hx with h1 | ⟨h1, h2, h3⟩
        · exact Or.inl h1
        · exact Or.inr ⟨h1, (hmem x).2 (Or.inr ⟨h2, hxK⟩), h3⟩
  · intro x hx
    rw [htop]
    exact h.saved x hx

/-! ## The steps of `redirect` keep the invariant -/

theorem sh_fd_run (fd : Nat) (s : State) :
    sh_fd fd s = .ok (s.sh_fd_list.find? fun fp => fp.fd = fd) s := rfl

theorem sh_fd_some {fd : Nat} {s : State} {fp : ShellFd}
    (h : (s.sh_fd_list.find? fun fp => fp.fd = fd) = some fp) : fp.fd = fd ∧ fd ∈ regs s := by
  have h1 := List.find?_some h
  have h2 := List.mem_of_find?_eq_some h
  simp only [decide_eq_true_eq] at h1
  refine ⟨h1, ?_⟩
  simp only [regs, List.mem_map]
  exact ⟨fp, h2, h1⟩

theorem sh_fd_none {fd : Nat} {s : State}
    (h : (s.sh_fd_list.find? fun fp => fp.fd = fd) = none) : fd ∉ regs s := by
  simp only [regs, List.mem_map, not_exists, not_and]
  intro fp hfp he
  have := List.find?_eq_none.1 h fp hfp
  simp [he] at this

theorem ladder_step (fd m : Nat) (b : Prop) [Decidable b] {s : State} {t : Except Errno Nat}
    {s1 : State} (h : LadderSt fd s t s1) :
    ∃ t2 s2, (if failed t = true ∧ b then fcntl_DUPFD true fd m else pure t) s1 = .ok t2 s2 ∧
      LadderSt fd s t2 s2 := by
  rcases h with ⟨hf, hs⟩ | ⟨r, e0, ht, h1, h2, h3, hs⟩
  · subst hs
    by_cases hb : b
    · simp only [hf, hb, and_self, if_true]
      rcases fcntl_DUPFD_cases true fd m s1 with ⟨_, hrun⟩ | ⟨e, _, _, hrun⟩ |
        ⟨r, e0, h1, _, h3, h4, hrun⟩
      · exact ⟨_, _, hrun, Or.inl ⟨rfl, rfl⟩⟩
      · exact ⟨_, _, hrun, Or.inl ⟨rfl, rfl⟩⟩
      · exact ⟨_, _, hrun, Or.inr ⟨r, e0, rfl, h1, h4, h3, rfl⟩⟩
    · simp only [hb, and_false, if_false]
      exact ⟨_, _, rfl, Or.inl ⟨hf, rfl⟩⟩
  · subst ht
    simp only [failed, Bool.false_eq_true, false_and, if_false]
    exact ⟨_, _, rfl, Or.inr ⟨r, e0, rfl, h1, h2, h3, hs⟩⟩

theorem ladder_step' (fd m : Nat) {s : State} {t : Except Errno Nat}
    {s1 : State} (h : LadderSt fd s t s1) :
    ∃ t2 s2, (if failed t = true then fcntl_DUPFD true fd m else pure t) s1 = .ok t2 s2 ∧
      LadderSt fd s t2 s2 := by
  have := ladder_step fd m True h
  simpa using this

theorem find_big_fd_inv {T0 : Tab} {R0 : List Nat} {rest : List (List Rename)} {A : Nat → Prop} {s : State}
    (h : Inv T0 R0 rest A s) : ∃ s1, find_big_fd s = .ok () s1 ∧ Inv T0 R0 rest A s1 ∧
      s1.fds = s.fds ∧ s1.redirlist = s.redirlist ∧ s1.sh_fd_list = s.sh_fd_list ∧
      s1.max_user_fd = s.max_user_fd := by
  obtain ⟨a, b, _, hrun⟩ := find_big_fd_run s
  exact ⟨_, hrun, h.eqv rfl rfl (Eqv.refl _), rfl, rfl, rfl, rfl⟩

theorem renumber_sh_fd_inv (T0 : Tab) (R0 : List Nat) (rest : List (List Rename)) (A : Nat → Prop) (fd : Nat) :
    Triple (Inv T0 R0 rest A) (sh_fd fd >>= renumber_sh_fd)
      (fun _ s => Inv T0 R0 rest A s ∧ fd ∉ regs s) (Inv T0 R0 rest A) := by
  intro s h
  rw [bind_run, sh_fd_run]
  simp only
  cases hfp : (s.sh_fd_list.find? fun fp => fp.fd = fd) with
  | none =>
    simp only [renumber_sh_fd, pure_run, sat_ok]
    exact ⟨h, sh_fd_none hfp⟩
  | some fp =>
    obtain ⟨hfd, hreg⟩ := sh_fd_some hfp
    simp only [renumber_sh_fd, bind_run, getState_run]
    -- the optional call of find_big_fd
    have hA : ∃ sa, (if s.big_sh_fd ≤ fp.fd then find_big_fd else pure PUnit.unit) s = .ok () sa ∧
        Inv T0 R0 rest A sa ∧ sa.fds = s.fds ∧ sa.redirlist = s.redirlist ∧
        sa.sh_fd_list = s.sh_fd_list := by
      by_cases hb : s.big_sh_fd ≤ fp.fd
      · simp only [hb, if_true]
        obtain ⟨s1, h1, h2, h3, h4, h5, _⟩ := find_big_fd_inv h
        exact ⟨s1, h1, h2, h3, h4, h5⟩
      · simp only [hb, if_false]
        exact ⟨s, rfl, h, rfl, rfl, rfl⟩
    obtain ⟨sa, hrunA, hInvA, hfdsA, hrlA, hshA⟩ := hA
    rw [hrunA]
    simp only
    have hregA : fd ∈ regs sa := by simpa [regs, hshA] using hreg
    have hL0 : ∃ t1 s1, fcntl_DUPFD true fp.fd sa.big_sh_fd sa = .ok t1 s1 ∧
        LadderSt fp.fd sa t1 s1 := by
      have := @ladder_step' fp.fd sa.big_sh_fd sa (.error .EBADF) sa (Or.inl ⟨rfl, rfl⟩)
      simpa [failed] using this
    obtain ⟨t1, s1, hrun1, hL1⟩ := hL0
    rw [hrun1]
    simp only
    obtain ⟨t2, s2, hrun2, hL2⟩ := ladder_step fp.fd (sa.big_sh_fd / 2) (22 ≤ sa.big_sh_fd) hL1
    rw [hrun2]
    simp only
    obtain ⟨t3, s3, hrun3, hL3⟩ := ladder_step' fp.fd (fp.fd + 1) hL2
    rw [hrun3]
    simp only
    obtain ⟨t4, s4, hrun4, hL4⟩ := ladder_step' fp.fd 10 hL3
    rw [hrun4]
    simp only
    obtain ⟨t5, s5, hrun5, hL5⟩ := ladder_step' fp.fd 3 hL4
    rw [hrun5]
    simp only
    rcases hL5 with ⟨hf, hs⟩ | ⟨r, e0, ht, h1, h2, h3, hs⟩
    · subst hs
      cases t5 with
      | ok v => simp [failed] at hf
      | error e => simp only [error_run, sat_err]; exact hInvA
    · subst ht
      simp only
      rw [hfd] at h1 ⊢
      have hne : fd ≠ r := fun e' => by rw [e', h2] at h1; simp at h1
      simp only [hne, if_false, bind_run, modifyState_run, close_run, sat_ok]
      subst hs
      exact Inv.reloc hInvA hregA h1 h2 h3 rfl rfl rfl

theorem fcntl_SETFD_cases (fd : Nat) (v : Bool) (s : State) :
    (getFd s.fds fd = none ∧ fcntl_SETFD fd v s = .ok false s) ∨
    (∃ e, getFd s.fds fd = some e ∧
      fcntl_SETFD fd v s = .ok true { s with fds := s.fds.set fd (some { e with cloexec := v }) }) := by
  unfold fcntl_SETFD
  cases h : getFd s.fds fd with
  | none => left; exact ⟨rfl, rfl⟩
  | some e => right; exact ⟨e, rfl, rfl⟩

theorem eqv_set_cloexec {t : Tab} {fd : Nat} {e : FdEnt} (v : Bool) (h : getFd t fd = some e) :
    Eqv t (t.set fd (some { e with cloexec := v })) := by
  refine ⟨by simp, fun x _ => ?_⟩
  rw [getObj_set_lt _ _ _ _ (getFd_lt h)]
  split
  · rename_i hx; subst hx; simp [getObj, h]
  · rfl

theorem fd_rename_run (f : Nat) (i : Int) (s : State) {L : List Rename}
    {rest : List (List Rename)} (h : s.redirlist = L :: rest) :
    fd_rename f i s = .ok () { s with redirlist := ({ orig := f, into := i } :: L) :: rest } := by
  unfold fd_rename
  simp only [modifyState_run, h]

theorem is_renamed_none {L : List Rename} {fd : Nat} (h : (is_renamed L fd).isNone = true) :
    fd ∉ origs L := by
  unfold is_renamed at h
  rw [Option.isNone_iff_eq_none] at h
  simp only [origs, List.mem_map, not_exists, not_and]
  intro r hr he
  have := List.find?_eq_none.1 h r hr
  simp [he] at this

theorem is_renamed_some {L : List Rename} {fd : Nat} (h : ¬ (is_renamed L fd).isNone = true) :
    fd ∈ origs L := by
  unfold is_renamed at h
  cases hf : L.find? (fun r => r.orig = fd) with
  | none => rw [hf] at h; simp at h
  | some r =>
    have h1 := List.find?_some hf
    have h2 := List.mem_of_find?_eq_some hf
    simp only [decide_eq_true_eq] at h1
    simp only [origs, List.mem_map]
    exact ⟨r, h2, h1⟩

theorem redirect_save_inv (T0 : Tab) (R0 : List Nat) (rest : List (List Rename)) (A : Nat → Prop) (fd : Nat) :
    Triple (fun s => Inv T0 R0 rest A s ∧ fd ∉ origs (topFrame s) ∧ fd ∉ regs s)
      (redirect_save fd)
      (fun _ s => Inv T0 R0 rest A s ∧ fd ∈ origs (topFrame s) ∧ fd ∉ regs s)
      (Inv T0 R0 rest A) := by
  rintro s ⟨h, hfo, hfr⟩
  simp only [redirect_save, bind_run, getState_run]
  have hA : ∃ sa, (if s.big_sh_fd < 10 then find_big_fd else pure ()) s = .ok () sa ∧
      Inv T0 R0 rest A sa ∧ sa.fds = s.fds ∧ sa.redirlist = s.redirlist ∧
      sa.sh_fd_list = s.sh_fd_list := by
    by_cases hb : s.big_sh_fd < 10
    · simp only [hb, if_true]
      obtain ⟨s1, h1, h2, h3, h4, h5, _⟩ := find_big_fd_inv h
      exact ⟨s1, h1, h2, h3, h4, h5⟩
    · simp only [hb, if_false]
      exact ⟨s, rfl, h, rfl, rfl, rfl⟩
  obtain ⟨sa, hrunA, hInvA, hfdsA, hrlA, hshA⟩ := hA
  rw [hrunA]
  simp only
  have htopA : topFrame sa = topFrame s := by simp [topFrame, hrlA]
  have hfoA : fd ∉ origs (topFrame sa) := by rw [htopA]; exact hfo
  have hfrA : fd ∉ regs sa := by simpa [regs, hshA] using hfr
  -- what happens once a duplicate `r` has been made in a state `sb` that kept the invariant
  have hslot : ∀ (sb : State) (r : Nat) (e0 : FdEnt), Inv T0 R0 rest A sb →
      fd ∉ origs (topFrame sb) → fd ∉ regs sb → getFd sb.fds fd = some e0 →
      getFd sb.fds r = none → r < sb.fds.length →
      ((do
        (if 0 ≤ (r : Int) then discard (fcntl_SETFD (r : Int).toNat true) else pure ())
        fd_rename fd (r : Int) : M Unit)
          { sb with fds := sb.fds.set r (some { obj := e0.obj, cloexec := false }) }).sat
        (fun _ s1 => Inv T0 R0 rest A s1 ∧ fd ∈ origs (topFrame s1) ∧ fd ∉ regs s1)
        (Inv T0 R0 rest A) := by
    intro sb r e0 hI hfo' hfr' hfd hr hlt
    have h0 : (0 : Int) ≤ (r : Int) := Int.ofNat_nonneg r
    simp only [bind_run, h0, if_true, Int.toNat_ofNat, discard_run]
    have hg : getFd (sb.fds.set r (some { obj := e0.obj, cloexec := false })) r =
        some { obj := e0.obj, cloexec := false } := by
      rw [getFd_set]; simp [hlt]
    rcases fcntl_SETFD_cases r true
      { sb with fds := sb.fds.set r (some { obj := e0.obj, cloexec := false }) } with
      ⟨hn, _⟩ | ⟨e1, he1, hrun⟩
    · rw [hg] at hn; simp at hn
    · rw [hrun]
      simp only [fd_rename, modifyState_run]
      rw [hI.frames]
      simp only [sat_ok]
      refine ⟨?_, by simp [topFrame, origs], by simpa [regs] using hfr'⟩
      refine Inv.pushSlot (c := false) hI hfo' hfr' hfd hr hlt rfl rfl ?_
      exact eqv_set_cloexec true he1
  rcases fcntl_DUPFD_cases false fd
      ((if sa.big_sh_fd < sa.max_user_fd then sa.max_user_fd else sa.big_sh_fd) + 1) sa with
    ⟨hn, hrun⟩ | ⟨e, hne, hop, hrun⟩ | ⟨r, e0, h1, _, h3, h4, hrun⟩
  · rw [hrun]
    simp only [pure_run]
    have : ¬ (0 ≤ CLOSED) := by decide
    simp only [this, if_false, pure_run]
    simp only [fd_rename, modifyState_run]
    rw [hInvA.frames]
    simp only [sat_ok]
    refine ⟨?_, by simp [topFrame, origs], by simpa [regs] using hfrA⟩
    exact Inv.pushClosed hInvA hfoA hfrA hn rfl rfl rfl
  · rw [hrun]
    simp only
    obtain ⟨e0, he0⟩ : ∃ e0, getFd sa.fds fd = some e0 := by
      cases hc : getFd sa.fds fd with
      | none => exact absurd hc hop
      | some e0 => exact ⟨e0, rfl⟩
    cases e with
    | EBADF => exact absurd rfl hne
    | EEXIST => simp only [error_run, reduceCtorEq, or_self, if_false, sat_err]; exact hInvA
    | EOTHER n => simp only [error_run, reduceCtorEq, or_self, if_false, sat_err]; exact hInvA
    | EMFILE =>
      simp only [true_or, if_true, bind_run, getState_run]
      obtain ⟨sb, hrunB, hInvB, hfdsB, hrlB, hshB, _⟩ := find_big_fd_inv hInvA
      rw [hrunB]
      simp only
      have htopB : topFrame sb = topFrame sa := by simp [topFrame, hrlB]
      have hfoB : fd ∉ origs (topFrame sb) := by rw [htopB]; exact hfoA
      have hfrB : fd ∉ regs sb := by simpa [regs, hshB] using hfrA
      rcases fcntl_DUPFD_cases false fd sb.big_sh_fd sb with
        ⟨_, hrun2⟩ | ⟨_, _, _, hrun2⟩ | ⟨r, e1, h1, _, h3, h4, hrun2⟩
      · rw [hrun2]; simp only [error_run, sat_err]; exact hInvB
      · rw [hrun2]; simp only [error_run, sat_err]; exact hInvB
      · rw [hrun2]
        simp only [pure_run]
        have hh := hslot sb r e1 hInvB hfoB hfrB h1 h4 h3
        simp only [bind_run] at hh
        exact hh
    | EINVAL =>
      simp only [or_true, if_true, bind_run, getState_run]
      obtain ⟨sb, hrunB, hInvB, hfdsB, hrlB, hshB, _⟩ := find_big_fd_inv hInvA
      rw [hrunB]
      simp only
      have htopB : topFrame sb = topFrame sa := by simp [topFrame, hrlB]
      have hfoB : fd ∉ origs (topFrame sb) := by rw [htopB]; exact hfoA
      have hfrB : fd ∉ regs sb := by simpa [regs, hshB] using hfrA
      rcases fcntl_DUPFD_cases false fd sb.big_sh_fd sb with
        ⟨_, hrun2⟩ | ⟨_, _, _, hrun2⟩ | ⟨r, e1, h1, _, h3, h4, hrun2⟩
      · rw [hrun2]; simp only [error_run, sat_err]; exact hInvB
      · rw [hrun2]; simp only [error_run, sat_err]; exact hInvB
      · rw [hrun2]
        simp only [pure_run]
        have hh := hslot sb r e1 hInvB hfoB hfrB h1 h4 h3
        simp only [bind_run] at hh
        exact hh
  · rw [hrun]
    simp only [pure_run]
    have hh := hslot sa r e0 hInvA hfoA hfrA h1 h4 h3
    simp only [bind_run] at hh
    exact hh

theorem dup3_cases (src dst : Nat) (c : Bool) (s : State) :
    (∃ e, dup3 src dst c s = .ok (.error e) s) ∨
    (src = dst ∧ dup3 src dst c s = .ok (.ok dst) s) ∨
    (∃ e0, getFd s.fds src = some e0 ∧ dst < s.fds.length ∧ src ≠ dst ∧
      dup3 src dst c s =
        .ok (.ok dst) { s with fds := s.fds.set dst (some { obj := e0.obj, cloexec := c }) }) := by
  unfold dup3
  cases h : getFd s.fds src with
  | none => left; exact ⟨_, rfl⟩
  | some e0 =>
    simp only
    by_cases h1 : s.fds.length ≤ dst
    · left; simp only [h1, if_true]; exact ⟨_, rfl⟩
    · simp only [h1, if_false]
      by_cases h2 : src = dst
      · right; left; simp only [h2, if_true]; exact ⟨trivial, trivial⟩
      · right; right
        simp only [h2, if_false]
        exact ⟨e0, rfl, by omega, h2, rfl⟩

theorem copyfd_eq (src dst : Nat) (c : Bool) :
    ∃ c1, copyfd src dst c = dup3 src dst c1 ∧ (c1 = true ↔ (c = true ∧ dst > 2)) := by
  unfold copyfd
  by_cases h : c = true ∧ dst > 2
  · exact ⟨true, by simp only [h, and_self, if_true], by simp [h]⟩
  · refine ⟨false, by simp only [h, if_false], by simpa using h⟩

theorem sys_open_cases (env : Env) (path : String) (fl : List OFlag) (s : State) :
    (∃ e, sys_open env path fl s = .ok (.error e) { s with clock := s.clock + 1 }) ∨
    (∃ f id, getFd s.fds f = none ∧ f < s.fds.length ∧ lowestFree s.fds 0 = some f ∧
      env.openFile s.clock path fl = .ok id ∧
      sys_open env path fl s = .ok (.ok f)
        { s with fds := s.fds.set f (some { obj := .file id, cloexec := false }),
                 clock := s.clock + 1 }) := by
  unfold sys_open
  cases h : env.openFile s.clock path fl with
  | error e => left; exact ⟨e, rfl⟩
  | ok id =>
    simp only
    cases h2 : lowestFree s.fds 0 with
    | none => left; exact ⟨_, rfl⟩
    | some f =>
      right
      obtain ⟨_, hb, hc⟩ := lowestFree_spec _ _ _ h2
      exact ⟨f, id, hc, hb, rfl, rfl, rfl⟩

/-- The end of `openredirect`: the descriptor `f` that was opened ends on
`fd` and nowhere else. -/
theorem openredirect_finish_effect (env : Env) (flags : RFlags) (fd f : Nat) (t : Tab)
    (s1 : State) (hfree : f ≠ fd → getObj t f = none)
    (hag : AgreeOff (fun y => y = fd ∨ y = f) t s1.fds) :
    (openredirect_finish env flags fd f s1).sat
      (fun _ s2 => s2.redirlist = s1.redirlist ∧ s2.sh_fd_list = s1.sh_fd_list ∧
        Agree1 fd t s2.fds)
      (fun s2 => s2.redirlist = s1.redirlist ∧ s2.sh_fd_list = s1.sh_fd_list ∧
        Agree1 fd t s2.fds) := by
  unfold openredirect_finish
  by_cases hne : f = fd
  · subst hne
    simp only [ne_eq, not_true_eq_false, if_false]
    have hbase : Agree1 f t s1.fds := hag.mono (fun y hy => hy.elim id id)
    split
    · simp only [discard_run]
      rcases fcntl_SETFD_cases f true s1 with ⟨_, hrun⟩ | ⟨e, he, hrun⟩
      · rw [hrun]; exact ⟨rfl, rfl, hbase⟩
      · rw [hrun]
        refine ⟨rfl, rfl, hbase.trans ?_⟩
        exact (eqv_set_cloexec true he).mono (fun _ hf => hf.elim)
    · exact ⟨rfl, rfl, hbase⟩
  · simp only [ne_eq, hne, not_false_eq_true, if_true, bind_run]
    have hfree := hfree hne
    obtain ⟨c1, hc1, _⟩ := copyfd_eq f fd (decide (fd > 2) && !flags.REDIR_KEEP && !env.posix)
    rw [hc1]
    have hclose : ∀ (u : Tab), AgreeOff (fun y => y = fd ∨ y = f) t u →
        Agree1 fd t (u.set f none) := by
      intro u hu
      refine ⟨by simp [hu.1], fun y hy => ?_⟩
      rw [getObj_set_none]
      by_cases hyf : f = y
      · subst hyf; simp [hfree]
      · simp only [hyf, if_false]
        exact hu.2 y (fun h => h.elim hy (fun h' => hyf h'.symm))
    rcases dup3_cases f fd c1 s1 with ⟨e, hrun⟩ | ⟨heq, _⟩ | ⟨e0, he0, hlt, _, hrun⟩
    · rw [hrun]
      simp only [bind_run, close_run, error_run, sat_err, true_and]
      exact hclose _ hag
    · exact absurd heq hne
    · rw [hrun]
      simp only [close_run, sat_ok, true_and]
      refine hclose _ ?_
      refine ⟨by simp [hag.1], fun y hy => ?_⟩
      rw [getObj_set_lt _ _ _ _ hlt]
      have : fd ≠ y := fun h => hy (Or.inl h.symm)
      simp only [this, if_false]
      exact hag.2 y hy

theorem openredirect_file_effect (env : Env) (flags : RFlags) (fd : Nat) (fname : String)
    (fl : List OFlag) (msg : String) (s : State) :
    (openredirect_file env flags fd fname fl msg s).sat
      (fun _ s2 => TouchOnly fd s s2) (fun s2 => TouchOnly fd s s2) := by
  unfold openredirect_file
  simp only [bind_run]
  rcases sys_open_cases env fname fl s with ⟨e, hrun⟩ | ⟨f, id, hfree, hlt, _, _, hrun⟩
  · rw [hrun]
    simp only [error_run, sat_err]
    exact ⟨rfl, rfl, (Eqv.refl _).mono (fun _ hf => hf.elim)⟩
  · rw [hrun]
    simp only
    have hag : AgreeOff (fun y => y = fd ∨ y = f) s.fds
        (s.fds.set f (some { obj := .file id, cloexec := false })) := by
      refine ⟨by simp, fun y hy => ?_⟩
      rw [getObj_set_lt _ _ _ _ hlt]
      have : f ≠ y := fun h => hy (Or.inr h.symm)
      simp [this]
    exact openredirect_finish_effect env flags fd f s.fds _
      (fun _ => getObj_none_iff.2 hfree) hag

theorem sys_pipe_cases (s : State) :
    (∃ e, sys_pipe s = .ok (.error e) s) ∨
    (∃ p0 p1, getFd s.fds p0 = none ∧ p0 < s.fds.length ∧ getFd s.fds p1 = none ∧
      p1 < s.fds.length ∧ p0 ≠ p1 ∧
      sys_pipe s = .ok (.ok (p0, p1))
        { s with fds := (s.fds.set p0 (some { obj := .pipeRd s.pipes.length, cloexec := false })).set
                    p1 (some { obj := .pipeWr s.pipes.length, cloexec := false }),
                 pipes := s.pipes ++ [[]] }) := by
  unfold sys_pipe
  cases h : lowestFree s.fds 0 with
  | none => left; exact ⟨_, rfl⟩
  | some p0 =>
    simp only
    obtain ⟨_, hb, hc⟩ := lowestFree_spec _ _ _ h
    cases h2 : lowestFree (s.fds.set p0 (some { obj := .pipeRd s.pipes.length, cloexec := false })) 0 with
    | none => left; exact ⟨_, rfl⟩
    | some p1 =>
      right
      obtain ⟨_, hb2, hc2⟩ := lowestFree_spec _ _ _ h2
      rw [getFd_set] at hc2
      have hne : p0 ≠ p1 := by
        intro he
        subst he
        simp [hb] at hc2
      simp only [hne, false_and, if_false] at hc2
      simp only [List.length_set] at hb2
      exact ⟨p0, p1, hc, hb, hc2, hb2, hne, rfl⟩

theorem xwrite_pipeWr {fd k : Nat} {c : Bool} (buf : List Nat) (len : Nat) {s : State}
    (h : getFd s.fds fd = some { obj := .pipeWr k, cloexec := c }) :
    xwrite fd buf len s =
      .ok () { s with pipes := s.pipes.set k (s.pipes.getD k [] ++ buf.take len) } := by
  unfold xwrite
  simp only [modifyState_run, h]

theorem forkshell_heredoc_pipeWr {fd k : Nat} {c : Bool} (text : List Nat) {s : State}
    (h : getFd s.fds fd = some { obj := .pipeWr k, cloexec := c }) :
    forkshell_heredoc fd text s =
      .ok () { s with helpers := { pipe := k, text := text } :: s.helpers } := by
  unfold forkshell_heredoc
  simp only [modifyState_run, h]

theorem set_append_last (l : List (List Nat)) (v : List Nat) :
    (l ++ [[]]).set l.length ((l ++ [[]]).getD l.length [] ++ v) = l ++ [v] := by
  simp [List.getD_eq_getElem?_getD]

/-- What `openhere` does: it fails without any change when `pipe` fails;
otherwise it returns the read end `p0` of a new pipe, the write end is closed
again, and the document was written into the pipe or is written by a new
helper process. -/
theorem openhere_cases (env : Env) (redir : Node) (s : State) :
    (lowestFree s.fds 0 = none ∨ (∃ p0, lowestFree s.fds 0 = some p0 ∧
        lowestFree (s.fds.set p0 (some { obj := .pipeRd s.pipes.length, cloexec := false })) 0
          = none)) ∧
      openhere env redir s = .err "Pipe call failed" s ∨
    (∃ p0 p1 s2, openhere env redir s = .ok p0 s2 ∧
      getFd s.fds p0 = none ∧ p0 < s.fds.length ∧ getFd s.fds p1 = none ∧ p0 ≠ p1 ∧
      s2.fds = ((s.fds.set p0 (some { obj := .pipeRd s.pipes.length, cloexec := false })).set
                    p1 (some { obj := .pipeWr s.pipes.length, cloexec := false })).set p1 none ∧
      s2.redirlist = s.redirlist ∧ s2.sh_fd_list = s.sh_fd_list ∧
      (redir.type = .NHERE ∧ toInt32 redir.doc.length ≤ (env.PIPESIZE : Int) →
        s2.helpers = s.helpers ∧
        s2.pipes = s.pipes ++ [redir.doc.take (toInt32 redir.doc.length).toNat]) ∧
      (¬ (redir.type = .NHERE ∧ toInt32 redir.doc.length ≤ (env.PIPESIZE : Int)) →
        s2.pipes = s.pipes ++ [[]] ∧
        s2.helpers = { pipe := s.pipes.length,
                       text := if redir.type = .NHERE
                               then redir.doc.take (toInt32 redir.doc.length).toNat
                               else env.expandhere redir.doc } :: s.helpers)) := by
  unfold openhere
  generalize toInt32 redir.doc.length = len
  simp only [bind_run]
  unfold sys_pipe
  cases h : lowestFree s.fds 0 with
  | none => left; exact ⟨Or.inl rfl, rfl⟩
  | some p0 =>
    simp only
    obtain ⟨_, h0l, h0⟩ := lowestFree_spec _ _ _ h
    cases h2 : lowestFree (s.fds.set p0 (some { obj := .pipeRd s.pipes.length, cloexec := false })) 0 with
    | none => left; exact ⟨Or.inr ⟨p0, rfl, h2⟩, rfl⟩
    | some p1 =>
      right
      obtain ⟨_, hb2, hc2⟩ := lowestFree_spec _ _ _ h2
      rw [getFd_set] at hc2
      have hne : p0 ≠ p1 := by
        intro he
        subst he
        simp [h0l] at hc2
      simp only [hne, false_and, if_false] at hc2
      simp only [List.length_set] at hb2
      have h1 := hc2
      have h1l := hb2
      simp only
      have hg : getFd ((s.fds.set p0 (some { obj := .pipeRd s.pipes.length, cloexec := false })).set
          p1 (some { obj := .pipeWr s.pipes.length, cloexec := false })) p1 =
          some { obj := .pipeWr s.pipes.length, cloexec := false } := by
        rw [getFd_set]; simp [h1l]
      by_cases hin : redir.type = .NHERE ∧ len ≤ (env.PIPESIZE : Int)
      · simp only [hin, and_self, if_true, bind_run]
        rw [@xwrite_pipeWr p1 s.pipes.length false _ _ _ hg]
        simp only [close_run, pure_run]
        refine ⟨p0, p1, _, rfl, h0, h0l, h1, hne, rfl, rfl, rfl, fun _ => ⟨rfl, ?_⟩,
          fun hn => absurd trivial hn⟩
        exact set_append_last _ _
      · simp only [hin, if_false, bind_run]
        rw [@forkshell_heredoc_pipeWr p1 s.pipes.length false _ _ hg]
        simp only [close_run, pure_run]
        refine ⟨p0, p1, _, rfl, h0, h0l, h1, hne, rfl, rfl, rfl, fun h => h.elim,
          fun _ => ⟨rfl, ?_⟩⟩
        rfl

theorem sat_bind {α β : Type} {m : M α} {f : α → M β} {Q : β → State → Prop}
    {E : State → Prop} {s : State} (h : (m s).sat (fun a s1 => (f a s1).sat Q E) E) :
    ((m >>= f) s).sat Q E := by
  rw [bind_run]
  cases hm : m s with
  | ok a s1 => rw [hm] at h; exact h
  | err e s1 => rw [hm] at h; exact h

theorem Res.sat.imp {α : Type} {Q Q1 : α → State → Prop} {E E1 : State → Prop} {r : Res α}
    (h : r.sat Q E) (hQ : ∀ a s, Q a s → Q1 a s) (hE : ∀ s, E s → E1 s) : r.sat Q1 E1 := by
  cases r with
  | ok a s => exact hQ a s h
  | err e s => exact hE s h

theorem TouchOnly.same (fd : Nat) (s : State) : TouchOnly fd s s :=
  ⟨rfl, rfl, (Eqv.refl _).mono (fun _ hf => hf.elim)⟩

theorem TouchOnly.of_fds_eq {fd : Nat} {s s1 s2 : State} (h : TouchOnly fd s1 s2)
    (h1 : s1.redirlist = s.redirlist) (h2 : s1.sh_fd_list = s.sh_fd_list)
    (h3 : s1.fds = s.fds) : TouchOnly fd s s2 :=
  ⟨h.1.trans h1, h.2.1.trans h2, h3 ▸ h.2.2⟩

theorem agree1_set (t : Tab) (fd : Nat) (v : Option FdEnt) : Agree1 fd t (t.set fd v) := by
  refine ⟨by simp, fun y hy => ?_⟩
  rw [getObj_set]
  have : ¬ (fd = y ∧ fd < t.length) := fun h => hy h.1.symm
  simp only [this, if_false]

/-- Whatever its outcome, `openredirect` leaves the frames and the registry as
they are and changes no descriptor but the target `redir.fd`. -/
theorem openredirect_effect (env : Env) (redir : Node) (memory : List Bool) (flags : RFlags)
    (s : State) :
    (openredirect env redir memory flags s).sat
      (fun _ s2 => TouchOnly redir.fd s s2) (fun s2 => TouchOnly redir.fd s s2) := by
  have hfile : ∀ (fl : List OFlag) (msg : String) (mem : List Bool),
      ((openredirect_file env flags redir.fd redir.expfname fl msg >>= fun _ => pure mem) s).sat
        (fun _ s2 => TouchOnly redir.fd s s2) (fun s2 => TouchOnly redir.fd s s2) := by
    intro fl msg mem
    apply sat_bind
    exact (openredirect_file_effect env flags redir.fd redir.expfname fl msg s).imp
      (fun _ _ h => h) (fun _ h => h)
  have hfin : ∀ (f : Nat) (s1 : State) (mem : List Bool), (f ≠ redir.fd → getObj s.fds f = none) →
      AgreeOff (fun y => y = redir.fd ∨ y = f) s.fds s1.fds →
      s1.redirlist = s.redirlist → s1.sh_fd_list = s.sh_fd_list →
      ((openredirect_finish env flags redir.fd f >>= fun _ => pure mem) s1).sat
        (fun _ s2 => TouchOnly redir.fd s s2) (fun s2 => TouchOnly redir.fd s s2) := by
    intro f s1 mem hfree hag h1 h2
    apply sat_bind
    exact (openredirect_finish_effect env flags redir.fd f s.fds s1 hfree hag).imp
      (fun _ _ h => ⟨h.1.trans h1, h.2.1.trans h2, h.2.2⟩)
      (fun _ h => ⟨h.1.trans h1, h.2.1.trans h2, h.2.2⟩)
  have hhere : ((openhere env redir >>= fun f =>
      openredirect_finish env flags redir.fd f >>= fun _ =>
        pure (if redir.fd < 10 then memory.set redir.fd false else memory)) s).sat
        (fun _ s2 => TouchOnly redir.fd s s2) (fun s2 => TouchOnly redir.fd s s2) := by
    apply sat_bind
    rcases openhere_cases env redir s with ⟨_, hrun⟩ |
      ⟨p0, p1, s2, hrun, h0, h0l, h1, hne, hfds, hrl, hsh, _, _⟩
    · rw [hrun]; exact TouchOnly.same _ _
    · rw [hrun]
      simp only [sat_ok]
      refine hfin p0 s2 _ (fun _ => getObj_none_iff.2 h0) ?_ hrl hsh
      refine ⟨by simp [hfds], fun y hy => ?_⟩
      rw [hfds, getObj_set_none]
      by_cases hy1 : p1 = y
      · subst hy1; simp [getObj_none_iff.2 h1]
      · simp only [hy1, if_false]
        rw [getObj_set, getObj_set_lt _ _ _ _ h0l]
        have : p0 ≠ y := fun h => hy (Or.inr h.symm)
        simp [hy1, this]
  have hdup : ∀ mem : List Bool, (if 0 ≤ redir.dupfd then do
        let fp ← sh_fd redir.dupfd.toNat
        if fp.isSome then error "Redirect failed: EBADF"
        else if redir.fd < 10 ∧ redir.dupfd < 10 ∧ mem.getD redir.dupfd.toNat false then
          pure (mem.set redir.fd true)
        else do
          let r ← copyfd redir.dupfd.toNat redir.fd (!flags.REDIR_KEEP)
          match r with
          | .error _ => error "Redirect failed"
          | .ok _ => pure mem
      else do
        close redir.fd
        pure mem : M (List Bool)) s
        |>.sat (fun _ s2 => TouchOnly redir.fd s s2) (fun s2 => TouchOnly redir.fd s s2) := by
    intro mem
    by_cases hd : 0 ≤ redir.dupfd
    · simp only [hd, if_true, bind_run, sh_fd_run]
      by_cases hs : (List.find? (fun fp => decide (fp.fd = redir.dupfd.toNat)) s.sh_fd_list).isSome
          = true
      · simp only [hs, if_true]
        exact TouchOnly.same _ _
      · simp only [hs]
        by_cases hm : redir.fd < 10 ∧ redir.dupfd < 10 ∧ mem.getD redir.dupfd.toNat false = true
        · simp only [hm, and_self, if_true]
          exact TouchOnly.same _ _
        · simp only [hm, if_false, Bool.false_eq_true]
          obtain ⟨c1, hc1, _⟩ := copyfd_eq redir.dupfd.toNat redir.fd (!flags.REDIR_KEEP)
          rw [bind_run, hc1]
          rcases dup3_cases redir.dupfd.toNat redir.fd c1 s with ⟨e, hrun⟩ | ⟨_, hrun⟩ |
            ⟨e0, _, _, _, hrun⟩
          · rw [hrun]; exact TouchOnly.same _ _
          · rw [hrun]; exact TouchOnly.same _ _
          · rw [hrun]; exact ⟨rfl, rfl, agree1_set _ _ _⟩
    · simp only [hd, if_false, bind_run, close_run, pure_run, sat_ok]
      exact ⟨rfl, rfl, agree1_set _ _ _⟩
  unfold openredirect
  cases ht : redir.type with
  | NFROM => exact hfile _ _ _
  | NFROMTO => exact hfile _ _ _
  | NCLOBBER => exact hfile _ _ _
  | NAPPEND => exact hfile _ _ _
  | NHERE => exact hhere
  | NXHERE => exact hhere
  | NTOFD => exact hdup _
  | NFROMFD => exact hdup _
  | NTO =>
    simp only
    by_cases hC : env.Cflag = true
    · simp only [hC, if_true]
      rw [bind_run]
      rcases sys_open_cases env redir.expfname [.O_WRONLY] s with ⟨e, hrun⟩ |
        ⟨f, id, hfree, hlt, _, _, hrun⟩
      · rw [hrun]
        simp only
        have := openredirect_file_effect env flags redir.fd redir.expfname
          [.O_WRONLY, .O_CREAT, .O_EXCL] "cannot create" { s with clock := s.clock + 1 }
        apply sat_bind
        exact this.imp (fun _ _ h => h.of_fds_eq rfl rfl rfl) (fun _ h => h.of_fds_eq rfl rfl rfl)
      · rw [hrun]
        simp only
        rw [bind_run]
        simp only [sys_fstat_isreg]
        have hg : getFd (s.fds.set f (some { obj := Obj.file id, cloexec := false })) f =
            some { obj := Obj.file id, cloexec := false } := by
          rw [getFd_set]; simp [hlt]
        rw [hg]
        simp only
        have hback : TouchOnly redir.fd s
            { s with fds := (s.fds.set f (some { obj := Obj.file id, cloexec := false })).set f none,
                     clock := s.clock + 1 + 1 } := by
          refine ⟨rfl, rfl, ?_⟩
          simp only
          rw [set_set_none _ _ _ hfree]
          exact (Eqv.refl _).mono (fun _ hf => hf.elim)
        cases env.fstatReg (s.clock + 1) (Obj.file id) with
        | error e =>
          simp only [bind_run, close_run, error_run, sat_err]
          exact hback
        | ok b =>
          cases b with
          | true =>
            simp only [bind_run, close_run, error_run, sat_err]
            exact hback
          | false =>
            simp only
            refine hfin f _ _ (fun _ => getObj_none_iff.2 hfree) ?_ rfl rfl
            refine ⟨by simp, fun y hy => ?_⟩
            simp only
            rw [getObj_set_lt _ _ _ _ hlt]
            have : f ≠ y := fun h => hy (Or.inr h.symm)
            simp [this]
    · simp only [hC, if_false]
      exact hfile _ _ _

theorem Inv.resaved {T0 : Tab} {R0 : List Nat} {rest : List (List Rename)} {A B : Nat → Prop}
    {s : State} (h : Inv T0 R0 rest A s) (hB : ∀ x, B x → A x ∨ x ∈ origs (topFrame s)) :
    Inv T0 R0 rest B s :=
  { h with saved := fun x hx => (hB x hx).elim (h.saved x) id }

/-- One iteration of the loop of `redirect` keeps the invariant, and the
target of a node that is not a duplication onto itself has an entry in the
frame afterwards. -/
theorem redirect_node_inv (env : Env) (flags : RFlags) (hpush : flags.REDIR_PUSH = true)
    (T0 : Tab) (R0 : List Nat) (rest : List (List Rename)) (A : Nat → Prop) (n : Node)
    (memory : List Bool) :
    Triple (Inv T0 R0 rest A) (redirect_node env flags n memory)
      (fun _ s => Inv T0 R0 rest (fun x => A x ∨ (x = n.fd ∧ ¬ selfDup n)) s)
      (Inv T0 R0 rest A) := by
  intro s h
  unfold redirect_node
  apply sat_bind
  simp only [modifyState_run, sat_ok]
  have h1 : Inv T0 R0 rest A
      (if s.max_user_fd < n.fd then { s with max_user_fd := n.fd } else s) := by
    split
    · exact h.eqv rfl rfl (Eqv.refl _)
    · exact h
  generalize (if s.max_user_fd < n.fd then { s with max_user_fd := n.fd } else s) = s1 at h1
  apply sat_bind
  rw [sh_fd_run]
  simp only [sat_ok]
  apply sat_bind
  have h2 := renumber_sh_fd_inv T0 R0 rest A n.fd s1 h1
  rw [bind_run, sh_fd_run] at h2
  simp only at h2
  refine h2.imp (fun _ s2 h3 => ?_) (fun _ h3 => h3)
  obtain ⟨hI2, hreg2⟩ := h3
  unfold redirect_node_apply
  by_cases hself : (n.type = .NTOFD ∨ n.type = .NFROMFD) ∧ n.dupfd = (n.fd : Int)
  · simp only [hself, and_self, if_true]
    apply sat_bind
    rcases fcntl_SETFD_cases n.fd false s2 with ⟨_, hrun⟩ | ⟨e, he, hrun⟩
    · rw [hrun]
      simp only [sat_ok, Bool.false_eq_true, if_false, error_run, sat_err]
      exact hI2
    · rw [hrun]
      simp only [sat_ok, if_true, pure_run]
      refine Inv.resaved (A := A) ?_ (fun x hx => ?_)
      · exact hI2.eqv rfl rfl (eqv_set_cloexec false he)
      · rcases hx with hx | ⟨_, hx⟩
        · exact Or.inl hx
        · exact absurd hself hx
  · simp only [hself, if_false]
    apply sat_bind
    simp only [getState_run, sat_ok]
    apply sat_bind
    have h4 : ((if flags.REDIR_PUSH = true ∧ (is_renamed (topFrame s2) n.fd).isNone = true then
        redirect_save n.fd else pure ()) s2).sat
        (fun _ s3 => Inv T0 R0 rest A s3 ∧ n.fd ∈ origs (topFrame s3) ∧ n.fd ∉ regs s3)
        (Inv T0 R0 rest A) := by
      by_cases hren : (is_renamed (topFrame s2) n.fd).isNone = true
      · simp only [hpush, hren, and_self, if_true]
        exact redirect_save_inv T0 R0 rest A n.fd s2 ⟨hI2, is_renamed_none hren, hreg2⟩
      · simp only [hren, Bool.false_eq_true, and_false, if_false, pure_run, sat_ok]
        exact ⟨hI2, is_renamed_some hren, hreg2⟩
    refine h4.imp (fun _ s3 h5 => ?_) (fun _ h5 => h5)
    obtain ⟨hI3, horig3, hreg3⟩ := h5
    apply sat_bind
    have h6 : ∃ s4, (if n.fd = 0 then
          modifyState fun s => { s with fd0_redirected := s.fd0_redirected + 1 }
        else pure ()) s3 = .ok () s4 ∧ Inv T0 R0 rest A s4 ∧ n.fd ∈ origs (topFrame s4) ∧
          n.fd ∉ regs s4 := by
      by_cases h0 : n.fd = 0
      · simp only [h0, if_true, modifyState_run]
        rw [h0] at horig3 hreg3
        exact ⟨_, rfl, hI3.eqv rfl rfl (Eqv.refl _), horig3, hreg3⟩
      · simp only [h0, if_false, pure_run]
        exact ⟨_, rfl, hI3, horig3, hreg3⟩
    obtain ⟨s4, hrun4, hI4, horig4, hreg4⟩ := h6
    rw [hrun4]
    simp only [sat_ok]
    refine (openredirect_effect env n memory flags s4).imp (fun _ s5 h7 => ?_) (fun s5 h7 => ?_)
    · have hI5 := hI4.target h7.1 h7.2.1 horig4 hreg4 h7.2.2
      have htop : topFrame s5 = topFrame s4 := by simp [topFrame, h7.1]
      refine hI5.resaved (fun x hx => ?_)
      rcases hx with hx | ⟨hx, _⟩
      · exact Or.inl hx
      · right; rw [hx, htop]; exact horig4
    · exact hI4.target h7.1 h7.2.1 horig4 hreg4 h7.2.2

theorem redirect_loop_inv (env : Env) (flags : RFlags) (hpush : flags.REDIR_PUSH = true)
    (T0 : Tab) (R0 : List Nat) (rest : List (List Rename)) (redir : List Node) :
    ∀ (A : Nat → Prop) memory, Triple (Inv T0 R0 rest A) (redirect_loop env flags redir memory)
      (fun _ s => Inv T0 R0 rest (fun x => A x ∨ ∃ n ∈ redir, n.fd = x ∧ ¬ selfDup n) s)
      (fun s => ∃ B, Inv T0 R0 rest B s) := by
  induction redir with
  | nil =>
    intro A memory s h
    exact h.resaved (fun x hx => hx.elim Or.inl (fun ⟨n, hn, _⟩ => by simp at hn))
  | cons n redir ih =>
    intro A memory
    unfold redirect_loop
    refine Triple.bind ((redirect_node_inv env flags hpush T0 R0 rest A n memory).weaken
      (fun _ h => h) (fun _ _ h => h) (fun s h => ⟨A, h⟩)) (fun m => ?_)
    refine (ih _ m).weaken (fun _ h => h) (fun _ s h => ?_) (fun _ h => h)
    refine h.resaved (fun x hx => Or.inl ?_)
    rcases hx with hx | ⟨n1, hn1, hx⟩
    · exact Or.inl (Or.inl hx)
    · simp only [List.mem_cons] at hn1
      rcases hn1 with hn1 | hn1
      · subst hn1; exact Or.inl (Or.inr ⟨hx.1.symm, hx.2⟩)
      · exact Or.inr ⟨n1, hn1, hx⟩

/-- The invariant holds when `redirect` has pushed its frame. -/
theorem Inv.init {s : State} (h : RegOK s) :
    Inv s.fds (regs s) s.redirlist (fun _ => False)
      { s with redirlist := [] :: s.redirlist } := by
  constructor
  · rfl
  · rfl
  · exact h.2
  · exact h.1
  · exact h.2
  · simp [topFrame, origs]
  · intro x hx; simp [topFrame, slots] at hx
  · intro x _ _ hxr
    exact ⟨fun hm => absurd hm hxr, fun _ => rfl⟩
  · intro r hr; simp [topFrame] at hr
  · intro _
    exact ⟨s.fds, rfl, fun x _ => Or.inl rfl⟩
  · intro x hx
    exact hx.elim

/-- Whatever the outcome of `redirect` with `REDIR_PUSH`, the state it leaves
satisfies the invariant; when it returned, every target of a node that is not
a duplication onto itself has an entry in the frame. -/
theorem redirect_inv (env : Env) (flags : RFlags) (hpush : flags.REDIR_PUSH = true)
    (redir : List Node) (s : State) (h : RegOK s) :
    ∃ B, Inv s.fds (regs s) s.redirlist B (redirect env redir flags s).st ∧
      ((redirect env redir flags s).isOk = true →
        ∀ n ∈ redir, ¬ selfDup n → B n.fd) := by
  have key : ((redirect env redir flags) s).sat
      (fun _ s1 => Inv s.fds (regs s) s.redirlist
        (fun x => False ∨ ∃ n ∈ redir, n.fd = x ∧ ¬ selfDup n) s1)
      (fun s1 => ∃ B, Inv s.fds (regs s) s.redirlist B s1) := by
    unfold redirect
    simp only [hpush, if_true]
    apply sat_bind
    simp only [modifyState_run, sat_ok]
    apply sat_bind
    refine (redirect_loop_inv env flags hpush s.fds (regs s) s.redirlist redir _ _ _
      (Inv.init h)).imp (fun mem s1 h1 => ?_) (fun _ h1 => h1)
    apply sat_bind
    have h2 : ∃ s2, (if mem.getD 1 false = true then
        modifyState fun s => { s with out1mem := true } else pure ()) s1 = .ok () s2 ∧
        Inv s.fds (regs s) s.redirlist
          (fun x => False ∨ ∃ n ∈ redir, n.fd = x ∧ ¬ selfDup n) s2 := by
      split
      · exact ⟨_, rfl, h1.eqv rfl rfl (Eqv.refl _)⟩
      · exact ⟨_, rfl, h1⟩
    obtain ⟨s2, hrun2, hI2⟩ := h2
    rw [hrun2]
    simp only [sat_ok]
    split
    · exact hI2.eqv rfl rfl (Eqv.refl _)
    · exact hI2
  cases hr : redirect env redir flags s with
  | ok a s1 =>
    rw [hr] at key
    exact ⟨_, key, fun _ n hn hs => Or.inr ⟨n, hn, rfl, hs⟩⟩
  | err e s1 =>
    rw [hr] at key
    obtain ⟨B, hB⟩ := key
    exact ⟨B, hB, fun hok => by simp [Res.isOk] at hok⟩

theorem movefd_undo1 (r : Rename) (h0 : ¬ r.into < 0) (s : State) :
    match undo1 r s.fds with
    | some T => movefd r.into.toNat r.orig s = .ok r.orig { s with fds := T }
    | none => ∃ e s1, movefd r.into.toNat r.orig s = .err e s1 := by
  unfold undo1 movefd
  simp only [h0, if_false]
  by_cases h1 : r.into.toNat = r.orig
  · simp only [h1, if_true, pure_run]
  · simp only [h1, if_false, bind_run, close_run]
    obtain ⟨c1, hc1, hc2⟩ := copyfd_eq r.into.toNat r.orig false
    have : c1 = false := by
      cases c1 with
      | false => rfl
      | true => simp at hc2
    subst this
    rw [hc1]
    unfold dup3
    simp only [List.length_set]
    cases hg : getFd (s.fds.set r.orig none) r.into.toNat with
    | none => simp only [error_run]; exact ⟨_, _, rfl⟩
    | some e =>
      simp only
      by_cases h2 : s.fds.length ≤ r.orig
      · simp only [h2, if_true, error_run]; exact ⟨_, _, rfl⟩
      · simp only [h2, if_false, h1, bind_run, close_run, pure_run]

/-- The function `free_rl` with `reset` acts on the table as `undoTab`, and
leaves the frames and the registry as they are. -/
theorem free_rl_undoTab (L : List Rename) : ∀ (s : State),
    match undoTab L s.fds with
    | some T => ∃ s1, free_rl L true s = .ok () s1 ∧ s1.fds = T ∧
        s1.redirlist = s.redirlist ∧ s1.sh_fd_list = s.sh_fd_list
    | none => (free_rl L true s).isOk = false := by
  induction L with
  | nil => intro s; exact ⟨s, rfl, rfl, rfl, rfl⟩
  | cons r L ih =>
    intro s
    unfold undoTab free_rl
    simp only [bind_run, if_true]
    have hA : ∃ sa, (if r.orig = 0 then
          modifyState fun s => { s with fd0_redirected := s.fd0_redirected - 1 }
        else pure ()) s = .ok () sa ∧ sa.fds = s.fds ∧ sa.redirlist = s.redirlist ∧
          sa.sh_fd_list = s.sh_fd_list := by
      split
      · exact ⟨_, rfl, rfl, rfl, rfl⟩
      · exact ⟨_, rfl, rfl, rfl, rfl⟩
    obtain ⟨sa, hrunA, hfA, hrA, hsA⟩ := hA
    rw [hrunA]
    simp only
    rw [← hfA, ← hrA, ← hsA]
    by_cases h0 : r.into < 0
    · have hu : undo1 r sa.fds = some (sa.fds.set r.orig none) := by
        unfold undo1; simp only [h0, if_true]
      rw [hu]
      simp only [h0, if_true, close_run]
      exact ih { sa with fds := sa.fds.set r.orig none }
    · simp only [h0, if_false, discard_run]
      have hm := movefd_undo1 r h0 sa
      cases hu : undo1 r sa.fds with
      | none =>
        rw [hu] at hm
        obtain ⟨e, s1, hrun⟩ := hm
        rw [hrun]
        rfl
      | some T =>
        rw [hu] at hm
        simp only at hm
        rw [hm]
        simp only
        exact ih { sa with fds := T }

/-- When the invariant holds and the saves of the top frame are in order,
`popredir` returns: the frame is gone and every descriptor that is not a
registered internal descriptor, before or now, holds what it held when
`redirect` was called. -/
theorem popredir_restore {T0 : Tab} {R0 : List Nat} {rest : List (List Rename)}
    {A : Nat → Prop} {s : State} (h : Inv T0 R0 rest A s) (hso : SaveOrder (topFrame s)) :
    ∃ s1, popredir s = .ok () s1 ∧ s1.redirlist = rest ∧ s1.sh_fd_list = s.sh_fd_list ∧
      ∀ x, x ∉ R0 → getObj s1.fds x = getObj T0 x ∨
        (getObj T0 x = none ∧ x ∈ regs s ∧ x ∉ origs (topFrame s)) := by
  obtain ⟨T, hT, hG⟩ := h.restore hso
  unfold popredir
  simp only [bind_run, getState_run]
  rw [h.frames]
  simp only [bind_run]
  have := free_rl_undoTab (topFrame s) s
  rw [hT] at this
  obtain ⟨s1, hrun, hf, hr, hs⟩ := this
  rw [hrun]
  simp only [modifyState_run]
  refine ⟨_, rfl, rfl, hs, ?_⟩
  simp only
  rw [hf]
  exact hG

theorem redirect_loop_err (env : Env) (flags : RFlags) (redir : List Node) :
    ∀ (memory : List Bool) (s s1 : State) (msg : String),
      redirect_loop env flags redir memory s = .err msg s1 →
      ∃ pre n post mem sa, redir = pre ++ n :: post ∧
        redirect_loop env flags pre memory s = .ok mem sa ∧
        redirect_node env flags n mem sa = .err msg s1 := by
  induction redir with
  | nil => intro memory s s1 msg h; simp [redirect_loop] at h
  | cons n redir ih =>
    intro memory s s1 msg h
    unfold redirect_loop at h
    rw [bind_run] at h
    cases hn : redirect_node env flags n memory s with
    | err e sa =>
      rw [hn] at h
      simp only [Res.err.injEq] at h
      exact ⟨[], n, redir, memory, s, rfl, rfl, by rw [hn, h.1, h.2]⟩
    | ok m sa =>
      rw [hn] at h
      simp only at h
      obtain ⟨pre, n1, post, mem, sb, h1, h2, h3⟩ := ih m sa s1 msg h
      refine ⟨n :: pre, n1, post, mem, sb, by simp [h1], ?_, h3⟩
      unfold redirect_loop
      rw [bind_run, hn]
      exact h2

theorem ite_modify_run (c : Prop) [Decidable c] (f : State → State) (s : State) :
    (if c then modifyState f else pure ()) s = .ok () (if c then f s else s) := by
  split <;> rfl

/-- When `redirect` calls `error`, the state is the one in which the body of
its loop called `error` for some node, after the nodes before it were
processed. -/
theorem redirect_err (env : Env) (flags : RFlags) (redir : List Node) (s s1 : State)
    (msg : String) (h : redirect env redir flags s = .err msg s1) :
    ∃ pre n post mem sa, redir = pre ++ n :: post ∧
      redirect_loop env flags pre ((List.replicate 10 false).set 1 flags.REDIR_BACKQ)
        (if flags.REDIR_PUSH = true then { s with redirlist := [] :: s.redirlist } else s)
        = .ok mem sa ∧
      redirect_node env flags n mem sa = .err msg s1 := by
  unfold redirect at h
  rw [bind_run, ite_modify_run] at h
  simp only at h
  rw [bind_run] at h
  cases hl : redirect_loop env flags redir ((List.replicate 10 false).set 1 flags.REDIR_BACKQ)
      (if flags.REDIR_PUSH = true then { s with redirlist := [] :: s.redirlist } else s) with
  | err e sa =>
    rw [hl] at h
    simp only [Res.err.injEq] at h
    rw [h.1, h.2] at hl
    exact redirect_loop_err env flags redir _ _ _ _ hl
  | ok m sa =>
    rw [hl] at h
    simp only at h
    rw [bind_run, ite_modify_run] at h
    simp only at h
    rw [ite_modify_run] at h
    simp at h

/-! ## What the system calls leave alone -/

theorem keeps_pure {α : Type} (a : α) : Keeps (pure a : M α) := fun _ => rfl

theorem keeps_error {α : Type} (msg : String) : Keeps (error msg : M α) := fun _ => rfl

theorem keeps_bind {α β : Type} {m : M α} {f : α → M β} (h1 : Keeps m)
    (h2 : ∀ a, Keeps (f a)) : Keeps (m >>= f) := by
  intro s
  rw [bind_run]
  have := h1 s
  cases hm : m s with
  | ok a s1 => rw [hm] at this; simp only; rw [h2 a s1]; exact this
  | err e s1 => rw [hm] at this; exact this

theorem keeps_ite {α : Type} (c : Prop) [Decidable c] {m1 m2 : M α} (h1 : Keeps m1)
    (h2 : Keeps m2) : Keeps (if c then m1 else m2) := by
  split
  · exact h1
  · exact h2

theorem keeps_discard {α : Type} {m : M α} (h : Keeps m) : Keeps (discard m) := by
  intro s
  rw [discard_run]
  have := h s
  cases hm : m s with
  | ok a s1 => rw [hm] at this; exact this
  | err e s1 => rw [hm] at this; exact this

theorem keeps_close (fd : Nat) : Keeps (close fd) := fun _ => rfl

theorem keeps_fcntl_DUPFD (c : Bool) (fd m : Nat) : Keeps (fcntl_DUPFD c fd m) := by
  intro s
  rcases fcntl_DUPFD_cases c fd m s with ⟨_, h⟩ | ⟨_, _, _, h⟩ | ⟨_, _, _, _, _, _, h⟩ <;>
    rw [h] <;> rfl

theorem keeps_fcntl_SETFD (fd : Nat) (v : Bool) : Keeps (fcntl_SETFD fd v) := by
  intro s
  rcases fcntl_SETFD_cases fd v s with ⟨_, h⟩ | ⟨_, _, h⟩ <;> rw [h] <;> rfl

theorem keeps_copyfd (src dst : Nat) (c : Bool) : Keeps (copyfd src dst c) := by
  intro s
  obtain ⟨c1, h1, _⟩ := copyfd_eq src dst c
  rw [h1]
  rcases dup3_cases src dst c1 s with ⟨_, h⟩ | ⟨_, h⟩ | ⟨_, _, _, _, h⟩ <;> rw [h] <;> rfl

theorem keeps_sys_open (env : Env) (path : String) (fl : List OFlag) :
    Keeps (sys_open env path fl) := by
  intro s
  rcases sys_open_cases env path fl s with ⟨_, h⟩ | ⟨_, _, _, _, _, _, h⟩ <;> rw [h] <;> rfl

theorem keeps_sys_fstat_isreg (env : Env) (fd : Nat) : Keeps (sys_fstat_isreg env fd) := by
  intro s
  unfold sys_fstat_isreg
  split <;> rfl

theorem keeps_find_big_fd : Keeps find_big_fd := by
  intro s
  obtain ⟨_, _, _, h⟩ := find_big_fd_run s
  rw [h]; rfl

theorem keeps_sh_fd (fd : Nat) : Keeps (sh_fd fd) := fun _ => rfl

theorem keeps_openhere (env : Env) (redir : Node) : Keeps (openhere env redir) := by
  intro s
  unfold openhere
  simp only [bind_run]
  rcases sys_pipe_cases s with ⟨e, hrun⟩ | ⟨p0, p1, _, _, _, h1l, _, hrun⟩
  · rw [hrun]; rfl
  · rw [hrun]
    simp only
    have hg : getFd ((s.fds.set p0 (some { obj := .pipeRd s.pipes.length, cloexec := false })).set
        p1 (some { obj := .pipeWr s.pipes.length, cloexec := false })) p1 =
        some { obj := .pipeWr s.pipes.length, cloexec := false } := by
      rw [getFd_set]; simp [h1l]
    split
    · simp only [bind_run]
      rw [@xwrite_pipeWr p1 s.pipes.length false _ _ _ hg]
      rfl
    · simp only [bind_run]
      rw [@forkshell_heredoc_pipeWr p1 s.pipes.length false _ _ hg]
      rfl

theorem keeps_openredirect_finish (env : Env) (flags : RFlags) (fd f : Nat) :
    Keeps (openredirect_finish env flags fd f) := by
  unfold openredirect_finish
  refine keeps_ite _ (keeps_bind (keeps_copyfd _ _ _) (fun r => ?_))
    (keeps_ite _ (keeps_discard (keeps_fcntl_SETFD _ _)) (keeps_pure _))
  cases r with
  | error e => exact keeps_bind (keeps_close _) (fun _ => keeps_error _)
  | ok v => exact keeps_close _

theorem keeps_openredirect_file (env : Env) (flags : RFlags) (fd : Nat) (fname : String)
    (fl : List OFlag) (msg : String) : Keeps (openredirect_file env flags fd fname fl msg) := by
  unfold openredirect_file
  refine keeps_bind (keeps_sys_open _ _ _) (fun r => ?_)
  cases r with
  | error e => exact keeps_error _
  | ok v => exact keeps_openredirect_finish _ _ _ _

theorem keeps_openredirect (env : Env) (redir : Node) (memory : List Bool) (flags : RFlags) :
    Keeps (openredirect env redir memory flags) := by
  have hfile : ∀ (fl : List OFlag) (msg : String) (mem : List Bool),
      Keeps (openredirect_file env flags redir.fd redir.expfname fl msg >>= fun _ => pure mem) :=
    fun fl msg mem => keeps_bind (keeps_openredirect_file _ _ _ _ _ _) (fun _ => keeps_pure _)
  have hhere : ∀ mem : List Bool, Keeps (openhere env redir >>= fun f =>
      openredirect_finish env flags redir.fd f >>= fun _ => pure mem) :=
    fun mem => keeps_bind (keeps_openhere _ _)
      (fun _ => keeps_bind (keeps_openredirect_finish _ _ _ _) (fun _ => keeps_pure _))
  have hdup : ∀ mem : List Bool, Keeps (if 0 ≤ redir.dupfd then do
        let fp ← sh_fd redir.dupfd.toNat
        if fp.isSome then error "Redirect failed: EBADF"
        else if redir.fd < 10 ∧ redir.dupfd < 10 ∧ mem.getD redir.dupfd.toNat false then
          pure (mem.set redir.fd true)
        else do
          let r ← copyfd redir.dupfd.toNat redir.fd (!flags.REDIR_KEEP)
          match r with
          | .error _ => error "Redirect failed"
          | .ok _ => pure mem
      else do
        close redir.fd
        pure mem : M (List Bool)) := by
    intro mem
    refine keeps_ite _ (keeps_bind (keeps_sh_fd _) (fun fp => keeps_ite _ (keeps_error _)
      (keeps_ite _ (keeps_pure _) (keeps_bind (keeps_copyfd _ _ _) (fun r => ?_)))))
      (keeps_bind (keeps_close _) (fun _ => keeps_pure _))
    cases r with
    | error e => exact keeps_error _
    | ok v => exact keeps_pure _
  unfold openredirect
  cases ht : redir.type with
  | NFROM => exact hfile _ _ _
  | NFROMTO => exact hfile _ _ _
  | NCLOBBER => exact hfile _ _ _
  | NAPPEND => exact hfile _ _ _
  | NHERE => exact hhere _
  | NXHERE => exact hhere _
  | NTOFD => exact hdup _
  | NFROMFD => exact hdup _
  | NTO =>
    simp only
    refine keeps_ite _ (keeps_bind (keeps_sys_open _ _ _) (fun r => ?_)) (hfile _ _ _)
    cases r with
    | error e => exact hfile _ _ _
    | ok f =>
      refine keeps_bind (keeps_sys_fstat_isreg _ _) (fun sb => ?_)
      cases sb with
      | error e => exact keeps_bind (keeps_close _) (fun _ => keeps_error _)
      | ok b =>
        cases b with
        | true => exact keeps_bind (keeps_close _) (fun _ => keeps_error _)
        | false => exact keeps_bind (keeps_openredirect_finish _ _ _ _) (fun _ => keeps_pure _)
theorem getFd_closeAll (xs : List Nat) : ∀ (t : Tab) (x : Nat),
    getFd (closeAll xs t) x = if x ∈ xs then none else getFd t x := by
  induction xs with
  | nil => intro t x; simp [closeAll]
  | cons y ys ih =>
    intro t x
    simp only [closeAll, ih, List.mem_cons, getFd_set_none]
    by_cases h1 : x ∈ ys
    · simp [h1]
    · by_cases h2 : x = y
      · subst h2
        simp [h1]
      · simp [h1, h2, Ne.symm h2]

theorem length_closeAll (xs : List Nat) : ∀ (t : Tab), (closeAll xs t).length = t.length := by
  induction xs with
  | nil => intro t; rfl
  | cons y ys ih => intro t; simp [closeAll, ih]

theorem closeAll_append (xs ys : List Nat) : ∀ (t : Tab),
    closeAll (xs ++ ys) t = closeAll ys (closeAll xs t) := by
  induction xs with
  | nil => intro t; rfl
  | cons y ys ih => intro t; simp [closeAll, ih]

theorem clearredir_close_run (L : List Rename) : ∀ (s : State),
    clearredir_close L s = .ok () { s with fds := closeAll (slots L) s.fds } := by
  induction L with
  | nil => intro s; rfl
  | cons r rn ih =>
    intro s
    unfold clearredir_close
    by_cases h : 0 ≤ r.into
    · simp only [h, if_true, bind_run, close_run, ih]
      simp [slots, h, closeAll]
    · simp only [h, if_false, bind_run, pure_run, ih]
      simp [slots, h]

theorem free_rl_discard (L : List Rename) : ∀ (s : State),
    free_rl L false s = .ok ()
      { s with fd0_redirected := s.fd0_redirected - ((L.filter fun r => r.orig = 0).length : Nat) } := by
  induction L with
  | nil => intro s; simp [free_rl, pure_run]
  | cons r rn ih =>
    intro s
    unfold free_rl
    by_cases h : r.orig = 0
    · simp only [h, if_true, bind_run, modifyState_run, pure_run, ih, Bool.false_eq_true, if_false]
      simp [h]
      omega
    · simp only [h, if_false, bind_run, pure_run, ih, Bool.false_eq_true]
      simp [h]

theorem clearredir_loop_vforked (F : List (List Rename)) : ∀ (s : State),
    clearredir_loop true F s = .ok F { s with fds := closeAll (allSlots F) s.fds } := by
  induction F with
  | nil => intro s; rfl
  | cons fr rest ih =>
    intro s
    unfold clearredir_loop
    simp only [Bool.not_true, Bool.false_eq_true, if_false, bind_run, clearredir_close_run, ih,
      pure_run, allSlots, closeAll_append]

theorem clearredir_loop_forked (F : List (List Rename)) : ∀ (s : State),
    clearredir_loop false F s = .ok (F.map fun _ => [])
      { s with fd0_redirected := s.fd0_redirected - (count0 F : Nat) } := by
  induction F with
  | nil => intro s; simp [clearredir_loop, pure_run, count0]
  | cons fr rest ih =>
    intro s
    unfold clearredir_loop
    simp only [Bool.not_false, if_true, bind_run, free_rl_discard, ih, pure_run, count0,
      List.map_cons]
    simp
    omega


theorem clearredir_run (vforked : Bool) (s : State) :
    clearredir vforked s = .ok ()
      (if vforked then { s with fds := closeAll (allSlots s.redirlist) s.fds }
       else { s with redirlist := s.redirlist.map (fun _ => []),
                     fd0_redirected := s.fd0_redirected - (count0 s.redirlist : Nat) }) := by
  unfold clearredir
  cases vforked
  · simp only [bind_run, getState_run, clearredir_loop_forked, modifyState_run]
    rfl
  · simp only [bind_run, getState_run, clearredir_loop_vforked, modifyState_run]
    rfl

theorem testBit_clr (x y i : Nat) : (clr x y).testBit i = (x.testBit i && !y.testBit i) := by
  unfold clr
  rw [Nat.testBit_xor, Nat.testBit_and]
  cases x.testBit i <;> cases y.testBit i <;> rfl

theorem strtok_eq_go (s : List Char) : ∀ (cur : List Char),
    strtok s cur = (List.splitOnP.go (fun c => c == ',') s cur).filter (fun t => t ≠ []) := by
  induction s with
  | nil =>
    intro cur
    by_cases h : cur = []
    · simp [strtok, List.splitOnP.go, h]
    · simp [strtok, List.splitOnP.go, h]
  | cons c cs ih =>
    intro cur
    unfold strtok
    by_cases hc : c = ','
    · by_cases h : cur = []
      · simp [List.splitOnP.go, hc, h, ih]
      · simp [List.splitOnP.go, hc, h, ih]
    · simp [List.splitOnP.go, hc, ih]

theorem strtok_eq_splitOn (s : List Char) :
    strtok s [] = (s.splitOn ',').filter (fun t => t ≠ []) := by
  rw [strtok_eq_go]; rfl

theorem nvNames_unique : ∀ p ∈ nvNames, ∀ name ∈ p.1.inits, p.2 ≤ name.length →
    ∀ q ∈ nvNames, q.2 ≤ name.length → name ∈ q.1.inits → q.1 = p.1 := by
  decide
theorem mem_nvLine (fn : flgnames) (name : List Char) (m : Nat) (o : Option Nat) :
    fn ∈ nvLine name m o ↔ fn.name = name ∧ fn.minch = m ∧ o = some fn.value := by
  cases o with
  | none => simp [nvLine]
  | some v =>
    simp only [nvLine, List.mem_singleton, Option.some.injEq]
    constructor
    · intro h; subst h; exact ⟨rfl, rfl, rfl⟩
    · rintro ⟨h1, h2, h3⟩
      cases fn; simp_all

theorem nv_eq (k : Fcntl) : nv k =
    nvLine ['a', 'p', 'p', 'e', 'n', 'd'] 2 k.O_APPEND ++
    nvLine ['a', 's', 'y', 'n', 'c'] 2 k.O_ASYNC ++
    nvLine ['s', 'y', 'n', 'c'] 2 k.O_SYNC ++
    nvLine ['n', 'o', 'n', 'b', 'l', 'o', 'c', 'k'] 3 k.O_NONBLOCK ++
    nvLine ['f', 's', 'y', 'n', 'c'] 2 k.O_FSYNC ++
    nvLine ['d', 's', 'y', 'n', 'c'] 2 k.O_DSYNC ++
    nvLine ['r', 's', 'y', 'n', 'c'] 2 k.O_RSYNC ++
    nvLine ['a', 'l', 't', 'i', 'o'] 2 k.O_ALT_IO ++
    nvLine ['d', 'i', 'r', 'e', 'c', 't'] 2 k.O_DIRECT ++
    nvLine ['n', 'o', 's', 'i', 'g', 'p', 'i', 'p', 'e'] 3 k.O_NOSIGPIPE ++
    nvLine ['c', 'l', 'o', 'e', 'x', 'e', 'c'] 2 (some k.O_CLOEXEC) := rfl

theorem nv_names (k : Fcntl) (fn : flgnames) (h : fn ∈ nv k) : (fn.name, fn.minch) ∈ nvNames := by
  simp only [nv_eq, List.mem_append, mem_nvLine] at h
  rcases h with ((((((((((h | h) | h) | h) | h) | h) | h) | h) | h) | h) | h)
  all_goals (obtain ⟨h1, h2, _⟩ := h; rw [h1, h2]; decide)

theorem nv_value (k : Fcntl) (fn fn' : flgnames) (h : fn ∈ nv k) (h' : fn' ∈ nv k)
    (hn : fn.name = fn'.name) : fn = fn' := by
  have hm : fn.minch = fn'.minch := by
    have a := nv_names k fn h
    have b := nv_names k fn' h'
    rw [hn] at a
    revert a b
    generalize fn.minch = m
    generalize fn'.minch = m'
    generalize fn'.name = nm
    intro a b
    have key : ∀ p ∈ nvNames, ∀ q ∈ nvNames, p.1 = q.1 → p.2 = q.2 := by decide
    exact key _ a _ b rfl
  have hv : fn.value = fn'.value := by
    simp only [nv_eq, List.mem_append, mem_nvLine] at h h'
    rcases h with ((((((((((h | h) | h) | h) | h) | h) | h) | h) | h) | h) | h) <;>
    rcases h' with ((((((((((h' | h') | h') | h') | h') | h') | h') | h') | h') | h') | h') <;>
    obtain ⟨h1, _, h3⟩ := h <;> obtain ⟨h1', _, h3'⟩ := h' <;>
    first
      | (rw [h3] at h3'; exact Option.some.inj h3')
      | (rw [h1, h1'] at hn; exact absurd hn (by decide))
  cases fn; cases fn'; simp_all

theorem selects_unique (k : Fcntl) (name : List Char) (fn fn' : flgnames) (h : fn ∈ nv k)
    (h' : fn' ∈ nv k) (hs : selects name fn) (hs' : selects name fn') : fn = fn' := by
  apply nv_value k fn fn' h h'
  have := nvNames_unique _ (nv_names k fn' h') name ((List.mem_inits _ _).2 hs'.2) hs'.1
    _ (nv_names k fn h) hs.1 ((List.mem_inits _ _).2 hs.2)
  exact this

theorem parseflags_find_some (name : List Char) (L : List flgnames) (fn : flgnames)
    (h : parseflags_find name L = some fn) : fn ∈ L ∧ selects name fn := by
  induction L with
  | nil => simp [parseflags_find] at h
  | cons a rest ih =>
    unfold parseflags_find at h
    by_cases hc : a.minch ≤ name.length ∧ name.isPrefixOf a.name = true
    · rw [if_pos hc] at h
      cases h
      exact ⟨List.mem_cons_self _ _, hc.1, List.isPrefixOf_iff_prefix.1 hc.2⟩
    · rw [if_neg hc] at h
      exact ⟨List.mem_cons_of_mem _ (ih h).1, (ih h).2⟩

theorem parseflags_find_none (name : List Char) (L : List flgnames)
    (h : parseflags_find name L = none) : ∀ fn ∈ L, ¬ selects name fn := by
  induction L with
  | nil => simp
  | cons a rest ih =>
    unfold parseflags_find at h
    by_cases hc : a.minch ≤ name.length ∧ name.isPrefixOf a.name = true
    · rw [if_pos hc] at h; cases h
    · rw [if_neg hc] at h
      intro fn hfn
      rcases List.mem_cons.1 hfn with rfl | hfn
      · intro hs; exact hc ⟨hs.1, List.isPrefixOf_iff_prefix.2 hs.2⟩
      · exact ih h fn hfn

theorem parseflags_find_iff (k : Fcntl) (name : List Char) (fn : flgnames) :
    parseflags_find name (nv k) = some fn ↔ fn ∈ nv k ∧ selects name fn := by
  constructor
  · exact parseflags_find_some name _ fn
  · rintro ⟨hm, hs⟩
    cases hf : parseflags_find name (nv k) with
    | none => exact absurd hs (parseflags_find_none name _ hf fn hm)
    | some fn0 =>
      have := parseflags_find_some name _ fn0 hf
      rw [selects_unique k name fn0 fn this.1 hm this.2 hs]
theorem parseflags_loop_plus (k : Fcntl) (name : List Char) (rest : List (List Char))
    (p n : Nat) : parseflags_loop k (('+' :: name) :: rest) p n =
      match parseflags_find name (nv k) with
      | some fn => parseflags_loop k rest (p ||| fn.value) (clr n fn.value)
      | none => error "Bad flag" := by
  rw [parseflags_loop]

theorem parseflags_loop_minus (k : Fcntl) (name : List Char) (rest : List (List Char))
    (p n : Nat) : parseflags_loop k (('-' :: name) :: rest) p n =
      match parseflags_find name (nv k) with
      | some fn => parseflags_loop k rest (clr p fn.value) (n ||| fn.value)
      | none => error "Bad flag" := by
  rw [parseflags_loop]

theorem parseflags_loop_other (k : Fcntl) (tok : List Char) (rest : List (List Char))
    (p n : Nat) (h1 : tok.head? ≠ some '+') (h2 : tok.head? ≠ some '-') :
    parseflags_loop k (tok :: rest) p n = error "Missing +/- indicator before flag" := by
  rw [parseflags_loop]
  all_goals (intro s hs; subst hs; first | exact h1 rfl | exact h2 rfl)

theorem mentions_iff (k : Fcntl) (i : Nat) (tok : List Char) (fn : flgnames) (hm : fn ∈ nv k)
    (hs : selects tok.tail fn) : mentions k i tok ↔ fn.value.testBit i = true := by
  constructor
  · rintro ⟨fn', hm', hs', hb⟩
    rw [selects_unique k _ fn fn' hm hm' hs hs']; exact hb
  · intro hb; exact ⟨fn, hm, hs, hb⟩

theorem parseflags_loop_good (k : Fcntl) (st : State) : ∀ (toks : List (List Char)) (p n : Nat),
    (∀ tok ∈ toks, goodToken k tok) →
    ∃ pos neg, parseflags_loop k toks p n st = .ok (pos, neg) st ∧
      ∀ i, pos.testBit i = (lastMention k i toks).elim (p.testBit i) (fun b => b) ∧
        neg.testBit i = (lastMention k i toks).elim (n.testBit i) (fun b => !b) := by
  intro toks
  induction toks with
  | nil => intro p n _; exact ⟨p, n, rfl, fun i => ⟨rfl, rfl⟩⟩
  | cons tok rest ih =>
    intro p n hg
    have hrest : ∀ tok ∈ rest, goodToken k tok := fun t ht => hg t (List.mem_cons_of_mem _ ht)
    obtain ⟨hsign, fn, hm, hs⟩ := hg tok (List.mem_cons_self _ _)
    cases tok with
    | nil => simp at hsign
    | cons c name =>
      simp only [List.tail_cons] at hs
      have hf := (parseflags_find_iff k name fn).2 ⟨hm, hs⟩
      have hmen : ∀ i, mentions k i (c :: name) ↔ fn.value.testBit i = true :=
        fun i => mentions_iff k i (c :: name) fn hm hs
      simp only [List.head?_cons, Option.some.injEq] at hsign
      rcases hsign with rfl | rfl
      · rw [parseflags_loop_plus, hf]
        obtain ⟨pos, neg, hrun, hbits⟩ := ih (p ||| fn.value) (clr n fn.value) hrest
        refine ⟨pos, neg, hrun, fun i => ?_⟩
        rw [(hbits i).1, (hbits i).2]
        simp only [lastMention]
        cases hl : lastMention k i rest with
        | some b => simp
        | none =>
          by_cases hb : fn.value.testBit i = true
          · simp [(hmen i).2 hb, hb, testBit_clr]
          · have : ¬ mentions k i ('+' :: name) := fun h => hb ((hmen i).1 h)
            simp [this, testBit_clr, hb]
      · rw [parseflags_loop_minus, hf]
        obtain ⟨pos, neg, hrun, hbits⟩ := ih (clr p fn.value) (n ||| fn.value) hrest
        refine ⟨pos, neg, hrun, fun i => ?_⟩
        rw [(hbits i).1, (hbits i).2]
        simp only [lastMention]
        cases hl : lastMention k i rest with
        | some b => simp
        | none =>
          by_cases hb : fn.value.testBit i = true
          · simp [(hmen i).2 hb, hb, testBit_clr]
          · have : ¬ mentions k i ('-' :: name) := fun h => hb ((hmen i).1 h)
            simp [this, testBit_clr, hb]

theorem parseflags_loop_bad (k : Fcntl) (st : State) : ∀ (toks : List (List Char)) (p n : Nat),
    (∃ tok ∈ toks, ¬ goodToken k tok) → ∃ msg, parseflags_loop k toks p n st = .err msg st := by
  intro toks
  induction toks with
  | nil => intro p n h; simp at h
  | cons tok rest ih =>
    intro p n hbad
    by_cases h1 : tok.head? = some '+'
    · cases tok with
      | nil => simp at h1
      | cons c name =>
        simp only [List.head?_cons, Option.some.injEq] at h1
        subst h1
        rw [parseflags_loop_plus]
        cases hf : parseflags_find name (nv k) with
        | none => exact ⟨_, rfl⟩
        | some fn =>
          have hgood : goodToken k ('+' :: name) :=
            ⟨Or.inl rfl, fn, (parseflags_find_iff k name fn).1 hf⟩
          obtain ⟨t, ht, hb⟩ := hbad
          rcases List.mem_cons.1 ht with rfl | ht
          · exact absurd hgood hb
          · exact ih _ _ ⟨t, ht, hb⟩
    · by_cases h2 : tok.head? = some '-'
      · cases tok with
        | nil => simp at h2
        | cons c name =>
          simp only [List.head?_cons, Option.some.injEq] at h2
          subst h2
          rw [parseflags_loop_minus]
          cases hf : parseflags_find name (nv k) with
          | none => exact ⟨_, rfl⟩
          | some fn =>
            have hgood : goodToken k ('-' :: name) :=
              ⟨Or.inr rfl, fn, (parseflags_find_iff k name fn).1 hf⟩
            obtain ⟨t, ht, hb⟩ := hbad
            rcases List.mem_cons.1 ht with rfl | ht
            · exact absurd hgood hb
            · exact ih _ _ ⟨t, ht, hb⟩
      · rw [parseflags_loop_other k tok rest p n h1 h2]
        exact ⟨_, rfl⟩
theorem sameButText_refl (s : State) : SameButText s s := rfl

theorem probe_run (i : Nat) (s : State) :
    (probeOK s.fds i = false ∧ ∃ e, fcntl_DUPFD false 0 (i - 1) s = .ok (.error e) s) ∨
    (probeOK s.fds i = true ∧ ∃ r v, getFd s.fds r = none ∧
      fcntl_DUPFD false 0 (i - 1) s = .ok (.ok r) { s with fds := s.fds.set r v }) := by
  unfold fcntl_DUPFD probeOK
  cases h : getFd s.fds 0 with
  | none => left; exact ⟨by simp, _, rfl⟩
  | some e0 =>
    by_cases h2 : s.fds.length ≤ i - 1
    · left
      simp only [h2, if_true]
      exact ⟨by simp [not_lt.2 h2], _, rfl⟩
    · simp only [h2, if_false]
      cases h3 : lowestFree s.fds (i - 1) with
      | none => left; exact ⟨by simp, _, rfl⟩
      | some r =>
        right
        exact ⟨by simp [not_le.1 h2], r, _, (lowestFree_spec _ _ _ h3).2.2, rfl⟩

theorem find_big_fd_loop_eq (fuel : Nat) : ∀ (i : Nat) (s : State),
    find_big_fd_loop fuel i s = .ok (firstOK s.fds fuel i) s := by
  induction fuel with
  | zero => intro i s; rfl
  | succ n ih =>
    intro i s
    unfold find_big_fd_loop firstOK
    by_cases h : 10 ≤ i
    · simp only [h, if_true, bind_run]
      rcases probe_run i s with ⟨hp, e, hrun⟩ | ⟨hp, r, v, hr, hrun⟩
      · rw [hrun, hp]
        simp only [Bool.false_eq_true, if_false]
        exact ih _ _
      · rw [hrun, hp]
        simp only [if_true, bind_run, close_run, pure_run]
        rw [set_set_none _ _ _ hr]
    · simp only [h, if_false]
      rfl

theorem find_big_fd_eq (s : State) :
    find_big_fd s = .ok () { s with last_start := nextStart s.last_start,
                                    big_sh_fd := floorOf s.fds (nextStart s.last_start) } := by
  unfold find_big_fd nextStart floorOf
  simp only [bind_run, modifyState_run, getState_run]
  by_cases h : s.last_start < 10
  · simp only [h, if_true, find_big_fd_loop_eq]
  · simp only [h, if_false, find_big_fd_loop_eq]

theorem firstOK_le (t : Tab) (fuel : Nat) : ∀ (i : Nat), firstOK t fuel i ≤ i := by
  induction fuel with
  | zero => intro i; exact Nat.le_refl _
  | succ n ih =>
    intro i
    unfold firstOK
    by_cases h : 10 ≤ i
    · simp only [h, if_true]
      by_cases hp : probeOK t i = true
      · simp [hp]
      · simp only [hp, Bool.false_eq_true, if_false]
        have := ih (i >>> 1)
        rw [Nat.shiftRight_eq_div_pow] at this ⊢
        omega
    · simp [h]

theorem firstOK_fuel (t : Tab) (fuel : Nat) : ∀ (fuel1 i : Nat), i ≤ fuel → i ≤ fuel1 →
    firstOK t fuel i = firstOK t fuel1 i := by
  induction fuel with
  | zero =>
    intro fuel1 i h _
    have hi : i = 0 := by omega
    subst hi
    cases fuel1 with
    | zero => rfl
    | succ m => simp [firstOK]
  | succ n ih =>
    intro fuel1 i h h1
    cases fuel1 with
    | zero =>
      have hi : i = 0 := by omega
      subst hi
      simp [firstOK]
    | succ m =>
      unfold firstOK
      by_cases h10 : 10 ≤ i
      · simp only [h10, if_true]
        by_cases hp : probeOK t i = true
        · simp [hp]
        · simp only [hp, Bool.false_eq_true, if_false]
          apply ih
          · rw [Nat.shiftRight_eq_div_pow]; omega
          · rw [Nat.shiftRight_eq_div_pow]; omega
      · simp [h10]

theorem firstOK_step (t : Tab) (a : Nat) :
    firstOK t (1 <<< a) (1 <<< a) ≤ firstOK t (1 <<< (a + 1)) (1 <<< (a + 1)) := by
  have h2 : (1 : Nat) <<< (a + 1) = 2 * 2 ^ a := by
    rw [Nat.one_shiftLeft, Nat.pow_succ]; omega
  have h1 : (1 : Nat) <<< a = 2 ^ a := Nat.one_shiftLeft a
  have hpos : 0 < 2 ^ a := Nat.pow_pos (by decide)
  rw [h1, h2]
  obtain ⟨n, hn⟩ : ∃ n, 2 * 2 ^ a = n + 1 := ⟨2 * 2 ^ a - 1, by omega⟩
  have hle := firstOK_le t (2 ^ a) (2 ^ a)
  conv_rhs => rw [hn, firstOK]
  by_cases h10 : 10 ≤ n + 1
  · simp only [h10, if_true]
    by_cases hp : probeOK t (n + 1) = true
    · simp only [hp, if_true]; omega
    · simp only [hp, Bool.false_eq_true, if_false]
      have : (n + 1) >>> 1 = 2 ^ a := by rw [Nat.shiftRight_eq_div_pow]; omega
      rw [this, firstOK_fuel t n (2 ^ a) (2 ^ a) (by omega) (Nat.le_refl _)]
  · simp only [h10, if_false]; omega

theorem firstOK_mono (t : Tab) (a b : Nat) (h : a ≤ b) :
    firstOK t (1 <<< a) (1 <<< a) ≤ firstOK t (1 <<< b) (1 <<< b) := by
  induction b with
  | zero =>
    have : a = 0 := by omega
    subst this; exact Nat.le_refl _
  | succ m ih =>
    by_cases hm : a ≤ m
    · exact Nat.le_trans (ih hm) (firstOK_step t m)
    · have : a = m + 1 := by omega
      subst this; exact Nat.le_refl _

theorem floorOf_mono (t : Tab) (a b : Nat) (h : a ≤ b) : floorOf t a ≤ floorOf t b := by
  have := firstOK_mono t a b h
  unfold floorOf
  have h5 : firstOK t (1 <<< a) (1 <<< a) / 5 * 4 ≤ firstOK t (1 <<< b) (1 <<< b) / 5 * 4 :=
    Nat.mul_le_mul_right 4 (Nat.div_le_div_right this)
  split <;> split <;> omega

theorem floorOf_ge (t : Tab) (a : Nat) : 10 ≤ floorOf t a := by
  unfold floorOf
  split <;> omega

theorem nextStart_mono (a b : Nat) (h : a ≤ b) : nextStart a ≤ nextStart b := by
  unfold nextStart
  split <;> split <;> omega

theorem nextStart_ge (a : Nat) : a ≤ nextStart a := by
  unfold nextStart
  split <;> omega
theorem firstOK_probe_mono (t t1 : Tab)
    (hprobe : ∀ i, probeOK t i = true → probeOK t1 i = true) (fuel : Nat) :
    ∀ (i : Nat), firstOK t fuel i ≤ firstOK t1 fuel i := by
  induction fuel with
  | zero => intro i; exact Nat.le_refl _
  | succ n ih =>
    intro i
    unfold firstOK
    by_cases h10 : 10 ≤ i
    · simp only [h10, if_true]
      cases hp : probeOK t i with
      | true => simp only [hprobe i hp, if_true]; exact Nat.le_refl _
      | false =>
        simp only [Bool.false_eq_true, if_false]
        cases hp1 : probeOK t1 i with
        | true =>
          simp only [if_true]
          have := firstOK_le t n (i >>> 1)
          have h2 : i >>> 1 ≤ i := by rw [Nat.shiftRight_eq_div_pow]; omega
          omega
        | false =>
          simp only [Bool.false_eq_true, if_false]
          exact ih _
    · simp only [h10, if_false]; exact Nat.le_refl _

theorem floorOf_probe_mono (t t1 : Tab)
    (hprobe : ∀ i, probeOK t i = true → probeOK t1 i = true) (a : Nat) :
    floorOf t a ≤ floorOf t1 a := by
  have := firstOK_probe_mono t t1 hprobe (1 <<< a) (1 <<< a)
  unfold floorOf
  have h5 : firstOK t (1 <<< a) (1 <<< a) / 5 * 4 ≤ firstOK t1 (1 <<< a) (1 <<< a) / 5 * 4 :=
    Nat.mul_le_mul_right 4 (Nat.div_le_div_right this)
  split <;> split <;> omega

theorem toInt32_small (n : Nat) (h : n < 2 ^ 31) : toInt32 n = (n : Int) := by
  unfold toInt32
  omega

theorem openredirect_finish_cloexec (env : Env) (flags : RFlags) (fd f : Nat) (s1 : State)
    (e0 : FdEnt) (hf : getFd s1.fds f = some e0) (hc : e0.cloexec = false) :
    (openredirect_finish env flags fd f s1).sat
      (fun _ s2 => CloexecSet env flags fd s2) (fun _ => True) := by
  unfold openredirect_finish
  by_cases hne : f ≠ fd
  · simp only [hne, if_true, bind_run, ne_eq, not_false_eq_true]
    obtain ⟨c1, hcopy, hc1⟩ := copyfd_eq f fd (decide (fd > 2) && !flags.REDIR_KEEP && !env.posix)
    rw [hcopy]
    rcases dup3_cases f fd c1 s1 with ⟨e, hrun⟩ | ⟨heq, _⟩ | ⟨e1, he1, hlt, _, hrun⟩
    · rw [hrun]
      simp only [bind_run, close_run, error_run, sat_err]
    · exact absurd heq hne
    · rw [hrun]
      simp only [close_run, sat_ok]
      rw [hf] at he1
      cases he1
      refine ⟨{ obj := e0.obj, cloexec := c1 }, ?_, ?_⟩
      · rw [getFd_set_none, if_neg hne, getFd_set]
        simp [hlt]
      · show c1 = _
        cases hk : (decide (fd > 2) && !flags.REDIR_KEEP && !env.posix) with
        | true =>
          rw [hk] at hc1
          have h2 : fd > 2 := by
            simp only [Bool.and_eq_true, decide_eq_true_eq] at hk
            exact hk.1.1
          exact hc1.2 ⟨rfl, h2⟩
        | false =>
          rw [hk] at hc1
          cases c1 with
          | false => rfl
          | true => exact absurd (hc1.1 rfl).1 (by simp)
  · have heq : f = fd := not_not.1 hne
    subst heq
    simp only [ne_eq, not_true_eq_false, if_false]
    cases hk : (decide (f > 2) && !flags.REDIR_KEEP && !env.posix) with
    | true =>
      simp only [if_true]
      rcases fcntl_SETFD_cases f true s1 with ⟨h0, _⟩ | ⟨e1, he1, hrun⟩
      · rw [hf] at h0; cases h0
      · rw [discard_run, hrun]
        simp only [sat_ok]
        have hlt : f < s1.fds.length := by
          by_contra h
          rw [getFd_ge (by omega)] at hf
          cases hf
        exact ⟨{ obj := e1.obj, cloexec := true }, by rw [getFd_set]; simp [hlt], hk.symm⟩
    | false =>
      simp only [Bool.false_eq_true, if_false, pure_run, sat_ok]
      exact ⟨e0, hf, by rw [hc, hk]⟩

theorem openredirect_file_cloexec (env : Env) (flags : RFlags) (fd : Nat) (fname : String)
    (fl : List OFlag) (msg : String) (s : State) :
    (openredirect_file env flags fd fname fl msg s).sat
      (fun _ s2 => CloexecSet env flags fd s2) (fun _ => True) := by
  unfold openredirect_file
  simp only [bind_run]
  rcases sys_open_cases env fname fl s with ⟨e, hrun⟩ | ⟨f, id, hfree, hlt, _, _, hrun⟩
  · rw [hrun]
    simp only [error_run, sat_err]
  · rw [hrun]
    simp only
    exact openredirect_finish_cloexec env flags fd f _ { obj := .file id, cloexec := false }
      (by rw [getFd_set]; simp [hlt]) rfl
theorem openhere_fd (env : Env) (redir : Node) (s : State) :
    (openhere env redir s).sat
      (fun p0 s2 => ∃ e0, getFd s2.fds p0 = some e0 ∧ e0.cloexec = false) (fun _ => True) := by
  rcases openhere_cases env redir s with ⟨_, hrun⟩ |
    ⟨p0, p1, s2, hrun, h0, h0l, h1, hne, hfds, _, _, _, _⟩
  · rw [hrun]; trivial
  · rw [hrun]
    simp only [sat_ok]
    refine ⟨{ obj := .pipeRd s.pipes.length, cloexec := false }, ?_, rfl⟩
    rw [hfds, getFd_set_none, getFd_set, getFd_set]
    simp [hne, Ne.symm hne, h0l]

theorem getD_set_ne (mem : List Bool) (i j : Nat) (v : Bool) (h : i ≠ j) :
    (mem.set i v).getD j false = mem.getD j false := by
  simp [List.getD_eq_getElem?_getD, List.getElem?_set, h]

theorem openredirect_cloexec (env : Env) (redir : Node) (memory : List Bool) (flags : RFlags)
    (s : State)
    (hdupfd : redir.type = NType.NTOFD ∨ redir.type = NType.NFROMFD →
      0 ≤ redir.dupfd ∧ redir.dupfd.toNat ≠ redir.fd ∧ env.posix = false ∧
        memory.getD redir.dupfd.toNat false = false) :
    (openredirect env redir memory flags s).sat
      (fun _ s2 => CloexecSet env flags redir.fd s2) (fun _ => True) := by
  generalize hmem1 : (if redir.fd < 10 then memory.set redir.fd false else memory) = mem1
  have hfile : ∀ (fl : List OFlag) (msg : String) (mem : List Bool) (s : State),
      ((openredirect_file env flags redir.fd redir.expfname fl msg >>= fun _ => pure mem) s).sat
        (fun _ s2 => CloexecSet env flags redir.fd s2) (fun _ => True) := by
    intro fl msg mem s
    apply sat_bind
    exact (openredirect_file_cloexec env flags redir.fd redir.expfname fl msg s).imp
      (fun _ _ h => h) (fun _ h => h)
  have hfin : ∀ (f : Nat) (s1 : State) (mem : List Bool) (e0 : FdEnt),
      getFd s1.fds f = some e0 → e0.cloexec = false →
      ((openredirect_finish env flags redir.fd f >>= fun _ => pure mem) s1).sat
        (fun _ s2 => CloexecSet env flags redir.fd s2) (fun _ => True) := by
    intro f s1 mem e0 h1 h2
    apply sat_bind
    exact (openredirect_finish_cloexec env flags redir.fd f s1 e0 h1 h2).imp
      (fun _ _ h => h) (fun _ h => h)
  have hhere : ((openhere env redir >>= fun f =>
      openredirect_finish env flags redir.fd f >>= fun _ => pure mem1) s).sat
        (fun _ s2 => CloexecSet env flags redir.fd s2) (fun _ => True) := by
    apply sat_bind
    refine (openhere_fd env redir s).imp (fun p0 s2 h => ?_) (fun _ h => h)
    obtain ⟨e0, h1, h2⟩ := h
    exact hfin p0 s2 _ e0 h1 h2
  have hdup : ∀ mem : List Bool, mem.getD redir.dupfd.toNat false = false →
      0 ≤ redir.dupfd → redir.dupfd.toNat ≠ redir.fd → env.posix = false →
      Res.sat (fun _ s2 => CloexecSet env flags redir.fd s2) (fun _ => True)
      ((if 0 ≤ redir.dupfd then do
        let fp ← sh_fd redir.dupfd.toNat
        if fp.isSome then error "Redirect failed: EBADF"
        else if redir.fd < 10 ∧ redir.dupfd < 10 ∧ mem.getD redir.dupfd.toNat false then
          pure (mem.set redir.fd true)
        else do
          let r ← copyfd redir.dupfd.toNat redir.fd (!flags.REDIR_KEEP)
          match r with
          | .error _ => error "Redirect failed"
          | .ok _ => pure mem
      else do
        close redir.fd
        pure mem : M (List Bool)) s) := by
    intro mem hmem1 hd hne hposix
    simp only [hd, if_true, bind_run, sh_fd_run]
    by_cases hs : (List.find? (fun fp => decide (fp.fd = redir.dupfd.toNat)) s.sh_fd_list).isSome
        = true
    · simp only [hs, if_true]
      trivial
    · simp only [hs, hmem1, Bool.false_eq_true, and_false, if_false]
      obtain ⟨c1, hc1, hc1v⟩ := copyfd_eq redir.dupfd.toNat redir.fd (!flags.REDIR_KEEP)
      rw [bind_run, hc1]
      rcases dup3_cases redir.dupfd.toNat redir.fd c1 s with ⟨e, hrun⟩ | ⟨heq, _⟩ |
        ⟨e0, _, hlt, _, hrun⟩
      · rw [hrun]; trivial
      · exact absurd heq hne
      · rw [hrun]
        simp only [pure_run, sat_ok]
        refine ⟨{ obj := e0.obj, cloexec := c1 }, by rw [getFd_set]; simp [hlt], ?_⟩
        show c1 = _
        rw [hposix]
        revert hc1v
        cases c1 <;> cases flags.REDIR_KEEP <;> by_cases h2 : redir.fd > 2 <;> simp [h2]
  have hdup1 : redir.type = NType.NTOFD ∨ redir.type = NType.NFROMFD →
      mem1.getD redir.dupfd.toNat false = false ∧ 0 ≤ redir.dupfd ∧
        redir.dupfd.toNat ≠ redir.fd ∧ env.posix = false := by
    intro ht
    obtain ⟨hd, hne, hposix, hmem⟩ := hdupfd ht
    refine ⟨?_, hd, hne, hposix⟩
    rw [← hmem1]
    by_cases h10 : redir.fd < 10
    · rw [if_pos h10, getD_set_ne _ _ _ _ (Ne.symm hne)]; exact hmem
    · rw [if_neg h10]; exact hmem
  unfold openredirect
  simp only [hmem1]
  cases ht : redir.type with
  | NFROM => exact hfile _ _ _ _
  | NFROMTO => exact hfile _ _ _ _
  | NCLOBBER => exact hfile _ _ _ _
  | NAPPEND => exact hfile _ _ _ _
  | NHERE => exact hhere
  | NXHERE => exact hhere
  | NTOFD =>
    obtain ⟨h1, h2, h3, h4⟩ := hdup1 (Or.inl ht)
    exact hdup mem1 h1 h2 h3 h4
  | NFROMFD =>
    obtain ⟨h1, h2, h3, h4⟩ := hdup1 (Or.inr ht)
    exact hdup mem1 h1 h2 h3 h4
  | NTO =>
    simp only
    by_cases hC : env.Cflag = true
    · simp only [hC, if_true]
      rw [bind_run]
      rcases sys_open_cases env redir.expfname [.O_WRONLY] s with ⟨e, hrun⟩ |
        ⟨f, id, hfree, hlt, _, _, hrun⟩
      · rw [hrun]
        simp only
        exact hfile _ _ _ _
      · rw [hrun]
        simp only
        rw [bind_run]
        simp only [sys_fstat_isreg]
        have hg : getFd (s.fds.set f (some { obj := Obj.file id, cloexec := false })) f =
            some { obj := Obj.file id, cloexec := false } := by
          rw [getFd_set]; simp [hlt]
        rw [hg]
        simp only
        cases env.fstatReg (s.clock + 1) (Obj.file id) with
        | error e =>
          simp only [bind_run, close_run, error_run, sat_err]
        | ok b =>
          cases b with
          | true =>
            simp only [bind_run, close_run, error_run, sat_err]
          | false =>
            simp only
            exact hfin f _ _ { obj := Obj.file id, cloexec := false } hg rfl
    · simp only [hC, if_false, Bool.false_eq_true]
      exact hfile _ _ _ _

theorem res_eq_ok {α : Type} (r : Res α) (a : α) (hv : r.val = some a) : r = .ok a r.st := by
  cases r with
  | ok b s => simp only [Res.val, Option.some.injEq] at hv; subst hv; rfl
  | err e s => simp [Res.val] at hv
theorem keeps0_of_keeps {α : Type} {m : M α} (h : Keeps m) : Keeps0 m := by
  intro s
  have := h s
  simp only [ctl, Prod.mk.injEq] at this
  simp only [ctl0, Prod.mk.injEq]
  exact ⟨this.1, this.2.1⟩

theorem keeps0_pure {α : Type} (a : α) : Keeps0 (pure a : M α) := fun _ => rfl

theorem keeps0_error {α : Type} (msg : String) : Keeps0 (error msg : M α) := fun _ => rfl

theorem keeps0_bind {α β : Type} {m : M α} {f : α → M β} (h1 : Keeps0 m)
    (h2 : ∀ a, Keeps0 (f a)) : Keeps0 (m >>= f) := by
  intro s
  rw [bind_run]
  have := h1 s
  cases hm : m s with
  | ok a s1 => rw [hm] at this; simp only; rw [h2 a s1]; exact this
  | err e s1 => rw [hm] at this; exact this

theorem keeps0_ite {α : Type} (c : Prop) [Decidable c] {m1 m2 : M α} (h1 : Keeps0 m1)
    (h2 : Keeps0 m2) : Keeps0 (if c then m1 else m2) := by
  split
  · exact h1
  · exact h2

theorem keeps0_modify (f : State → State) (h : ∀ s, ctl0 (f s) = ctl0 s) :
    Keeps0 (modifyState f) := fun s => h s

theorem keeps_getState : Keeps getState := fun _ => rfl

theorem keeps0_renumber_sh_fd (fp : Option ShellFd) : Keeps0 (renumber_sh_fd fp) := by
  unfold renumber_sh_fd
  cases fp with
  | none => exact keeps0_pure _
  | some fp =>
    simp only
    refine keeps0_bind (keeps0_of_keeps keeps_getState) fun s => ?_
    refine keeps0_bind (keeps0_ite _ (keeps0_of_keeps keeps_find_big_fd) (keeps0_pure _)) fun _ => ?_
    refine keeps0_bind (keeps0_of_keeps keeps_getState) fun s => ?_
    refine keeps0_bind (keeps0_of_keeps (keeps_fcntl_DUPFD _ _ _)) fun t1 => ?_
    refine keeps0_bind (keeps0_ite _ (keeps0_of_keeps (keeps_fcntl_DUPFD _ _ _)) (keeps0_pure _))
      fun t2 => ?_
    refine keeps0_bind (keeps0_ite _ (keeps0_of_keeps (keeps_fcntl_DUPFD _ _ _)) (keeps0_pure _))
      fun t3 => ?_
    refine keeps0_bind (keeps0_ite _ (keeps0_of_keeps (keeps_fcntl_DUPFD _ _ _)) (keeps0_pure _))
      fun t4 => ?_
    refine keeps0_bind (keeps0_ite _ (keeps0_of_keeps (keeps_fcntl_DUPFD _ _ _)) (keeps0_pure _))
      fun t5 => ?_
    cases t5 with
    | error e => exact keeps0_error _
    | ok dst =>
      simp only
      refine keeps0_ite _ (keeps0_pure _) ?_
      refine keeps0_bind (keeps0_modify _ fun _ => rfl) fun _ => ?_
      refine keeps0_bind (keeps0_of_keeps (keeps_close _)) fun _ => ?_
      exact keeps0_modify _ fun _ => rfl
theorem sat_bind_keeps {α β : Type} {m : M α} {f : α → M β} {Q : β → State → Prop}
    {E : State → Prop} {s0 s : State} (hs : ctl s = ctl s0) (hk : Keeps m)
    (hf : ∀ a s1, ctl s1 = ctl s0 → (f a s1).sat Q E)
    (hE : ∀ s1, ctl s1 = ctl s0 → E s1) : ((m >>= f) s).sat Q E := by
  rw [bind_run]
  have := hk s
  cases hm : m s with
  | ok a s1 => rw [hm] at this; exact hf a s1 (this.trans hs)
  | err e s1 => rw [hm] at this; exact hE s1 (this.trans hs)

theorem count0_cons_le (r : Rename) (sv : List Rename) (next : List (List Rename)) :
    count0 ((r :: sv) :: next) ≤ count0 (sv :: next) + (if r.orig = 0 then 1 else 0) := by
  simp only [count0, List.filter_cons]
  by_cases h : r.orig = 0
  · simp [h]; omega
  · simp [h]

theorem fd_rename_count (fd : Nat) (i : Int) (s0 s1 : State) (h : ctl s1 = ctl s0) :
    (fd_rename fd i s1).sat
      (fun _ s2 => s2.fd0_redirected = s0.fd0_redirected ∧
        count0 s2.redirlist ≤ count0 s0.redirlist + (if fd = 0 then 1 else 0))
      (fun s2 => ctl s2 = ctl s0) := by
  simp only [ctl, Prod.mk.injEq] at h
  obtain ⟨h1, h2, _, _⟩ := h
  unfold fd_rename
  rw [modifyState_run]
  simp only [sat_ok]
  rw [← h1, ← h2]
  cases hr : s1.redirlist with
  | nil => simp [hr, count0]
  | cons sv next =>
    simp only [hr]
    exact ⟨trivial, count0_cons_le _ _ _⟩

theorem redirect_save_count (fd : Nat) (s : State) :
    (redirect_save fd s).sat
      (fun _ s2 => s2.fd0_redirected = s.fd0_redirected ∧
        count0 s2.redirlist ≤ count0 s.redirlist + (if fd = 0 then 1 else 0))
      (fun s2 => ctl s2 = ctl s) := by
  unfold redirect_save
  refine sat_bind_keeps rfl keeps_getState (fun sa s1 h1 => ?_) (fun _ h => h)
  refine sat_bind_keeps h1 (keeps_ite _ keeps_find_big_fd (keeps_pure _)) (fun _ s2 h2 => ?_)
    (fun _ h => h)
  refine sat_bind_keeps h2 keeps_getState (fun sb s3 h3 => ?_) (fun _ h => h)
  refine sat_bind_keeps h3 (keeps_fcntl_DUPFD _ _ _) (fun r s4 h4 => ?_) (fun _ h => h)
  refine sat_bind_keeps h4 ?_ (fun i s5 h5 => ?_) (fun _ h => h)
  · cases r with
    | ok i => exact keeps_pure _
    | error e =>
      cases e with
      | EBADF => exact keeps_pure _
      | EMFILE =>
        simp only [true_or, if_true]
        refine keeps_bind keeps_find_big_fd fun _ => ?_
        refine keeps_bind keeps_getState fun _ => ?_
        refine keeps_bind (keeps_fcntl_DUPFD _ _ _) fun r2 => ?_
        cases r2 with
        | ok i => exact keeps_pure _
        | error e => exact keeps_error _
      | EINVAL =>
        simp only [or_true, if_true]
        refine keeps_bind keeps_find_big_fd fun _ => ?_
        refine keeps_bind keeps_getState fun _ => ?_
        refine keeps_bind (keeps_fcntl_DUPFD _ _ _) fun r2 => ?_
        cases r2 with
        | ok i => exact keeps_pure _
        | error e => exact keeps_error _
      | EEXIST =>
        simp only [reduceCtorEq, or_self, if_false]
        exact keeps_error _
      | EOTHER n =>
        simp only [reduceCtorEq, or_self, if_false]
        exact keeps_error _
  · refine sat_bind_keeps h5 (keeps_ite _ (keeps_discard (keeps_fcntl_SETFD _ _)) (keeps_pure _))
      (fun _ s6 h6 => ?_) (fun _ h => h)
    exact fd_rename_count fd i s s6 h6
theorem pres_bind {α β : Type} {P : State → Prop} {m : M α} {f : α → M β} (h1 : Pres P m)
    (h2 : ∀ a, Pres P (f a)) : Pres P (m >>= f) := by
  intro s hP
  rw [bind_run]
  have := h1 s hP
  cases hm : m s with
  | ok a s1 => rw [hm] at this; exact h2 a s1 this
  | err e s1 => rw [hm] at this; exact this

theorem countOK_of_ctl0 {s s1 : State} (h : ctl0 s1 = ctl0 s) (hC : CountOK s) : CountOK s1 := by
  simp only [ctl0, Prod.mk.injEq] at h
  unfold CountOK at *
  rw [h.1, h.2]; exact hC

theorem pres_of_keeps0 {α : Type} {m : M α} (h : Keeps0 m) : Pres CountOK m :=
  fun s hC => countOK_of_ctl0 (h s) hC

theorem redirect_tail_count (env : Env) (flags : RFlags) (n : Node) (memory : List Bool)
    (s1 : State)
    (h : (count0 s1.redirlist : Int) ≤ s1.fd0_redirected + (if n.fd = 0 then 1 else 0)) :
    CountOK (((if n.fd = 0 then
        modifyState fun s => { s with fd0_redirected := s.fd0_redirected + 1 }
      else pure ()) >>= fun _ => openredirect env n memory flags) s1).st := by
  rw [bind_run, ite_modify_run]
  simp only
  refine countOK_of_ctl0 (keeps0_of_keeps (keeps_openredirect env n memory flags) _) ?_
  unfold CountOK
  by_cases h0 : n.fd = 0
  · simp only [h0, if_true] at h ⊢
    exact h
  · simp only [h0, if_false] at h ⊢
    simpa using h

theorem redirect_node_apply_count (env : Env) (flags : RFlags) (n : Node) (memory : List Bool) :
    Pres CountOK (redirect_node_apply env flags n memory) := by
  unfold redirect_node_apply
  simp only
  by_cases hself : (n.type = .NTOFD ∨ n.type = .NFROMFD) ∧ n.dupfd = n.fd
  · rw [if_pos hself]
    refine pres_of_keeps0 (keeps0_of_keeps ?_)
    refine keeps_bind (keeps_fcntl_SETFD _ _) fun r => ?_
    exact keeps_ite _ (keeps_pure _) (keeps_error _)
  · rw [if_neg hself]
    intro s hC
    rw [bind_run, getState_run]
    simp only
    rw [bind_run]
    by_cases hc : flags.REDIR_PUSH = true ∧ (is_renamed (topFrame s) n.fd).isNone = true
    · rw [if_pos hc]
      have hsave := redirect_save_count n.fd s
      cases hrs : redirect_save n.fd s with
      | err e s1 =>
        rw [hrs] at hsave
        simp only [sat_err, ctl, Prod.mk.injEq] at hsave
        exact countOK_of_ctl0 (by simp only [ctl0, Res.st, hsave.1, hsave.2.1]) hC
      | ok a s1 =>
        rw [hrs] at hsave
        simp only [sat_ok] at hsave
        simp only
        apply redirect_tail_count
        unfold CountOK at hC
        rw [hsave.1]
        have := hsave.2
        split at this <;> rename_i h0
        · simp only [h0, if_true]; omega
        · simp only [h0, if_false]; omega
    · rw [if_neg hc, pure_run]
      simp only
      apply redirect_tail_count
      unfold CountOK at hC
      split <;> omega

theorem redirect_node_count (env : Env) (flags : RFlags) (n : Node) (memory : List Bool) :
    Pres CountOK (redirect_node env flags n memory) := by
  unfold redirect_node
  simp only
  refine pres_bind (pres_of_keeps0 (keeps0_modify _ fun s => ?_)) fun _ => ?_
  · split <;> rfl
  refine pres_bind (pres_of_keeps0 (keeps0_of_keeps (keeps_sh_fd _))) fun fp => ?_
  refine pres_bind (pres_of_keeps0 (keeps0_renumber_sh_fd fp)) fun _ => ?_
  exact redirect_node_apply_count env flags n memory

theorem redirect_loop_count (env : Env) (flags : RFlags) (redir : List Node) :
    ∀ memory, Pres CountOK (redirect_loop env flags redir memory) := by
  induction redir with
  | nil => intro memory; exact pres_of_keeps0 (keeps0_pure _)
  | cons n rest ih =>
    intro memory
    unfold redirect_loop
    exact pres_bind (redirect_node_count env flags n memory) fun m => ih m

theorem redirect_count (env : Env) (redir : List Node) (flags : RFlags) :
    Pres CountOK (redirect env redir flags) := by
  unfold redirect
  simp only
  refine pres_bind ?_ fun _ => ?_
  · intro s hC
    rw [ite_modify_run]
    by_cases hp : flags.REDIR_PUSH = true
    · simp only [hp, if_true, Res.st]
      unfold CountOK at *
      simpa [count0] using hC
    · simp only [hp, if_false, Res.st]
      exact hC
  refine pres_bind (redirect_loop_count env flags redir _) fun m => ?_
  refine pres_bind (pres_of_keeps0 (keeps0_ite _ (keeps0_modify _ fun _ => rfl) (keeps0_pure _)))
    fun _ => ?_
  exact pres_of_keeps0 (keeps0_ite _ (keeps0_modify _ fun _ => rfl) (keeps0_pure _))

theorem free_rl_count (L : List Rename) (reset : Bool) : ∀ (s : State),
    (free_rl L reset s).sat
      (fun _ s1 => s1.redirlist = s.redirlist ∧
        s1.fd0_redirected = s.fd0_redirected - ((L.filter fun r => r.orig = 0).length : Nat))
      (fun _ => True) := by
  induction L with
  | nil => intro s; simp [free_rl, pure_run]
  | cons r rn ih =>
    intro s
    unfold free_rl
    rw [bind_run, ite_modify_run]
    simp only
    rw [bind_run]
    have hk : Keeps (if reset = true then
        if r.into < 0 then close r.orig else discard (movefd r.into.toNat r.orig)
      else (pure () : M Unit)) := by
      refine keeps_ite _ (keeps_ite _ (keeps_close _) (keeps_discard ?_)) (keeps_pure _)
      unfold movefd
      refine keeps_ite _ (keeps_pure _) ?_
      refine keeps_bind (keeps_close _) fun _ => ?_
      refine keeps_bind (keeps_copyfd _ _ _) fun r => ?_
      cases r with
      | ok a => exact keeps_bind (keeps_close _) fun _ => keeps_pure _
      | error e => exact keeps_bind (keeps_close _) fun _ => keeps_error _
    generalize hs1 : (if r.orig = 0 then
      { s with fd0_redirected := s.fd0_redirected - 1 } else s) = s1
    have h1 : s1.redirlist = s.redirlist ∧
        s1.fd0_redirected = s.fd0_redirected - (if r.orig = 0 then 1 else 0) := by
      rw [← hs1]; split <;> simp
    have hk1 := hk s1
    cases hm : (if reset = true then
        if r.into < 0 then close r.orig else discard (movefd r.into.toNat r.orig)
      else (pure () : M Unit)) s1 with
    | err e s2 => trivial
    | ok a s2 =>
      rw [hm] at hk1
      simp only [ctl, Res.st, Prod.mk.injEq] at hk1
      simp only
      refine (ih s2).imp (fun _ s3 h => ?_) (fun _ h => h)
      rw [h.1, h.2, hk1.1, hk1.2.1, h1.1, h1.2]
      refine ⟨rfl, ?_⟩
      simp only [List.filter_cons]
      by_cases h0 : r.orig = 0
      · simp [h0]; omega
      · simp [h0]

theorem frames0_le_count0 (F : List (List Rename)) : frames0 F ≤ count0 F := by
  induction F with
  | nil => exact Nat.le_refl _
  | cons fr rest ih =>
    simp only [frames0, count0]
    by_cases h : fr.any (fun r => decide (r.orig = 0)) = true
    · rw [if_pos h]
      obtain ⟨r, hr, h0⟩ := List.any_eq_true.1 h
      have : 0 < (fr.filter fun r => decide (r.orig = 0)).length :=
        List.length_pos_of_mem (List.mem_filter.2 ⟨hr, h0⟩)
      omega
    · rw [if_neg h]; omega

theorem count0_map_nil (F : List (List Rename)) :
    count0 (F.map fun _ => ([] : List Rename)) = 0 := by
  induction F with
  | nil => rfl
  | cons a l ihl =>
    rw [List.map_cons, count0, ihl]
    rfl

theorem reachable_count (env : Env) (s : State) (h : Reachable env s) : CountOK s := by
  induction h with
  | start s h1 h2 => unfold CountOK; rw [h1, h2]; simp [count0]
  | redirect s redir flags _ ih => exact redirect_count env redir flags s ih
  | popredir s s1 _ hrun ih =>
    unfold popredir at hrun
    cases hl : s.redirlist with
    | nil =>
      simp only [bind_run, getState_run, hl, error_run] at hrun
      cases hrun
    | cons rp next =>
      have hf := free_rl_count rp true s
      simp only [bind_run, getState_run, hl] at hrun
      cases hm : free_rl rp true s with
      | err e s2 => rw [hm] at hrun; cases hrun
      | ok a s2 =>
        rw [hm] at hrun hf
        simp only [modifyState_run, Res.ok.injEq, true_and] at hrun
        simp only [sat_ok] at hf
        subst hrun
        unfold CountOK at *
        rw [hl] at ih
        simp only [count0] at ih
        simp only [hf.2]
        omega
  | clearredir s vforked _ ih =>
    rw [clearredir_run]
    cases vforked with
    | true => exact ih
    | false =>
      unfold CountOK at *
      simp only [Bool.false_eq_true, if_false, Res.st]
      rw [count0_map_nil]
      omega
theorem find_none_of_not_reg {fd : Nat} {s : State} (h : fd ∉ regs s) :
    (s.sh_fd_list.find? fun fp => fp.fd = fd) = none := by
  cases hf : (s.sh_fd_list.find? fun fp => fp.fd = fd) with
  | none => rfl
  | some fp => exact absurd (sh_fd_some hf).2 h

theorem lowestFreeFrom_none (t : Tab) : ∀ (i : Nat), lowestFreeFrom t i = none →
    ∀ e ∈ t, e ≠ none := by
  induction t with
  | nil => intro i _ e he; simp at he
  | cons a t ih =>
    intro i h e he
    simp only [lowestFreeFrom] at h
    split at h
    · cases h
    · rename_i ha
      rcases List.mem_cons.1 he with rfl | he
      · intro hn; apply ha; rw [hn]; rfl
      · exact ih (i + 1) h e he

theorem lowestFree_complete (t : Tab) (m x : Nat) (hm : m ≤ x) (hx : x < t.length)
    (hfree : getFd t x = none) : ∃ r, lowestFree t m = some r := by
  cases h : lowestFree t m with
  | some r => exact ⟨r, rfl⟩
  | none =>
    exfalso
    unfold lowestFree at h
    have hall := lowestFreeFrom_none _ _ h
    have hx0 : t[x]? = some none := by
      unfold getFd at hfree
      rw [List.getD_eq_getElem?_getD] at hfree
      rw [List.getElem?_eq_getElem hx] at hfree ⊢
      simpa using hfree
    have h2 : (t.drop m)[x - m]? = some none := by
      rw [List.getElem?_drop]
      have : m + (x - m) = x := by omega
      rw [this]; exact hx0
    exact hall _ (List.getElem?_mem h2) rfl

theorem sys_pipe_twoFree (s : State) (h : TwoFree s.fds) :
    ∃ p0 p1, getFd s.fds p0 = none ∧ p0 < s.fds.length ∧ getFd s.fds p1 = none ∧
      p1 < s.fds.length ∧ p0 ≠ p1 ∧
      sys_pipe s = .ok (.ok (p0, p1))
        { s with fds := (s.fds.set p0 (some { obj := .pipeRd s.pipes.length, cloexec := false })).set
                    p1 (some { obj := .pipeWr s.pipes.length, cloexec := false }),
                 pipes := s.pipes ++ [[]] } := by
  obtain ⟨a, b, hab, hal, hbl, ha, hb⟩ := h
  obtain ⟨p0, hp0⟩ := lowestFree_complete s.fds 0 a (Nat.zero_le _) hal ha
  obtain ⟨_, h0l, h0⟩ := lowestFree_spec _ _ _ hp0
  have hsecond : ∃ x, x < s.fds.length ∧ x ≠ p0 ∧ getFd s.fds x = none := by
    by_cases hpa : p0 = a
    · exact ⟨b, hbl, fun h => hab (hpa.symm.trans h.symm), hb⟩
    · exact ⟨a, hal, fun h => hpa h.symm, ha⟩
  obtain ⟨x, hxl, hxne, hx⟩ := hsecond
  have hx1 : getFd (s.fds.set p0 (some { obj := .pipeRd s.pipes.length, cloexec := false })) x
      = none := by
    rw [getFd_set, if_neg (fun h => hxne h.1.symm)]
    exact hx
  obtain ⟨p1, hp1⟩ := lowestFree_complete _ 0 x (Nat.zero_le _) (by simpa using hxl) hx1
  obtain ⟨_, hb2, hc2⟩ := lowestFree_spec _ _ _ hp1
  rw [getFd_set] at hc2
  have hne : p0 ≠ p1 := by
    intro he
    subst he
    simp [h0l] at hc2
  simp only [hne, false_and, if_false] at hc2
  simp only [List.length_set] at hb2
  refine ⟨p0, p1, h0, h0l, hc2, hb2, hne, ?_⟩
  unfold sys_pipe
  rw [hp0]
  simp only
  rw [hp1]

theorem sys_pipe_not_twoFree (s : State) (h : ¬ TwoFree s.fds) :
    ∃ e, sys_pipe s = .ok (.error e) s := by
  rcases sys_pipe_cases s with herr | ⟨p0, p1, h0, h0l, h1, h1l, hne, _⟩
  · exact herr
  · exact absurd ⟨p0, p1, hne, h0l, h1l, h0, h1⟩ h

theorem openhere_pipe_err (env : Env) (redir : Node) (s : State) (e : Errno)
    (hp : sys_pipe s = .ok (.error e) s) :
    openhere env redir s = .err "Pipe call failed" s := by
  unfold openhere
  rw [bind_run, hp]
  rfl

theorem openhere_pipe_ok (env : Env) (redir : Node) (s : State) (p0 p1 : Nat)
    (h0l : p0 < s.fds.length) (h1l : p1 < s.fds.length) (hne : p0 ≠ p1)
    (hlen : redir.doc.length < 2 ^ 31)
    (hp : sys_pipe s = .ok (.ok (p0, p1))
        { s with fds := (s.fds.set p0 (some { obj := .pipeRd s.pipes.length, cloexec := false })).set
                    p1 (some { obj := .pipeWr s.pipes.length, cloexec := false }),
                 pipes := s.pipes ++ [[]] }) :
    ∃ s2, openhere env redir s = .ok p0 s2 ∧
      getFd s2.fds p0 = some { obj := .pipeRd s.pipes.length, cloexec := false } ∧
      getFd s2.fds p1 = none ∧
      (∀ x, x ≠ p0 → x ≠ p1 → getFd s2.fds x = getFd s.fds x) ∧
      (redir.type = .NHERE ∧ redir.doc.length ≤ env.PIPESIZE →
        s2.helpers = s.helpers ∧ s2.pipes = s.pipes ++ [redir.doc]) ∧
      (¬ (redir.type = .NHERE ∧ redir.doc.length ≤ env.PIPESIZE) →
        s2.pipes = s.pipes ++ [[]] ∧
        s2.helpers = { pipe := s.pipes.length,
                       text := if redir.type = .NHERE then redir.doc
                               else env.expandhere redir.doc } :: s.helpers) := by
  have h32 := toInt32_small _ hlen
  have hg : getFd ((s.fds.set p0 (some { obj := .pipeRd s.pipes.length, cloexec := false })).set
      p1 (some { obj := .pipeWr s.pipes.length, cloexec := false })) p1 =
      some { obj := .pipeWr s.pipes.length, cloexec := false } := by
    rw [getFd_set]; simp [h1l]
  have hfd0 : getFd (((s.fds.set p0 (some { obj := .pipeRd s.pipes.length, cloexec := false })).set
      p1 (some { obj := .pipeWr s.pipes.length, cloexec := false })).set p1 none) p0 =
      some { obj := .pipeRd s.pipes.length, cloexec := false } := by
    rw [getFd_set_none, getFd_set, getFd_set]
    simp [hne, Ne.symm hne, h0l]
  have hfd1 : getFd (((s.fds.set p0 (some { obj := .pipeRd s.pipes.length, cloexec := false })).set
      p1 (some { obj := .pipeWr s.pipes.length, cloexec := false })).set p1 none) p1 = none := by
    rw [getFd_set_none, if_pos rfl]
  have hfdx : ∀ x, x ≠ p0 → x ≠ p1 →
      getFd (((s.fds.set p0 (some { obj := .pipeRd s.pipes.length, cloexec := false })).set
      p1 (some { obj := .pipeWr s.pipes.length, cloexec := false })).set p1 none) x =
      getFd s.fds x := by
    intro x hx0 hx1
    rw [getFd_set_none, if_neg (Ne.symm hx1), getFd_set, getFd_set]
    simp [Ne.symm hx0, Ne.symm hx1]
  unfold openhere
  rw [bind_run, hp]
  simp only
  rw [h32]
  by_cases hin : redir.type = .NHERE ∧ redir.doc.length ≤ env.PIPESIZE
  · have hin1 : redir.type = .NHERE ∧ (redir.doc.length : Int) ≤ (env.PIPESIZE : Int) :=
      ⟨hin.1, by exact_mod_cast hin.2⟩
    rw [if_pos hin1, bind_run, @xwrite_pipeWr p1 s.pipes.length false _ _ _ hg]
    simp only [bind_run, close_run, pure_run]
    refine ⟨_, rfl, hfd0, hfd1, hfdx, fun _ => ⟨rfl, ?_⟩, fun hn => absurd hin hn⟩
    simp only [Int.toNat_ofNat, List.take_length]
    exact set_append_last _ _
  · have hin1 : ¬ (redir.type = .NHERE ∧ (redir.doc.length : Int) ≤ (env.PIPESIZE : Int)) :=
      fun h => hin ⟨h.1, by exact_mod_cast h.2⟩
    rw [if_neg hin1, bind_run, @forkshell_heredoc_pipeWr p1 s.pipes.length false _ _ hg]
    simp only [bind_run, close_run, pure_run]
    refine ⟨_, rfl, hfd0, hfd1, hfdx, fun h => absurd h hin, fun _ => ⟨rfl, ?_⟩⟩
    simp only [Int.toNat_ofNat, List.take_length]
/-- C1 (amended).  In a state whose registry of internal descriptors is well
formed, let `D` be open on the object `O` and not be a registered internal
descriptor.  If `redirect` with `REDIR_PUSH` applies a list of directives
successfully (whether or not they target `D`) and the saves of its frame are in
order (`SaveOrder`), then the following `popredir` returns and leaves `D` open
on the same object `O`. -/
theorem C1_popredir_restores_open (env : Env) (redir : List Node) (flags : RFlags) (s : State)
    (D : Nat) (O : Obj) (hpush : flags.REDIR_PUSH = true) (hreg : RegOK s)
    (hD : getObj s.fds D = some O) (hDr : D ∉ regs s)
    (_hok : (redirect env redir flags s).isOk = true)
    (hso : SaveOrder (topFrame (redirect env redir flags s).st)) :
    ∃ s2, popredir (redirect env redir flags s).st = .ok () s2 ∧
      s2.redirlist = s.redirlist ∧ getObj s2.fds D = some O := by
  obtain ⟨B, hInv, _⟩ := redirect_inv env flags hpush redir s hreg
  obtain ⟨s2, hrun, hrl, _, hG⟩ := popredir_restore hInv hso
  refine ⟨s2, hrun, hrl, ?_⟩
  rcases hG D hDr with h1 | ⟨h1, _, _⟩
  · rw [h1, hD]
  · rw [hD] at h1; simp at h1

/-- Witness of C1: descriptor 1, open on file 1, is redirected by `1>f` and
restored by `popredir`. -/
theorem C1_popredir_restores_open_witness :
    ∃ s2, popredir (redirect exEnv [exFile 1] exPush (exState (exTab 17))).st = .ok () s2 ∧
      s2.redirlist = (exState (exTab 17)).redirlist ∧ getObj s2.fds 1 = some (.file 1) :=
  C1_popredir_restores_open exEnv [exFile 1] exPush (exState (exTab 17)) 1 (.file 1) rfl
    (by decide!) (by decide!) (by decide!) (by decide!) (by decide!)

/-- C1 fails as stated.  First, descriptor 5 is a registered internal
descriptor open on file 7: `5>f` with `REDIR_PUSH` succeeds, `popredir`
returns, and descriptor 5 is closed.  Second, with a descriptor limit of 11,
`10>&- 1>f 10>f` succeeds, the duplicate of descriptor 1 is saved on descriptor
10 and overwritten by the third directive: after `popredir` descriptor 1 is
open on file 101, not on file 1. -/
theorem C1_counterexample :
    (getObj exInternal.fds 5 = some (.file 7) ∧
      (redirect exEnv [exFile 5] exPush exInternal).isOk = true ∧
      (popredir (redirect exEnv [exFile 5] exPush exInternal).st).isOk = true ∧
      getObj (popredir (redirect exEnv [exFile 5] exPush exInternal).st).st.fds 5 = none) ∧
    (getObj (exState (exTab 8)).fds 1 = some (.file 1) ∧
      (redirect exEnv [exDup 10 (-1), exFile 1, exFile 10] exPush (exState (exTab 8))).isOk = true ∧
      (popredir (redirect exEnv [exDup 10 (-1), exFile 1, exFile 10] exPush
        (exState (exTab 8))).st).isOk = true ∧
      getObj (popredir (redirect exEnv [exDup 10 (-1), exFile 1, exFile 10] exPush
        (exState (exTab 8))).st).st.fds 1 = some (.file 101)) := by
  decide!

/-- C2 (amended).  In a state whose registry of internal descriptors is well
formed, let `D` not be open, and let `redirect` with `REDIR_PUSH` apply
successfully a list that has a directive on `D` other than a duplication of
`D` onto itself.  If no saved duplicate of the frame was placed on `D`, the
frame records `CLOSED` for `D`; and if the saves of the frame are in order
(`SaveOrder`), the following `popredir` returns and leaves `D` closed. -/
theorem C2_popredir_restores_closed (env : Env) (redir : List Node) (flags : RFlags)
    (s : State) (D : Nat) (hpush : flags.REDIR_PUSH = true) (hreg : RegOK s)
    (hD : getFd s.fds D = none) (htarget : ∃ n ∈ redir, n.fd = D ∧ ¬ selfDup n)
    (hok : (redirect env redir flags s).isOk = true) :
    (D ∉ slots (topFrame (redirect env redir flags s).st) →
      { orig := D, into := CLOSED } ∈ topFrame (redirect env redir flags s).st) ∧
    (SaveOrder (topFrame (redirect env redir flags s).st) →
      ∃ s2, popredir (redirect env redir flags s).st = .ok () s2 ∧
        s2.redirlist = s.redirlist ∧ getFd s2.fds D = none) := by
  obtain ⟨B, hInv, hB⟩ := redirect_inv env flags hpush redir s hreg
  obtain ⟨n, hn, hnD, hns⟩ := htarget
  have hDo : D ∈ origs (topFrame (redirect env redir flags s).st) :=
    hInv.saved D (hnD ▸ hB hok n hn hns)
  have hDR : D ∉ regs s := fun hm => hreg.2 D hm hD
  constructor
  · intro hsl
    simp only [origs, List.mem_map] at hDo
    obtain ⟨r, hr, hrD⟩ := hDo
    have := hInv.closedRec r hr (by rw [hrD]; exact getObj_none_iff.2 hD) (by rw [hrD]; exact hsl)
    have hr' : r = { orig := D, into := CLOSED } := by
      cases r
      simp only at hrD this
      simp [hrD, this]
    rw [← hr']
    exact hr
  · intro hso
    obtain ⟨s2, hrun, hrl, _, hG⟩ := popredir_restore hInv hso
    refine ⟨s2, hrun, hrl, ?_⟩
    rcases hG D hDR with h1 | ⟨_, _, h3⟩
    · rw [← getObj_none_iff, h1]; exact getObj_none_iff.2 hD
    · exact absurd hDo h3

/-- Witness of C2: descriptor 5 is closed, `5>f` records `CLOSED` for it and
`popredir` closes it again. -/
theorem C2_popredir_restores_closed_witness :
    (5 ∉ slots (topFrame (redirect exEnv [exFile 5] exPush (exState (exTab 17))).st) →
      { orig := 5, into := CLOSED } ∈
        topFrame (redirect exEnv [exFile 5] exPush (exState (exTab 17))).st) ∧
    (SaveOrder (topFrame (redirect exEnv [exFile 5] exPush (exState (exTab 17))).st) →
      ∃ s2, popredir (redirect exEnv [exFile 5] exPush (exState (exTab 17))).st = .ok () s2 ∧
        s2.redirlist = (exState (exTab 17)).redirlist ∧ getFd s2.fds 5 = none) :=
  C2_popredir_restores_closed exEnv [exFile 5] exPush (exState (exTab 17)) 5 rfl
    (by decide!) (by decide!) ⟨exFile 5, by decide!, rfl, by decide!⟩ (by decide!)

/-- C2 fails as stated: descriptor 13 is not open; `1>f 13>f` with
`REDIR_PUSH` succeeds, the duplicate of descriptor 1 is saved on descriptor 13,
so that the frame records for 13 the duplicate 14 and not `CLOSED`. -/
theorem C2_counterexample :
    getFd (exState (exTab 17)).fds 13 = none ∧
    (redirect exEnv [exFile 1, exFile 13] exPush (exState (exTab 17))).isOk = true ∧
    topFrame (redirect exEnv [exFile 1, exFile 13] exPush (exState (exTab 17))).st =
      [{ orig := 13, into := 14 }, { orig := 1, into := 13 }] := by
  decide!

/-- C3 (amended).  In a state whose registry of internal descriptors is well
formed, let `redirect` with `REDIR_PUSH` apply successfully a list that has at
least one directive (or several) on `D` other than a duplication of `D` onto
itself.  Then the frame has no two entries for one descriptor and exactly one
entry for `D`; and if `D` is not a registered internal descriptor and the saves
of the frame are in order (`SaveOrder`), the following `popredir` returns and
leaves `D` as it was before the frame: open on the same object, or closed. -/
theorem C3_one_save_per_descriptor (env : Env) (redir : List Node) (flags : RFlags)
    (s : State) (D : Nat) (hpush : flags.REDIR_PUSH = true) (hreg : RegOK s)
    (htarget : ∃ n ∈ redir, n.fd = D ∧ ¬ selfDup n)
    (hok : (redirect env redir flags s).isOk = true) :
    (origs (topFrame (redirect env redir flags s).st)).Nodup ∧
    (origs (topFrame (redirect env redir flags s).st)).count D = 1 ∧
    (D ∉ regs s → SaveOrder (topFrame (redirect env redir flags s).st) →
      ∃ s2, popredir (redirect env redir flags s).st = .ok () s2 ∧
        s2.redirlist = s.redirlist ∧ getObj s2.fds D = getObj s.fds D) := by
  obtain ⟨B, hInv, hB⟩ := redirect_inv env flags hpush redir s hreg
  obtain ⟨n, hn, hnD, hns⟩ := htarget
  have hDo : D ∈ origs (topFrame (redirect env redir flags s).st) :=
    hInv.saved D (hnD ▸ hB hok n hn hns)
  refine ⟨hInv.nodup, List.count_eq_one_of_mem hInv.nodup hDo, fun hDR hso => ?_⟩
  obtain ⟨s2, hrun, hrl, _, hG⟩ := popredir_restore hInv hso
  refine ⟨s2, hrun, hrl, ?_⟩
  rcases hG D hDR with h1 | ⟨_, _, h3⟩
  · exact h1
  · exact absurd hDo h3

/-- Witness of C3: `1>f 1>f` saves descriptor 1 once and `popredir` puts file 1
back. -/
theorem C3_one_save_per_descriptor_witness :
    (origs (topFrame (redirect exEnv [exFile 1, exFile 1] exPush (exState (exTab 17))).st)).Nodup ∧
    (origs (topFrame (redirect exEnv [exFile 1, exFile 1] exPush
      (exState (exTab 17))).st)).count 1 = 1 ∧
    (1 ∉ regs (exState (exTab 17)) →
      SaveOrder (topFrame (redirect exEnv [exFile 1, exFile 1] exPush (exState (exTab 17))).st) →
      ∃ s2, popredir (redirect exEnv [exFile 1, exFile 1] exPush (exState (exTab 17))).st
          = .ok () s2 ∧
        s2.redirlist = (exState (exTab 17)).redirlist ∧
        getObj s2.fds 1 = getObj (exState (exTab 17)).fds 1) :=
  C3_one_save_per_descriptor exEnv [exFile 1, exFile 1] exPush (exState (exTab 17)) 1 rfl
    (by decide!) ⟨exFile 1, by decide!, rfl, by decide!⟩ (by decide!)

/-- C3 fails as stated.  First, descriptor 5 is a registered internal
descriptor open on file 7: after `5>f 5>f` and `popredir` it is closed.
Second, with a descriptor limit of 11, after `10>&- 1>f 10>f 1>f` and
`popredir` descriptor 1 is open on file 101, not on file 1 as before the
frame. -/
theorem C3_counterexample :
    (getObj exInternal.fds 5 = some (.file 7) ∧
      (redirect exEnv [exFile 5, exFile 5] exPush exInternal).isOk = true ∧
      (popredir (redirect exEnv [exFile 5, exFile 5] exPush exInternal).st).isOk = true ∧
      getObj (popredir (redirect exEnv [exFile 5, exFile 5] exPush exInternal).st).st.fds 5
        = none) ∧
    (getObj (exState (exTab 8)).fds 1 = some (.file 1) ∧
      (redirect exEnv [exDup 10 (-1), exFile 1, exFile 10, exFile 1] exPush
        (exState (exTab 8))).isOk = true ∧
      (popredir (redirect exEnv [exDup 10 (-1), exFile 1, exFile 10, exFile 1] exPush
        (exState (exTab 8))).st).isOk = true ∧
      getObj (popredir (redirect exEnv [exDup 10 (-1), exFile 1, exFile 10, exFile 1] exPush
        (exState (exTab 8))).st).st.fds 1 = some (.file 101)) := by
  decide!

/-- C4 (amended).  In a state whose registry of internal descriptors is well
formed, let `redirect` with `REDIR_PUSH` call `error`.  Then `error` was called
by the body of the loop for some node `n`, after the nodes before it were
processed, and nothing was done after that; the frame that `redirect` pushed is
on top of the stack; and if the saves of that frame are in order
(`SaveOrder`), the following `popredir` returns, removes the frame and leaves
every descriptor that is not a registered internal descriptor, before the
frame or at the error, as it was before the frame. -/
theorem C4_error_leaves_frame (env : Env) (redir : List Node) (flags : RFlags)
    (s : State) (hpush : flags.REDIR_PUSH = true) (hreg : RegOK s)
    (hfail : (redirect env redir flags s).isOk = false) :
    (∃ pre n post mem sa msg, redir = pre ++ n :: post ∧
      redirect_loop env flags pre ((List.replicate 10 false).set 1 flags.REDIR_BACKQ)
        { s with redirlist := [] :: s.redirlist } = .ok mem sa ∧
      redirect_node env flags n mem sa = .err msg (redirect env redir flags s).st) ∧
    (redirect env redir flags s).st.redirlist =
      topFrame (redirect env redir flags s).st :: s.redirlist ∧
    (SaveOrder (topFrame (redirect env redir flags s).st) →
      ∃ s2, popredir (redirect env redir flags s).st = .ok () s2 ∧
        s2.redirlist = s.redirlist ∧
        ∀ x, x ∉ regs s → x ∉ regs (redirect env redir flags s).st →
          getObj s2.fds x = getObj s.fds x) := by
  obtain ⟨B, hInv, _⟩ := redirect_inv env flags hpush redir s hreg
  refine ⟨?_, hInv.frames, fun hso => ?_⟩
  · cases hr : redirect env redir flags s with
    | ok a s1 => rw [hr] at hfail; simp [Res.isOk] at hfail
    | err msg s1 =>
      obtain ⟨pre, n, post, mem, sa, h1, h2, h3⟩ := redirect_err env flags redir s s1 msg hr
      simp only [hpush, if_true] at h2
      exact ⟨pre, n, post, mem, sa, msg, h1, h2, h3⟩
  · obtain ⟨s2, hrun, hrl, _, hG⟩ := popredir_restore hInv hso
    refine ⟨s2, hrun, hrl, fun x hx hx2 => ?_⟩
    rcases hG x hx with h1 | ⟨_, h2, _⟩
    · exact h1
    · exact absurd h2 hx2

/-- Witness of C4: `1>f 2>&9` fails at its second directive because descriptor
9 is not open. -/
theorem C4_error_leaves_frame_witness :
    (redirect exEnv [exFile 1, exDup 2 9] exPush (exState (exTab 17))).isOk = false ∧
    (SaveOrder (topFrame (redirect exEnv [exFile 1, exDup 2 9] exPush
        (exState (exTab 17))).st) →
      ∃ s2, popredir (redirect exEnv [exFile 1, exDup 2 9] exPush (exState (exTab 17))).st
          = .ok () s2 ∧
        s2.redirlist = (exState (exTab 17)).redirlist ∧
        ∀ x, x ∉ regs (exState (exTab 17)) →
          x ∉ regs (redirect exEnv [exFile 1, exDup 2 9] exPush (exState (exTab 17))).st →
          getObj s2.fds x = getObj (exState (exTab 17)).fds x) :=
  ⟨by decide!, (C4_error_leaves_frame exEnv [exFile 1, exDup 2 9] exPush (exState (exTab 17)) rfl
    (by decide!) (by decide!)).2.2⟩

/-- C4 fails as stated.  First, descriptor 5 is a registered internal
descriptor open on file 7: `5>f 2>&9` fails at its second directive, and after
`popredir` descriptor 5, which the first directive targeted, is closed.
Second, with a descriptor limit of 11, `10>&- 1>f 10>f 2>&9` fails at its last
directive, and after `popredir` descriptor 1 is open on file 101, not on
file 1. -/
theorem C4_counterexample :
    (getObj exInternal.fds 5 = some (.file 7) ∧
      (redirect exEnv [exFile 5, exDup 2 9] exPush exInternal).isOk = false ∧
      (popredir (redirect exEnv [exFile 5, exDup 2 9] exPush exInternal).st).isOk = true ∧
      getObj (popredir (redirect exEnv [exFile 5, exDup 2 9] exPush exInternal).st).st.fds 5
        = none) ∧
    (getObj (exState (exTab 8)).fds 1 = some (.file 1) ∧
      (redirect exEnv [exDup 10 (-1), exFile 1, exFile 10, exDup 2 9] exPush
        (exState (exTab 8))).isOk = false ∧
      (popredir (redirect exEnv [exDup 10 (-1), exFile 1, exFile 10, exDup 2 9] exPush
        (exState (exTab 8))).st).isOk = true ∧
      getObj (popredir (redirect exEnv [exDup 10 (-1), exFile 1, exFile 10, exDup 2 9] exPush
        (exState (exTab 8))).st).st.fds 1 = some (.file 101)) := by
  decide!

/-! ## C5: relocation of an internal descriptor -/

/-- Claim C6, amended: let `n` be a duplicate-to-self directive on a descriptor that is not
a registered internal descriptor of the shell.  If the descriptor is open, the
loop body of `redirect` returns, whatever the flags, in the state in which
`max_user_fd` was raised to the descriptor if it was smaller and the entry of
the descriptor has close-on-exec cleared: the descriptor is open on the same
object, no other descriptor, no frame and no counter has changed.  If the
descriptor is not open, the loop body ends in an error with only `max_user_fd`
changed. -/
theorem C6_self_dup_keeps_open (env : Env) (flags : RFlags) (n : Node) (memory : List Bool)
    (s : State) (hself : selfDup n) (hreg : n.fd ∉ regs s) :
    (∀ e, getFd s.fds n.fd = some e →
      redirect_node env flags n memory s = .ok memory
        { (if s.max_user_fd < n.fd then { s with max_user_fd := n.fd } else s) with
          fds := s.fds.set n.fd (some { obj := e.obj, cloexec := false }) }) ∧
    (getFd s.fds n.fd = none →
      redirect_node env flags n memory s = .err "fd: F_SETFD failed"
        (if s.max_user_fd < n.fd then { s with max_user_fd := n.fd } else s)) := by
  have hfind : ∀ s1 : State, s1.sh_fd_list = s.sh_fd_list →
      (s1.sh_fd_list.find? fun fp => fp.fd = n.fd) = none := by
    intro s1 h1
    rw [h1]; exact find_none_of_not_reg hreg
  have hrun : redirect_node env flags n memory s =
      (do let r ← fcntl_SETFD n.fd false
          if r then pure memory else error "fd: F_SETFD failed" : M (List Bool))
        (if s.max_user_fd < n.fd then { s with max_user_fd := n.fd } else s) := by
    unfold redirect_node
    rw [bind_run, modifyState_run]
    simp only
    rw [bind_run, sh_fd_run, hfind _ (by split <;> rfl)]
    simp only [renumber_sh_fd]
    rw [bind_run, pure_run]
    simp only
    unfold redirect_node_apply
    have hself1 : (n.type = NType.NTOFD ∨ n.type = NType.NFROMFD) ∧ n.dupfd = (n.fd : Int) := hself
    rw [if_pos hself1]
  have hfds : (if s.max_user_fd < n.fd then { s with max_user_fd := n.fd } else s).fds = s.fds := by
    split <;> rfl
  rw [hrun]
  constructor
  · intro e he
    rw [bind_run]
    rcases fcntl_SETFD_cases n.fd false
      (if s.max_user_fd < n.fd then { s with max_user_fd := n.fd } else s) with
      ⟨h0, _⟩ | ⟨e1, he1, hr⟩
    · rw [hfds, he] at h0; cases h0
    · rw [hfds, he] at he1
      cases he1
      rw [hr]
      simp only [if_true, pure_run, hfds]
  · intro he
    rw [bind_run]
    rcases fcntl_SETFD_cases n.fd false
      (if s.max_user_fd < n.fd then { s with max_user_fd := n.fd } else s) with
      ⟨h0, hr⟩ | ⟨e1, he1, _⟩
    · rw [hr]
      simp only [Bool.false_eq_true, if_false, error_run]
    · rw [hfds, he] at he1; cases he1

/-- Witness of C6: `1>&1` in a state where descriptor 1 is open on file 1. -/
theorem C6_self_dup_keeps_open_witness :
    selfDup (exDup 1 1) ∧ (exDup 1 1).fd ∉ regs (exState (exTab 17)) ∧
    redirect_node exEnv exPush (exDup 1 1) (List.replicate 10 false) (exState (exTab 17)) =
      .ok (List.replicate 10 false)
        { exState (exTab 17) with
          fds := (exState (exTab 17)).fds.set 1 (some { obj := .file 1, cloexec := false }) } :=
  ⟨by decide, by decide!,
    (C6_self_dup_keeps_open exEnv exPush (exDup 1 1) (List.replicate 10 false)
      (exState (exTab 17)) (by decide) (by decide!)).1 { obj := .file 1, cloexec := false } rfl⟩

/-- Claim C6 fails as stated for a registered internal descriptor: descriptor 5 is open on
file 7 and registered; `5>&5` makes `redirect` move the internal descriptor to
descriptor 12, which is a duplication, and close descriptor 5, and then end in
an error because descriptor 5 is not open. -/
theorem C6_counterexample :
    selfDup (exDup 5 5) ∧ getObj exInternal.fds 5 = some (.file 7) ∧
    (redirect exEnv [exDup 5 5] exPlain exInternal).isOk = false ∧
    getFd (redirect exEnv [exDup 5 5] exPlain exInternal).st.fds 5 = none ∧
    getObj (redirect exEnv [exDup 5 5] exPlain exInternal).st.fds 12 = some (.file 7) ∧
    (redirect exEnv [exDup 5 5] exPlain exInternal).st.cbLog = [(0, 5, 12)] := by
  decide!

/-! ## C7: the counter of redirections of descriptor 0 -/

/-- Claim C7, amended: in every state reached from a state without frames and with the
counter at 0 through `redirect`, `popredir` and `clearredir`, the counter
`fd0_redirected` is at least the number of live frames that hold a save entry
for descriptor 0; so `fd0_redirected_p` is true whenever some live frame saved
descriptor 0. -/
theorem C7_counter_bound (env : Env) (s : State) (h : Reachable env s) :
    (frames0 s.redirlist : Int) ≤ s.fd0_redirected ∧
    (0 < frames0 s.redirlist → fd0_redirected_p s = true) := by
  have hC := reachable_count env s h
  have hle := frames0_le_count0 s.redirlist
  unfold CountOK at hC
  refine ⟨by omega, fun hpos => ?_⟩
  unfold fd0_redirected_p
  simp only [bne_iff_ne, ne_eq]
  omega

/-- Witness of C7: the state after `0>f` with `REDIR_PUSH`, where one frame saved
descriptor 0 and the counter is 1. -/
theorem C7_counter_bound_witness :
    frames0 (redirect exEnv [exFile 0] exPush (exState (exTab 17))).st.redirlist = 1 ∧
    ((frames0 (redirect exEnv [exFile 0] exPush (exState (exTab 17))).st.redirlist : Int) ≤
        (redirect exEnv [exFile 0] exPush (exState (exTab 17))).st.fd0_redirected ∧
      (0 < frames0 (redirect exEnv [exFile 0] exPush (exState (exTab 17))).st.redirlist →
        fd0_redirected_p (redirect exEnv [exFile 0] exPush (exState (exTab 17))).st = true)) :=
  ⟨by decide!, C7_counter_bound exEnv _
    (Reachable.redirect _ [exFile 0] exPush (Reachable.start (exState (exTab 17)) rfl rfl))⟩

/-- Claim C7 fails as stated.  After `0>f` without `REDIR_PUSH` there is no frame and the
counter is 1; and after `0>f 0>f` with `REDIR_PUSH` followed by `popredir`
there is no frame left and the counter is 1.  In both states
`fd0_redirected_p` is true. -/
theorem C7_counterexample :
    (∃ s, Reachable exEnv s ∧ s.redirlist = [] ∧ frames0 s.redirlist = 0 ∧
      s.fd0_redirected = 1 ∧ fd0_redirected_p s = true) ∧
    (∃ s, Reachable exEnv s ∧
      popredir (redirect exEnv [exFile 0, exFile 0] exPush (exState (exTab 17))).st = .ok () s ∧
      s.redirlist = [] ∧ frames0 s.redirlist = 0 ∧
      s.fd0_redirected = 1 ∧ fd0_redirected_p s = true) :=
  ⟨⟨(redirect exEnv [exFile 0] exPlain (exState (exTab 17))).st,
      Reachable.redirect _ [exFile 0] exPlain (Reachable.start (exState (exTab 17)) rfl rfl),
      by decide!, by decide!, by decide!, by decide!⟩,
    ⟨(popredir (redirect exEnv [exFile 0, exFile 0] exPush (exState (exTab 17))).st).st,
      Reachable.popredir _ _
        (Reachable.redirect _ [exFile 0, exFile 0] exPush
          (Reachable.start (exState (exTab 17)) rfl rfl))
        (res_eq_ok _ _ (by decide!)),
      res_eq_ok _ _ (by decide!), by decide!, by decide!, by decide!, by decide!⟩⟩

/-! ## C8: the floor of the internal descriptors -/

/-- Claim C8, amended: `find_big_fd` always returns, sets `big_sh_fd` to a value that is at
least 10, and never lowers its start exponent `last_start`.  If every probe
`fcntl(0, F_DUPFD, i - 1)` that succeeds in the table of a state `s` also
succeeds in the table of a later state `s1`, whose `last_start` is not below
the one of `s`, then the value that `find_big_fd` sets in `s1` is not smaller
than the value it sets in `s`. -/
theorem C8_floor_monotone (s s1 : State)
    (hprobe : ∀ i, probeOK s.fds i = true → probeOK s1.fds i = true)
    (hls : s.last_start ≤ s1.last_start) :
    ∃ a b a1 b1, find_big_fd s = .ok () { s with last_start := a, big_sh_fd := b } ∧
      find_big_fd s1 = .ok () { s1 with last_start := a1, big_sh_fd := b1 } ∧
      10 ≤ b ∧ b ≤ b1 ∧ s.last_start ≤ a ∧ a ≤ a1 :=
  ⟨_, _, _, _, find_big_fd_eq s, find_big_fd_eq s1, floorOf_ge _ _,
    Nat.le_trans (floorOf_mono s.fds _ _ (nextStart_mono _ _ hls))
      (floorOf_probe_mono s.fds s1.fds hprobe _),
    nextStart_ge _, nextStart_mono _ _ hls⟩

/-- Witness of C8: a second call of `find_big_fd` right after the first, in the same table. -/
theorem C8_floor_monotone_witness :
    (exState (exTab 17)).last_start ≤ (find_big_fd (exState (exTab 17))).st.last_start ∧
    ∃ a b a1 b1, find_big_fd (exState (exTab 17)) =
        .ok () { exState (exTab 17) with last_start := a, big_sh_fd := b } ∧
      find_big_fd (find_big_fd (exState (exTab 17))).st =
        .ok () { (find_big_fd (exState (exTab 17))).st with last_start := a1, big_sh_fd := b1 } ∧
      10 ≤ b ∧ b ≤ b1 ∧ (exState (exTab 17)).last_start ≤ a ∧ a ≤ a1 :=
  ⟨by decide!, C8_floor_monotone (exState (exTab 17)) (find_big_fd (exState (exTab 17))).st
    (fun i h => by rw [find_big_fd_eq]; exact h) (by decide!)⟩

/-- Claim C8 fails as stated: the first call of `find_big_fd` sets `big_sh_fd` to 12; after
descriptor 0 was closed every probe fails, and the next call sets it to 10. -/
theorem C8_counterexample :
    (find_big_fd (exState (exTab 17))).st.big_sh_fd = 12 ∧
    (find_big_fd (close 0 (find_big_fd (exState (exTab 17))).st).st).st.big_sh_fd = 10 := by
  decide!

/-! ## C9: close-on-exec on the target -/

/-- Claim C9, amended: when `openredirect` returns after a directive that opens a file or
a here-document, or after a duplication from another descriptor that is not
routed to memory, outside POSIX mode, the target descriptor is open and
close-on-exec is set on it exactly when the target is above 2, `REDIR_KEEP` is
not given and POSIX mode is not active. -/
theorem C9_cloexec_on_target (env : Env) (redir : Node) (memory : List Bool) (flags : RFlags)
    (s s2 : State) (mem2 : List Bool)
    (hok : openredirect env redir memory flags s = .ok mem2 s2)
    (hdup : redir.type = NType.NTOFD ∨ redir.type = NType.NFROMFD →
      0 ≤ redir.dupfd ∧ redir.dupfd.toNat ≠ redir.fd ∧ env.posix = false ∧
        memory.getD redir.dupfd.toNat false = false) :
    ∃ e, getFd s2.fds redir.fd = some e ∧
      (e.cloexec = true ↔ redir.fd > 2 ∧ flags.REDIR_KEEP = false ∧ env.posix = false) := by
  have h := openredirect_cloexec env redir memory flags s hdup
  rw [hok] at h
  obtain ⟨e, he, hc⟩ := h
  refine ⟨e, he, ?_⟩
  rw [hc]
  cases flags.REDIR_KEEP <;> cases env.posix <;> by_cases h2 : redir.fd > 2 <;> simp [h2]

/-- Witness of C9: `5>&1` with `REDIR_PUSH` alone, outside POSIX mode, leaves descriptor 5
with close-on-exec set. -/
theorem C9_cloexec_on_target_witness :
    ∃ e, getFd (openredirect exEnv (exDup 5 1) (List.replicate 10 false) exPush
        (exState (exTab 17))).st.fds 5 = some e ∧
      (e.cloexec = true ↔ 5 > 2 ∧ exPush.REDIR_KEEP = false ∧ exEnv.posix = false) :=
  C9_cloexec_on_target exEnv (exDup 5 1) (List.replicate 10 false) exPush (exState (exTab 17))
    (openredirect exEnv (exDup 5 1) (List.replicate 10 false) exPush (exState (exTab 17))).st
    (List.replicate 10 false) (res_eq_ok _ _ (by decide!)) (fun _ => by decide!)

/-- Claim C9 fails as stated for the descriptors 0, 1 and 2: `1>f` without `REDIR_KEEP`,
outside POSIX mode, leaves descriptor 1 open on the new file with
close-on-exec not set. -/
theorem C9_counterexample :
    exPush.REDIR_KEEP = false ∧ exEnv.posix = false ∧
    (openredirect exEnv (exFile 1) (List.replicate 10 false) exPush (exState (exTab 17))).isOk
      = true ∧
    getFd (openredirect exEnv (exFile 1) (List.replicate 10 false) exPush
      (exState (exTab 17))).st.fds 1 = some { obj := .file 100, cloexec := false } := by
  decide!

/-! ## C10: here-documents -/

/-- Claim C10, amended: for a here-document whose text is shorter than `2 ^ 31` bytes.
The call of `pipe` returns a pipe exactly when two descriptors are free.  When
they are not, `openhere` ends in the error of the failed `pipe` and leaves the
state as it is.  When they are, `openhere` returns a descriptor that was
closed and is now the read end of a new pipe, with no other descriptor changed
(the write end is closed again).  Then, for a literal here-document (`NHERE`)
of at most `PIPESIZE` bytes no helper process is spawned and the pipe holds
exactly the text; in every other case (a longer text, or a here-document
subject to expansion of any length) the shell calls `forkshell` once, so that
one helper writes into that pipe exactly the text, expanded for `NXHERE`, and
the shell itself writes nothing. -/
theorem C10_openhere_helper (env : Env) (redir : Node) (s : State)
    (hlen : redir.doc.length < 2 ^ 31) :
    (TwoFree s.fds ↔ ∃ p0 p1 s1, sys_pipe s = .ok (.ok (p0, p1)) s1) ∧
    (¬ TwoFree s.fds → openhere env redir s = .err "Pipe call failed" s) ∧
    (TwoFree s.fds →
      ∃ p0 s2, openhere env redir s = .ok p0 s2 ∧ getFd s.fds p0 = none ∧
        getFd s2.fds p0 = some { obj := .pipeRd s.pipes.length, cloexec := false } ∧
        (∀ x, x ≠ p0 → getFd s2.fds x = getFd s.fds x) ∧
        (redir.type = .NHERE ∧ redir.doc.length ≤ env.PIPESIZE →
          s2.helpers = s.helpers ∧ s2.pipes = s.pipes ++ [redir.doc]) ∧
        (¬ (redir.type = .NHERE ∧ redir.doc.length ≤ env.PIPESIZE) →
          s2.pipes = s.pipes ++ [[]] ∧
          s2.helpers = { pipe := s.pipes.length,
                         text := if redir.type = .NHERE then redir.doc
                                 else env.expandhere redir.doc } :: s.helpers)) := by
  refine ⟨⟨fun h => ?_, fun h => ?_⟩, fun h => ?_, fun h => ?_⟩
  · obtain ⟨p0, p1, _, _, _, _, _, hp⟩ := sys_pipe_twoFree s h
    exact ⟨p0, p1, _, hp⟩
  · by_contra hn
    obtain ⟨e, he⟩ := sys_pipe_not_twoFree s hn
    obtain ⟨p0, p1, s1, hp⟩ := h
    rw [he] at hp
    cases hp
  · obtain ⟨e, he⟩ := sys_pipe_not_twoFree s h
    exact openhere_pipe_err env redir s e he
  · obtain ⟨p0, p1, h0, h0l, h1, h1l, hne, hp⟩ := sys_pipe_twoFree s h
    obtain ⟨s2, hrun, hfd0, hfd1, hfdx, hshort, hlong⟩ :=
      openhere_pipe_ok env redir s p0 p1 h0l h1l hne hlen hp
    refine ⟨p0, s2, hrun, h0, hfd0, fun x hx => ?_, hshort, hlong⟩
    by_cases hx1 : x = p1
    · rw [hx1, hfd1, h1]
    · exact hfdx x hx hx1

/-- Witness of C10: a literal here-document of two bytes with `PIPESIZE = 4`, in a table
where the descriptors 3 and 4 are free. -/
theorem C10_openhere_helper_witness :
    (exHere [1, 2]).doc.length < 2 ^ 31 ∧ TwoFree (exState (exTab 17)).fds ∧
    ∃ p0 s2, openhere exEnv (exHere [1, 2]) (exState (exTab 17)) = .ok p0 s2 ∧
      s2.helpers = [] ∧ s2.pipes = [[1, 2]] := by
  have htwo : TwoFree (exState (exTab 17)).fds :=
    ⟨3, 4, by decide, by decide!, by decide!, by decide!, by decide!⟩
  refine ⟨by decide, htwo, ?_⟩
  obtain ⟨p0, s2, hrun, _, _, _, hshort, _⟩ :=
    (C10_openhere_helper exEnv (exHere [1, 2]) (exState (exTab 17)) (by decide)).2.2 htwo
  exact ⟨p0, s2, hrun, hshort ⟨rfl, by decide⟩⟩

/-- Claim C10 fails as stated for here-documents subject to expansion: with
`PIPESIZE = 4`, the two-byte here-document `NXHERE` makes `openhere` spawn a
helper, and the shell writes nothing into the pipe. -/
theorem C10_counterexample :
    exEnv.PIPESIZE = 4 ∧ (exXHere [1, 2]).doc.length = 2 ∧
    (openhere exEnv (exXHere [1, 2]) (exState (exTab 17))).isOk = true ∧
    (openhere exEnv (exXHere [1, 2]) (exState (exTab 17))).st.helpers
      = [{ pipe := 0, text := [1, 2] }] ∧
    (openhere exEnv (exXHere [1, 2]) (exState (exTab 17))).st.pipes = [[]] := by
  decide!

/-! ## C11: discarding the frames -/

/-- Claim C11, amended: `clearredir` always returns, keeps the descriptor limit, and leaves
every descriptor that holds no saved duplicate exactly as it was, so it neither
moves a duplicate back nor closes such a descriptor.  With `vforked` set it
closes every saved duplicate of every frame and leaves the frames and the
counter `fd0_redirected` as they are; with `vforked` clear it empties every
frame and takes one off `fd0_redirected` for each entry that saved descriptor 0. -/
theorem C11_clearredir_discards (vforked : Bool) (s : State) :
    ∃ s1, clearredir vforked s = .ok () s1 ∧ s1.fds.length = s.fds.length ∧
      (∀ x, x ∉ allSlots s.redirlist → getFd s1.fds x = getFd s.fds x) ∧
      (vforked = true → (∀ x ∈ allSlots s.redirlist, getFd s1.fds x = none) ∧
        s1.redirlist = s.redirlist ∧ s1.fd0_redirected = s.fd0_redirected) ∧
      (vforked = false → s1.redirlist = s.redirlist.map (fun _ => []) ∧
        s1.fd0_redirected = s.fd0_redirected - (count0 s.redirlist : Nat)) := by
  refine ⟨_, clearredir_run vforked s, ?_⟩
  cases vforked
  · simp
  · refine ⟨length_closeAll _ _, fun x hx => ?_, fun _ => ⟨fun x hx => ?_, rfl, rfl⟩, ?_⟩
    · show getFd (closeAll _ _) x = _
      rw [getFd_closeAll, if_neg hx]
    · show getFd (closeAll _ _) x = _
      rw [getFd_closeAll, if_pos hx]
    · intro h; cases h

/-- Claim C11 as stated fails both ways.  After `1>f` was applied with
`REDIR_PUSH`, the frame holds the entry that saved descriptor 1 on descriptor 13,
open on file 1.  `clearredir` with `vforked` set closes descriptor 13, and
`clearredir` with `vforked` clear leaves descriptor 13 open on file 1. -/
theorem C11_counterexample :
    exSaved.redirlist = [[{ orig := 1, into := 13 }]] ∧
    getObj exSaved.fds 13 = some (.file 1) ∧
    getObj (clearredir true exSaved).st.fds 13 = none ∧
    getObj (clearredir false exSaved).st.fds 13 = some (.file 1) := by
  decide!

/-! ## C12: the flag list of fdflags -/

/-- Claim C12: for every flag-list string, on every system, `parseflags` works on
the tokens of the string, which are the non-empty pieces between its commas.
A name makes the search of the table return a line exactly when the line is in
the table and the name is a prefix of its name at least as long as its minimum
length, and no name does so for two lines.  When every token is `+name` or
`-name` with a name that selects a line, `parseflags` returns a set mask and a
clear mask with no common bit, where a bit is in the set mask exactly when the
last token that mentions it starts with `+` and in the clear mask exactly when
that token starts with `-`.  When some token is not of that form, `parseflags`
ends in an error. -/
theorem C12_parseflags_masks (k : Fcntl) (s : List Char) (st : State) :
    strtok s [] = (s.splitOn ',').filter (fun t => t ≠ []) ∧
    (∀ name fn, parseflags_find name (nv k) = some fn ↔ fn ∈ nv k ∧ selects name fn) ∧
    (∀ name fn fn', fn ∈ nv k → fn' ∈ nv k → selects name fn → selects name fn' → fn = fn') ∧
    ((∀ tok ∈ strtok s [], goodToken k tok) →
      ∃ pos neg, parseflags k s st = .ok (pos, neg) st ∧ pos &&& neg = 0 ∧
        ∀ i, (pos.testBit i = true ↔ lastMention k i (strtok s []) = some true) ∧
          (neg.testBit i = true ↔ lastMention k i (strtok s []) = some false)) ∧
    ((∃ tok ∈ strtok s [], ¬ goodToken k tok) → ∃ msg, parseflags k s st = .err msg st) := by
  refine ⟨strtok_eq_splitOn s, parseflags_find_iff k, fun name fn fn' h h' hs hs' =>
    selects_unique k name fn fn' h h' hs hs', fun hgood => ?_, fun hbad => ?_⟩
  · obtain ⟨pos, neg, hrun, hbits⟩ := parseflags_loop_good k st (strtok s []) 0 0 hgood
    refine ⟨pos, neg, hrun, ?_, fun i => ?_⟩
    · apply Nat.eq_of_testBit_eq
      intro i
      rw [Nat.testBit_and, (hbits i).1, (hbits i).2]
      cases lastMention k i (strtok s []) with
      | none => simp
      | some b => cases b <;> simp
    · rw [(hbits i).1, (hbits i).2]
      cases lastMention k i (strtok s []) with
      | none => simp
      | some b => cases b <;> simp
  · exact parseflags_loop_bad k st (strtok s []) 0 0 hbad

/-- With the example values, `+append,-cl,,+non,-ap` is accepted although a piece
between two commas is empty, and gives the set mask of `nonblock` and the clear
mask of `cloexec` and `append`; `+append,sync` and `+no` are rejected. -/
theorem parseflags_examples :
    (parseflags exFcntl ['+', 'a', 'p', 'p', 'e', 'n', 'd', ',', '-', 'c', 'l', ',', ',', '+',
      'n', 'o', 'n', ',', '-', 'a', 'p'] (exState (exTab 3))).val = some (0x4, 0x400008) ∧
    (parseflags exFcntl ['+', 'a', 'p', 'p', 'e', 'n', 'd', ',', 's', 'y', 'n', 'c']
      (exState (exTab 3))).isOk = false ∧
    (parseflags exFcntl ['+', 'n', 'o'] (exState (exTab 3))).isOk = false := by
  decide!

/-! ## C13: setting flags with fdflags -/

/-- The example of the spec in the example system: descriptor 1 reports no flag;
after `+append` it reports `append`, and after `-append` it reports no flag
again. -/
theorem fdflags_append_example :
    ((printone exFcntl 1 true false true (exState (exTab 3))).st.out1text
      = ['1', ':', ' ', '\n']) ∧
    ((do setone exFcntl 1 0x8 0 false; printone exFcntl 1 true false true : M Unit)
      (exState (exTab 3))).st.out1text
      = ['1', ':', ' ', 'a', 'p', 'p', 'e', 'n', 'd', '\n'] ∧
    ((do setone exFcntl 1 0x8 0 false; setone exFcntl 1 0 0x8 false
         printone exFcntl 1 true false true : M Unit)
      (exState (exTab 3))).st.out1text
      = ['1', ':', ' ', '\n'] := by
  decide!

end Redir
